import Mathlib

/-!
# Atlas toolchain: shallow embedding and verification

This file embeds the core of the Atlas toolchain (assembler, linker,
instruction encoder/decoder, object-file codec, Intel HEX codec) in Lean and
proves or refutes the specification claims about it.

Machine integers are modelled as `Nat` (u8/u16/u32) and `Int` (i32), with
explicit truncation where the source truncates.  Rust `Result` becomes
`Except`, a Rust panic is modelled as a distinct error constructor.
-/

namespace Atlas

/-! ## ISA model (crates/atlas-isa)

The enumerations mirror `opcode.rs`.  The checked-in `opcode.rs` predates the
encoder: it lacks `BranchCond::OV`, the six-variant `StackOp` and
`PeekPokeOp`, which `encoder.rs` and the parser use.  Those are *modelled from
the spec* (§4.1 canonical numeric assignments): `StackOp = PUSH, POP,
SUBSP_IMM, SUBSP_REG, ADDSP_IMM, ADDSP_REG`, `PeekPokeOp = POKE, PEEK`,
`BranchCond` code 7 is `OV`. -/

inductive AluOp
  | ADD | ADDC | SUB | SUBC | AND | OR | XOR | NOT
  | SHL | SHR | ROL | ROR | CMP | TST | MOV | NEG
deriving DecidableEq, Repr

/-- Numeric discriminant of `AluOp` (declaration order, `ADD = 0`). -/
def AluOp.val : AluOp → Nat
  | .ADD => 0 | .ADDC => 1 | .SUB => 2 | .SUBC => 3
  | .AND => 4 | .OR => 5 | .XOR => 6 | .NOT => 7
  | .SHL => 8 | .SHR => 9 | .ROL => 10 | .ROR => 11
  | .CMP => 12 | .TST => 13 | .MOV => 14 | .NEG => 15

inductive ImmOp
  | LDI | ADDI | SUBI | ANDI | ORI
deriving DecidableEq, Repr

def ImmOp.val : ImmOp → Nat
  | .LDI => 0 | .ADDI => 1 | .SUBI => 2 | .ANDI => 3 | .ORI => 4

inductive MemOp
  | LD | ST
deriving DecidableEq, Repr

def MemOp.val : MemOp → Nat
  | .LD => 0 | .ST => 1

/-- Modelled from the spec: the checked-in `opcode.rs` stops at `PL`; the
encoder's decode tables use code 7 as `OV` (spec §4.1). -/
inductive BranchCond
  | Unconditional | EQ | NE | CS | CC | MI | PL | OV
deriving DecidableEq, Repr

def BranchCond.val : BranchCond → Nat
  | .Unconditional => 0 | .EQ => 1 | .NE => 2 | .CS => 3
  | .CC => 4 | .MI => 5 | .PL => 6 | .OV => 7

/-- Modelled from the spec: the six-variant `StackOp` used by the parser and
encoder is missing from the checked-in `opcode.rs`; variant order follows
spec §4.1 and the decoder's match arms. -/
inductive StackOp
  | PUSH | POP | SUBSP_IMM | SUBSP_REG | ADDSP_IMM | ADDSP_REG
deriving DecidableEq, Repr

def StackOp.val : StackOp → Nat
  | .PUSH => 0 | .POP => 1 | .SUBSP_IMM => 2 | .SUBSP_REG => 3
  | .ADDSP_IMM => 4 | .ADDSP_REG => 5

/-- Modelled from the spec: `PeekPokeOp = POKE, PEEK` (spec §4.1); its
discriminant is never encoded (the encoder uses type fields 0xB/0xC). -/
inductive PeekPokeOp
  | POKE | PEEK
deriving DecidableEq, Repr

inductive XTypeOp
  | SYSC | ERET | HALT | ICINV | DCINV | DCCLEAN | FLUSH
deriving DecidableEq, Repr

def XTypeOp.val : XTypeOp → Nat
  | .SYSC => 0 | .ERET => 1 | .HALT => 2 | .ICINV => 3
  | .DCINV => 4 | .DCCLEAN => 5 | .FLUSH => 6

/-! ### Operands (operands.rs) -/

/-- `RegisterIdentifier` is `u8`; modelled as `Nat`.  (`Nat` is used directly
in field positions below so that arithmetic automation sees the bare type.) -/
def RegisterIdentifier : Type := Nat

structure RegisterPairIdentifier where
  high : Nat
  low : Nat
deriving DecidableEq, Repr

inductive MOffset
  | Offset8 (raw : Nat)
  | SR (reg : Nat)
deriving DecidableEq, Repr

inductive Operand
  | Immediate (val : Nat)
  | Label (name : String)
deriving DecidableEq, Repr

/-- `BranchOperand` is an alias of `Operand` in the source. -/
abbrev BranchOperand := Operand

inductive XOperand
  | None
  | Immediate (imm : Nat)
  | Register (reg : Nat)
  | Registers (r1 r2 : Nat)
deriving DecidableEq, Repr

/-! ### ParsedInstruction (instruction.rs; the checked-in file still calls it
`ResolvedInstruction`, field-for-field identical) -/

inductive ParsedInstruction
  | A (op : AluOp) (dest source : Nat) (line : Nat)
      (source_file : Option String)
  | I (op : ImmOp) (dest : Nat) (immediate : Operand)
      (line : Nat) (source_file : Option String)
  | M (op : MemOp) (dest base : Nat) (offset : MOffset)
      (line : Nat) (source_file : Option String)
  | BI (absolute : Bool) (cond : BranchCond) (operand : BranchOperand)
      (line : Nat) (source_file : Option String)
  | BR (absolute : Bool) (cond : BranchCond)
      (source : RegisterPairIdentifier) (line : Nat)
      (source_file : Option String)
  | S (op : StackOp) (operand : Nat) (line : Nat) (source_file : Option String)
  | P (op : PeekPokeOp) (register : Nat) (offset : Operand)
      (line : Nat) (source_file : Option String)
  | X (op : XTypeOp) (operand : XOperand) (line : Nat)
      (source_file : Option String)
deriving DecidableEq, Repr

/-! ### Hex formatting used by error messages (Rust `format!("{:x}", v)`) -/

def hexDigitLower (n : Nat) : Char :=
  if n < 10 then Char.ofNat (48 + n) else Char.ofNat (87 + n)

def hexCharsLowerAux : Nat → Nat → List Char → List Char
  | 0, _, acc => acc
  | fuel + 1, n, acc =>
      let d := hexDigitLower (n % 16)
      if n < 16 then d :: acc else hexCharsLowerAux fuel (n / 16) (d :: acc)

/-- Digit-by-digit lowercase hex accumulation (fueled so that it reduces in
the kernel; `n / 16 < n`, so `n + 1` fuel always suffices). -/
def hexCharsLower (n : Nat) (acc : List Char) : List Char :=
  hexCharsLowerAux (n + 1) n acc

/-- Lowercase hex rendering of a `Nat`, matching Rust `{:x}`. -/
def natToHexLower (n : Nat) : String := String.mk (hexCharsLower n [])

/-! ### Encoder (encoder.rs, `ParsedInstruction::encode`) -/

structure EncodingError where
  line : Nat
  message : String
deriving DecidableEq, Repr

def encode : ParsedInstruction → Except EncodingError Nat
  | .A op dest source _line _sf =>
      -- A-type: [15:12]=0000, [11:8]=dest, [7:4]=source, [3:0]=op
      .ok ((dest <<< 8) ||| (source <<< 4) ||| op.val)
  | .I op dest immediate line _sf =>
      match immediate with
      | .Immediate val =>
          if val > 0xFF then
            .error ⟨line, "Immediate value 0x" ++ natToHexLower val ++
              " exceeds 8-bit range"⟩
          else
            let type_field := 1 + op.val
            .ok ((type_field <<< 12) ||| (dest <<< 8) ||| val)
      | .Label name =>
          .error ⟨line, "Cannot encode unresolved label reference: '" ++
            name ++ "'"⟩
  | .M op dest base offset _line _sf =>
      let type_field := 6 + op.val
      let offset_val := match offset with
        | .Offset8 val => val
        | .SR reg => reg
      .ok ((type_field <<< 12) ||| (dest <<< 8) ||| (base <<< 4) |||
        (offset_val &&& 0xF))
  | .BI absolute cond operand line _sf =>
      match operand with
      | .Immediate addr =>
          if addr > 0xFF then
            .error ⟨line, "Branch address 0x" ++ natToHexLower addr ++
              " exceeds 8-bit range"⟩
          else
            .ok ((8 <<< 12) ||| ((if absolute then 1 else 0) <<< 11) |||
              (cond.val <<< 8) ||| addr)
      | .Label name =>
          .error ⟨line, "Cannot encode unresolved label reference: '" ++
            name ++ "'"⟩
  | .BR absolute cond source _line _sf =>
      -- BR-type: [15:12]=1001, [11]=abs, [10:8]=cond, [7:4]=rs_low, [3:0]=rs_high
      .ok ((9 <<< 12) ||| ((if absolute then 1 else 0) <<< 11) |||
        (cond.val <<< 8) ||| (source.low <<< 4) ||| source.high)
  | .S op operand _line _sf =>
      -- S-type: [15:12]=1010, [11:8]=xop, [7:0]=operand
      .ok ((10 <<< 12) ||| (op.val <<< 8) ||| operand)
  | .P op register offset line _sf =>
      match offset with
      | .Immediate val =>
          if val > 0xFF then
            .error ⟨line, "Peek/Poke offset 0x" ++ natToHexLower val ++
              " exceeds 8-bit range"⟩
          else
            -- P-type: peek = type-field 1011, poke = type-field 1100
            let type_field : Nat := match op with
              | .PEEK => 0xB
              | .POKE => 0xC
            .ok ((type_field <<< 12) ||| (register <<< 8) ||| val)
      | .Label name =>
          .error ⟨line, "Cannot encode unresolved label reference: '" ++
            name ++ "'"⟩
  | .X op operand _line _sf =>
      -- X-type: [15:12]=1101 (13)
      let operand_bits := match operand with
        | .Registers source destination => (source <<< 4) ||| destination
        | .Immediate imm => imm
        | .Register reg => reg
        | .None => 0
      .ok ((13 <<< 12) ||| (op.val <<< 8) ||| operand_bits)

/-! ### Decoder (encoder.rs, `ParsedInstruction::decode`) -/

def decode (encoded : Nat) : Except String ParsedInstruction :=
  let opcode := (encoded >>> 12) &&& 0xF
  if opcode = 0 then
    let dest := (encoded >>> 8) &&& 0xF
    let source := (encoded >>> 4) &&& 0xF
    let op_val := encoded &&& 0xF
    match op_val with
    | 0 => .ok (.A .ADD dest source 0 none)
    | 1 => .ok (.A .ADDC dest source 0 none)
    | 2 => .ok (.A .SUB dest source 0 none)
    | 3 => .ok (.A .SUBC dest source 0 none)
    | 4 => .ok (.A .AND dest source 0 none)
    | 5 => .ok (.A .OR dest source 0 none)
    | 6 => .ok (.A .XOR dest source 0 none)
    | 7 => .ok (.A .NOT dest source 0 none)
    | 8 => .ok (.A .SHL dest source 0 none)
    | 9 => .ok (.A .SHR dest source 0 none)
    | 10 => .ok (.A .ROL dest source 0 none)
    | 11 => .ok (.A .ROR dest source 0 none)
    | 12 => .ok (.A .CMP dest source 0 none)
    | 13 => .ok (.A .TST dest source 0 none)
    | 14 => .ok (.A .MOV dest source 0 none)
    | 15 => .ok (.A .NEG dest source 0 none)
    | _ => .error ("Invalid ALU operation: " ++ toString op_val)
  else if 1 ≤ opcode ∧ opcode ≤ 5 then
    let op_val := opcode - 1
    let dest := (encoded >>> 8) &&& 0xF
    let immediate := encoded &&& 0xFF
    match op_val with
    | 0 => .ok (.I .LDI dest (.Immediate immediate) 0 none)
    | 1 => .ok (.I .ADDI dest (.Immediate immediate) 0 none)
    | 2 => .ok (.I .SUBI dest (.Immediate immediate) 0 none)
    | 3 => .ok (.I .ANDI dest (.Immediate immediate) 0 none)
    | 4 => .ok (.I .ORI dest (.Immediate immediate) 0 none)
    | _ => .error ("Invalid immediate operation: " ++ toString op_val)
  else if 6 ≤ opcode ∧ opcode ≤ 7 then
    let op_val := opcode - 6
    let dest := (encoded >>> 8) &&& 0xF
    let base := (encoded >>> 4) &&& 0xF
    let offset_val := encoded &&& 0xF
    match op_val with
    | 0 => .ok (.M .LD dest base (.Offset8 offset_val) 0 none)
    | 1 => .ok (.M .ST dest base (.Offset8 offset_val) 0 none)
    | _ => .error ("Invalid memory operation: " ++ toString op_val)
  else if opcode = 8 then
    let absolute := ((encoded >>> 11) &&& 1) != 0
    let cond_val := (encoded >>> 8) &&& 0x7
    let address := encoded &&& 0xFF
    match cond_val with
    | 0 => .ok (.BI absolute .Unconditional (.Immediate address) 0 none)
    | 1 => .ok (.BI absolute .EQ (.Immediate address) 0 none)
    | 2 => .ok (.BI absolute .NE (.Immediate address) 0 none)
    | 3 => .ok (.BI absolute .CS (.Immediate address) 0 none)
    | 4 => .ok (.BI absolute .CC (.Immediate address) 0 none)
    | 5 => .ok (.BI absolute .MI (.Immediate address) 0 none)
    | 6 => .ok (.BI absolute .PL (.Immediate address) 0 none)
    | 7 => .ok (.BI absolute .OV (.Immediate address) 0 none)
    | _ => .error ("Invalid branch condition: " ++ toString cond_val)
  else if opcode = 9 then
    let absolute := ((encoded >>> 11) &&& 1) != 0
    let cond_val := (encoded >>> 8) &&& 0x7
    let low := (encoded >>> 4) &&& 0xF
    let high := encoded &&& 0xF
    match cond_val with
    | 0 => .ok (.BR absolute .Unconditional ⟨high, low⟩ 0 none)
    | 1 => .ok (.BR absolute .EQ ⟨high, low⟩ 0 none)
    | 2 => .ok (.BR absolute .NE ⟨high, low⟩ 0 none)
    | 3 => .ok (.BR absolute .CS ⟨high, low⟩ 0 none)
    | 4 => .ok (.BR absolute .CC ⟨high, low⟩ 0 none)
    | 5 => .ok (.BR absolute .MI ⟨high, low⟩ 0 none)
    | 6 => .ok (.BR absolute .PL ⟨high, low⟩ 0 none)
    | 7 => .ok (.BR absolute .OV ⟨high, low⟩ 0 none)
    | _ => .error ("Invalid branch condition: " ++ toString cond_val)
  else if opcode = 10 then
    let op_val := (encoded >>> 8) &&& 0xF
    let operand := encoded &&& 0xFF
    match op_val with
    | 0 => .ok (.S .PUSH operand 0 none)
    | 1 => .ok (.S .POP operand 0 none)
    | 2 => .ok (.S .SUBSP_IMM operand 0 none)
    | 3 => .ok (.S .SUBSP_REG operand 0 none)
    | 4 => .ok (.S .ADDSP_IMM operand 0 none)
    | 5 => .ok (.S .ADDSP_REG operand 0 none)
    | _ => .error ("Invalid stack operation: " ++ toString op_val)
  else if opcode = 11 then
    let register := (encoded >>> 8) &&& 0xF
    let offset := encoded &&& 0xFF
    .ok (.P .PEEK register (.Immediate offset) 0 none)
  else if opcode = 12 then
    let register := (encoded >>> 8) &&& 0xF
    let offset := encoded &&& 0xFF
    .ok (.P .POKE register (.Immediate offset) 0 none)
  else if opcode = 13 then
    let op_val := (encoded >>> 8) &&& 0xF
    let operand_val := encoded &&& 0xFF
    let xoperand (op : XTypeOp) : XOperand :=
      match op with
      | .SYSC => .Immediate operand_val
      | _ =>
          if operand_val = 0 then .None
          else .Registers ((operand_val >>> 4) &&& 0xF) (operand_val &&& 0xF)
    match op_val with
    | 0 => .ok (.X .SYSC (xoperand .SYSC) 0 none)
    | 1 => .ok (.X .ERET (xoperand .ERET) 0 none)
    | 2 => .ok (.X .HALT (xoperand .HALT) 0 none)
    | 3 => .ok (.X .ICINV (xoperand .ICINV) 0 none)
    | 4 => .ok (.X .DCINV (xoperand .DCINV) 0 none)
    | 5 => .ok (.X .DCCLEAN (xoperand .DCCLEAN) 0 none)
    | 6 => .ok (.X .FLUSH (xoperand .FLUSH) 0 none)
    | _ => .error ("Invalid extended operation: " ++ toString op_val)
  else .error ("Invalid opcode: " ++ toString opcode)

/-- Erase the diagnostic fields (`line := 0`, `source_file := none`), the
equivalence modulo which the round-trip law is stated. -/
def stripMeta : ParsedInstruction → ParsedInstruction
  | .A op dest source _ _ => .A op dest source 0 none
  | .I op dest immediate _ _ => .I op dest immediate 0 none
  | .M op dest base offset _ _ => .M op dest base offset 0 none
  | .BI absolute cond operand _ _ => .BI absolute cond operand 0 none
  | .BR absolute cond source _ _ => .BR absolute cond source 0 none
  | .S op operand _ _ => .S op operand 0 none
  | .P op register offset _ _ => .P op register offset 0 none
  | .X op operand _ _ => .X op operand 0 none

deriving instance DecidableEq for Except

/-- `encode` followed by `decode` (errors flattened to their message). -/
def encodeThenDecode (x : ParsedInstruction) : Except String ParsedInstruction :=
  match encode x with
  | .ok w => decode w
  | .error e => .error e.message

/-- The exact domain on which the encode/decode round trip holds: all
register fields below 16, resolved immediates in 8-bit range, `M` offsets
given as raw 4-bit `Offset8`, and `X` operands in the decoder's canonical
shape (`SYSC` carries an immediate; the others carry `None` or a non-zero
register pair). -/
def roundTripSafe : ParsedInstruction → Bool
  | .A _ dest source _ _ => dest < 16 && source < 16
  | .I _ dest (.Immediate v) _ _ => dest < 16 && v < 256
  | .I _ _ (.Label _) _ _ => false
  | .M _ dest base (.Offset8 raw) _ _ => dest < 16 && base < 16 && raw < 16
  | .M _ _ _ (.SR _) _ _ => false
  | .BI _ _ (.Immediate v) _ _ => v < 256
  | .BI _ _ (.Label _) _ _ => false
  | .BR _ _ src _ _ => src.high < 16 && src.low < 16
  | .S _ operand _ _ => operand < 256
  | .P _ register (.Immediate v) _ _ => register < 16 && v < 256
  | .P _ _ (.Label _) _ _ => false
  | .X op operand _ _ =>
      match op, operand with
      | .SYSC, .Immediate v => v < 256
      | .SYSC, _ => false
      | _, .None => true
      | _, .Registers a b => a < 16 && b < 16 && !(a == 0 && b == 0)
      | _, _ => false

/-! ## Mnemonics (instruction.rs / mnemonics.rs)

The checked-in `instruction.rs` predates the parser: the re-export calls the
enum `Mnemonic` and the parser matches `Mnemonic::INC` / `Mnemonic::DEC`,
which the older file lacks.  `INC` and `DEC` are modelled from the spec
(§3 `Virtual` bucket: `nop`, `inc`, `dec`), everything else follows
`mnemonics.rs`. -/

inductive Mnemonic
  | ADD | ADDC | SUB | SUBC | AND | OR | XOR | NOT
  | SHL | SHR | ROL | ROR | CMP | TST | MOV | NEG
  | LDI | ADDI | SUBI | ANDI | ORI
  | LD | ST
  | BR | BEQ | BNE | BCS | BCC | BMI | BPL
  | PUSH | POP | SUBSP | ADDSP
  | POKE | PEEK
  | SYSC | ERET | HALT | ICINV | DCINV | DCCLEAN | FLUSH
  | NOP | INC | DEC
deriving DecidableEq, Repr

inductive InstructionFormat
  | A | I | M | B | S | P | X | Virtual
deriving DecidableEq, Repr

def Mnemonic.mnemonic : Mnemonic → String
  | .ADD => "add" | .ADDC => "addc" | .SUB => "sub" | .SUBC => "subc"
  | .AND => "and" | .OR => "or" | .XOR => "xor" | .NOT => "not"
  | .SHL => "shl" | .SHR => "shr" | .ROL => "rol" | .ROR => "ror"
  | .CMP => "cmp" | .TST => "tst" | .MOV => "mov" | .NEG => "neg"
  | .LDI => "ldi" | .ADDI => "addi" | .SUBI => "subi" | .ANDI => "andi"
  | .ORI => "ori"
  | .LD => "ld" | .ST => "st"
  | .BR => "br" | .BEQ => "beq" | .BNE => "bne" | .BCS => "bcs"
  | .BCC => "bcc" | .BMI => "bmi" | .BPL => "bpl"
  | .PUSH => "push" | .POP => "pop" | .SUBSP => "subsp" | .ADDSP => "addsp"
  | .POKE => "poke" | .PEEK => "peek"
  | .SYSC => "sysc" | .ERET => "eret" | .HALT => "halt" | .ICINV => "icinv"
  | .DCINV => "dcinv" | .DCCLEAN => "dcclean" | .FLUSH => "flush"
  | .NOP => "nop" | .INC => "inc" | .DEC => "dec"

def Mnemonic.get_type : Mnemonic → InstructionFormat
  | .ADD | .ADDC | .SUB | .SUBC | .AND | .OR | .XOR | .NOT
  | .SHL | .SHR | .ROL | .ROR | .CMP | .TST | .MOV | .NEG => .A
  | .LDI | .ADDI | .SUBI | .ANDI | .ORI => .I
  | .LD | .ST => .M
  | .BR | .BEQ | .BNE | .BCS | .BCC | .BMI | .BPL => .B
  | .PUSH | .POP | .SUBSP | .ADDSP => .S
  | .POKE | .PEEK => .P
  | .SYSC | .ERET | .HALT | .ICINV | .DCINV | .DCCLEAN | .FLUSH => .X
  | .NOP | .INC | .DEC => .Virtual

/-- ASCII lower-casing (Rust `str::to_lowercase`; mnemonics are ASCII). -/
def toLowerChar (c : Char) : Char :=
  if 'A' ≤ c ∧ c ≤ 'Z' then Char.ofNat (c.toNat + 32) else c

def toLowerString (s : String) : String := String.mk (s.data.map toLowerChar)

def Mnemonic.from_str (word : String) : Option Mnemonic :=
  match toLowerString word with
  | "add" => some .ADD | "addc" => some .ADDC | "sub" => some .SUB
  | "subc" => some .SUBC | "and" => some .AND | "or" => some .OR
  | "xor" => some .XOR | "not" => some .NOT | "shl" => some .SHL
  | "shr" => some .SHR | "rol" => some .ROL | "ror" => some .ROR
  | "cmp" => some .CMP | "tst" => some .TST | "mov" => some .MOV
  | "neg" => some .NEG
  | "ldi" => some .LDI | "addi" => some .ADDI | "subi" => some .SUBI
  | "andi" => some .ANDI | "ori" => some .ORI
  | "ld" => some .LD | "st" => some .ST
  | "br" => some .BR | "beq" => some .BEQ | "bne" => some .BNE
  | "bcs" => some .BCS | "bcc" => some .BCC | "bmi" => some .BMI
  | "bpl" => some .BPL
  | "push" => some .PUSH | "pop" => some .POP | "subsp" => some .SUBSP
  | "addsp" => some .ADDSP
  | "poke" => some .POKE | "peek" => some .PEEK
  | "sysc" => some .SYSC | "eret" => some .ERET | "halt" => some .HALT
  | "icinv" => some .ICINV | "dcinv" => some .DCINV
  | "dcclean" => some .DCCLEAN | "flush" => some .FLUSH
  | "nop" => some .NOP | "inc" => some .INC | "dec" => some .DEC
  | _ => none

/-- Opcode family projections (`opcode.rs`, `*::from_instruction`). -/
def AluOp.from_instruction : Mnemonic → Option AluOp
  | .ADD => some .ADD | .ADDC => some .ADDC | .SUB => some .SUB
  | .SUBC => some .SUBC | .AND => some .AND | .OR => some .OR
  | .XOR => some .XOR | .NOT => some .NOT | .SHL => some .SHL
  | .SHR => some .SHR | .ROL => some .ROL | .ROR => some .ROR
  | .CMP => some .CMP | .TST => some .TST | .MOV => some .MOV
  | .NEG => some .NEG
  | _ => none

def ImmOp.from_instruction : Mnemonic → Option ImmOp
  | .LDI => some .LDI | .ADDI => some .ADDI | .SUBI => some .SUBI
  | .ANDI => some .ANDI | .ORI => some .ORI
  | _ => none

def MemOp.from_instruction : Mnemonic → Option MemOp
  | .LD => some .LD | .ST => some .ST
  | _ => none

def BranchCond.from_instruction : Mnemonic → Option BranchCond
  | .BR => some .Unconditional | .BEQ => some .EQ | .BNE => some .NE
  | .BCS => some .CS | .BCC => some .CC | .BMI => some .MI
  | .BPL => some .PL
  | _ => none

/-- Modelled from the spec alongside `PeekPokeOp` itself (the checked-in
`opcode.rs` has a `PortOp` with the same `POKE`/`PEEK` mapping). -/
def PeekPokeOp.from_instruction : Mnemonic → Option PeekPokeOp
  | .POKE => some .POKE | .PEEK => some .PEEK
  | _ => none

def XTypeOp.from_instruction : Mnemonic → Option XTypeOp
  | .SYSC => some .SYSC | .ERET => some .ERET | .HALT => some .HALT
  | .ICINV => some .ICINV | .DCINV => some .DCINV
  | .DCCLEAN => some .DCCLEAN | .FLUSH => some .FLUSH
  | _ => none

/-! ## Lexer (crates/atlas-assembler/src/lexer) -/

inductive Directive
  | Global | Import | Imm | Text | Data | Bss | Section | Byte | Word | Ascii
deriving DecidableEq, Repr

def Directive.from_str : String → Option Directive
  | "global" => some .Global
  | "export" => some .Global
  | "import" => some .Import
  | "imm" => some .Imm
  | "text" => some .Text
  | "data" => some .Data
  | "bss" => some .Bss
  | "section" => some .Section
  | "byte" => some .Byte
  | "word" => some .Word
  | "ascii" => some .Ascii
  | _ => none

structure Immediate where
  value : Int
  signed : Bool
deriving DecidableEq, Repr

inductive Token
  | Mnemonic (m : Atlas.Mnemonic)
  | Directive (d : Atlas.Directive)
  | Register (id : Nat)
  | Immediate (imm : Atlas.Immediate)
  | LabelDef (name : String)
  | LabelRef (name : String)
  | Comma
  | AtSign
  | OpenParen
  | CloseParen
  | OpenBracket
  | CloseBracket
  | NewLine
  | EoF
deriving DecidableEq, Repr

structure Span where
  start : Nat
  stop : Nat
  line : Nat
deriving DecidableEq, Repr

structure SpannedToken where
  token : Token
  span : Span
deriving DecidableEq, Repr

inductive LexError
  | InvalidCharacter (c : Char) (pos line : Nat)
  | InvalidNumber (num : String) (pos line : Nat)
  | InvalidDirective (dir : String) (pos line : Nat)
  | UnexpectedEof
deriving DecidableEq, Repr

/-- `char::to_digit(radix)`. -/
def digitVal (radix : Nat) (c : Char) : Option Nat :=
  let d :=
    if '0' ≤ c ∧ c ≤ '9' then some (c.toNat - 48)
    else if 'a' ≤ c ∧ c ≤ 'z' then some (c.toNat - 87)
    else if 'A' ≤ c ∧ c ≤ 'Z' then some (c.toNat - 55)
    else none
  match d with
  | some v => if v < radix then some v else none
  | none => none

/-- Rust `i32::from_str_radix` / `str::parse::<i32>`: optional sign,
non-empty digit string, overflow-checked 32-bit result. -/
def fromStrRadixI32 (radix : Nat) (cs : List Char) : Option Int :=
  let signDigits : Int × List Char :=
    match cs with
    | '+' :: rest => (1, rest)
    | '-' :: rest => (-1, rest)
    | _ => (1, cs)
  match signDigits with
  | (sign, digits) =>
    if digits.isEmpty then none
    else
      (digits.foldl
        (fun acc c => acc.bind fun n => (digitVal radix c).map fun d =>
          n * radix + d)
        (some 0)).bind fun mag =>
          let v := sign * (mag : Int)
          if -(2 ^ 31) ≤ v ∧ v < 2 ^ 31 then some v else none

/-- Rust `str::parse::<u8>`: optional `+`, digits, value ≤ 255. -/
def parseU8 (cs : List Char) : Option Nat :=
  let digits := match cs with
    | '+' :: rest => rest
    | _ => cs
  if digits.isEmpty then none
  else
    (digits.foldl
      (fun acc c => acc.bind fun n => (digitVal 10 c).map fun d =>
        n * 10 + d)
      (some 0)).bind fun v => if v ≤ 255 then some v else none

def is_whitespace (c : Char) : Bool := c = ' ' || c = '\t' || c = '\n'

def is_punctuation (c : Char) : Bool :=
  c = ',' || c = '@' || c = '\n' || c = '(' || c = ')' || c = '[' || c = ']'

def process_single_char_token : Char → Option Token
  | ',' => some .Comma
  | '@' => some .AtSign
  | '(' => some .OpenParen
  | ')' => some .CloseParen
  | '[' => some .OpenBracket
  | ']' => some .CloseBracket
  | _ => none

/-- `Lexer::check_for_number`: `none` = not a number; `some (.error w)` =
malformed prefixed literal. -/
def check_for_number (word : List Char) : Option (Except String Int) :=
  match word with
  | '0' :: 'x' :: number =>
      some (match fromStrRadixI32 16 number with
        | some v => .ok v
        | none => .error (String.mk word))
  | '0' :: 'b' :: number =>
      some (match fromStrRadixI32 2 number with
        | some v => .ok v
        | none => .error (String.mk word))
  | '0' :: 'o' :: number =>
      some (match fromStrRadixI32 8 number with
        | some v => .ok v
        | none => .error (String.mk word))
  | _ =>
      match fromStrRadixI32 10 word with
      | some v => some (.ok v)
      | none => none

/-- Lexer state: `src` is the not-yet-consumed suffix, `pos` the byte
position within the original source. -/
structure LexState where
  src : List Char
  pos : Nat
  line : Nat
  eof_reached : Bool
  last_was_newline : Bool
deriving Repr

/-- Skip spaces and tabs (`Lexer::skip`, inner while). -/
def skipWs : List Char → Nat → List Char × Nat
  | c :: rest, p =>
      if c = ' ' ∨ c = '\t' then skipWs rest (p + c.utf8Size) else (c :: rest, p)
  | [], p => ([], p)

/-- Skip a `;` comment up to (not including) the newline. -/
def skipComment : List Char → Nat → List Char × Nat
  | c :: rest, p =>
      if c = '\n' then (c :: rest, p) else skipComment rest (p + c.utf8Size)
  | [], p => ([], p)

/-- `Lexer::skip`: one pass of whitespace then an optional comment. -/
def lexSkip (st : LexState) : LexState :=
  match skipWs st.src st.pos with
  | (s1, p1) =>
    match s1 with
    | ';' :: _ =>
        match skipComment s1 p1 with
        | (s2, p2) => { st with src := s2, pos := p2 }
    | _ => { st with src := s1, pos := p1 }

/-- Consume a run of consecutive newlines (collapse branch). -/
def collapseNewlines : List Char → Nat → Nat → List Char × Nat × Nat
  | '\n' :: rest, p, l => collapseNewlines rest (p + 1) (l + 1)
  | s, p, l => (s, p, l)

/-- `Lexer::get_word`: word chars, remaining source, new byte position. -/
def getWord : List Char → Nat → List Char × List Char × Nat
  | c :: rest, p =>
      if is_whitespace c || is_punctuation c then ([], c :: rest, p)
      else
        match getWord rest (p + c.utf8Size) with
        | (w, r, p') => (c :: w, r, p')
  | [], p => ([], [], p)

/-- Classify a non-empty word (the chain of checks in `Lexer::next` after
`get_word`); `start` is the word's starting byte position. -/
def classifyWord (word : List Char) (start stop line : Nat) :
    Except LexError SpannedToken :=
  let w := String.mk word
  let span : Span := ⟨start, stop, line⟩
  match word with
  | '.' :: rest =>
      match Directive.from_str (String.mk rest) with
      | some d => .ok ⟨.Directive d, span⟩
      | none => .error (.InvalidDirective w start line)
  | _ =>
      let asRegister : Option Token :=
        match word with
        | 'r' :: num =>
            match parseU8 num with
            | some n => if n ≤ 15 then some (.Register n) else none
            | none => none
        | _ => none
      match asRegister with
      | some t => .ok ⟨t, span⟩
      | none =>
        let asNamedReg : Option Nat :=
          if w = "tr" then some 10
          else if w = "sp" then some 12
          else if w = "pc" then some 14
          else none
        match asNamedReg with
        | some reg => .ok ⟨.Register reg, span⟩
        | none =>
          match check_for_number word with
          | some (.ok value) =>
              let is_signed := word.head? = some '+' ∨ word.head? = some '-'
              .ok ⟨.Immediate ⟨value, is_signed⟩, span⟩
          | some (.error msg) => .error (.InvalidNumber msg start line)
          | none =>
            match word.getLast? with
            | some ':' =>
                let label := word.dropLast
                if label.isEmpty then
                  .error (.InvalidCharacter ':' start line)
                else .ok ⟨.LabelDef (String.mk label), span⟩
            | _ =>
              match Mnemonic.from_str w with
              | some m => .ok ⟨.Mnemonic m, span⟩
              | none => .ok ⟨.LabelRef w, span⟩

/-- `Lexer::next` (fueled; each recursive call has consumed at least one
character, so `src.length + 1` fuel always suffices). -/
def lexNext : Nat → LexState → Option (Except LexError SpannedToken × LexState)
  | 0, _ => none
  | fuel + 1, st0 =>
    if st0.eof_reached then none
    else
      let st := lexSkip st0
      match st.src with
      | [] =>
          some (.ok ⟨.EoF, ⟨st.pos, st.pos, st.line⟩⟩,
            { st with eof_reached := true })
      | c :: rest =>
          if c = '\n' then
            if st.last_was_newline then
              match collapseNewlines (c :: rest) st.pos st.line with
              | (s', p', l') =>
                  lexNext fuel (lexSkip { st with src := s', pos := p', line := l' })
            else
              some (.ok ⟨.NewLine, ⟨st.pos, st.pos + 1, st.line⟩⟩,
                { st with
                    src := rest
                    pos := st.pos + 1
                    line := st.line + 1
                    last_was_newline := true })
          else
            match process_single_char_token c with
            | some t =>
                some (.ok ⟨t, ⟨st.pos, st.pos + c.utf8Size, st.line⟩⟩,
                  { st with
                      src := rest
                      pos := st.pos + c.utf8Size
                      last_was_newline := false })
            | none =>
                match getWord (c :: rest) st.pos with
                | (word, r, p') =>
                    match classifyWord word st.pos p' st.line with
                    | .ok t =>
                        some (.ok t,
                          { st with
                              src := r
                              pos := p'
                              last_was_newline := false })
                    | .error e => some (.error e, { st with src := r, pos := p' })

/-- Drain the lexer (`Lexer::tokenize`). -/
def lexAll : Nat → LexState → List SpannedToken →
    Except LexError (List SpannedToken)
  | 0, _, acc => .ok acc.reverse
  | fuel + 1, st, acc =>
      match lexNext (st.src.length + 1) st with
      | none => .ok acc.reverse
      | some (.error e, _) => .error e
      | some (.ok t, st') => lexAll fuel st' (t :: acc)

def tokenize (source : String) : Except LexError (List SpannedToken) :=
  lexAll (source.length + 2) ⟨source.data, 0, 1, false, false⟩ []

/-! ## Parser & symbol table (crates/atlas-assembler/src/parser) -/

inductive Symbol
  | Label (offset : Nat) (section_ : String)
  | Constant (value : Nat)
deriving DecidableEq, Repr

inductive ParsedItem
  | Instruction (instr : ParsedInstruction)
  | Data (bytes : List Nat)
  | SectionChange (name : String)
deriving DecidableEq, Repr

structure UnresolvedReference where
  offset : Nat
  section_ : String
  symbol : String
  addend : Int
deriving DecidableEq, Repr

/-- `SymbolTable` (symbols.rs).  `symbols` is a `HashMap`, `exports` and
`imports` are `HashSet`s; we model them as association/element lists with
overwrite-on-insert.  Rust's hash iteration order is unspecified; the model
fixes insertion order, and no claim is confirmed on the strength of that
choice. -/
structure SymbolTable where
  symbols : List (String × Symbol)
  exports : List String
  imports : List String
  unresolved : List UnresolvedReference
deriving DecidableEq, Repr

def listInsertReplace (m : List (String × Symbol)) (k : String) (v : Symbol) :
    List (String × Symbol) :=
  match m with
  | [] => [(k, v)]
  | (k', v') :: rest =>
      if k' = k then (k, v) :: rest else (k', v') :: listInsertReplace rest k v

def SymbolTable.new : SymbolTable := ⟨[], [], [], []⟩

def SymbolTable.insert (t : SymbolTable) (name : String) (symbol : Symbol) :
    SymbolTable :=
  { t with symbols := listInsertReplace t.symbols name symbol }

def SymbolTable.export (t : SymbolTable) (name : String) : SymbolTable :=
  if name ∈ t.exports then t else { t with exports := t.exports ++ [name] }

def SymbolTable.import (t : SymbolTable) (name : String) : SymbolTable :=
  if name ∈ t.imports then t else { t with imports := t.imports ++ [name] }

def SymbolTable.is_exported (t : SymbolTable) (name : String) : Bool :=
  t.exports.contains name

def SymbolTable.resolve (t : SymbolTable) (name : String) : Option Symbol :=
  (t.symbols.find? (fun p => p.1 = name)).map Prod.snd

inductive ParseError
  | InvalidParameters (line : Nat) (details : String)
  | UnknownSymbol (line : Nat) (name : String)
  | UnexpectedToken (line : Nat) (expected : String) (found : String)
  | ImmediateOutOfRange (line : Nat) (value min max : Int)
  | LexError (line : Nat) (details : String)
  | WriteToR0 (line : Nat) (instruction : String)
deriving DecidableEq, Repr

/-- Rust `{:?}` of `Directive` (its derived `Debug`). -/
def Directive.debugStr : Directive → String
  | .Global => "Global" | .Import => "Import" | .Imm => "Imm"
  | .Text => "Text" | .Data => "Data" | .Bss => "Bss"
  | .Section => "Section" | .Byte => "Byte" | .Word => "Word"
  | .Ascii => "Ascii"

def token_description : Token → String
  | .Mnemonic inst => "mnemonic '" ++ inst.mnemonic ++ "'"
  | .Directive dir => "directive '" ++ dir.debugStr ++ "'"
  | .Register reg => "register r" ++ toString reg
  | .Immediate imm =>
      if imm.signed then "relative offset " ++ toString imm.value
      else "immediate " ++ toString imm.value
  | .LabelDef name => "label definition '" ++ name ++ "'"
  | .LabelRef name => "label reference '" ++ name ++ "'"
  | .Comma => ","
  | .AtSign => "'@'"
  | .OpenParen => "'('"
  | .CloseParen => "')'"
  | .OpenBracket => "'['"
  | .CloseBracket => "']'"
  | .NewLine => "newline"
  | .EoF => "end of file"

/-- `Parser::lex_error`.  The source's `LexError` constructors are filled as
`(payload, start, line)` but this conversion (and `Display`) read the second
field, so the byte offset lands in the `line` slot; mirrored as-is. -/
def lex_error (last_line : Nat) : LexError → ParseError
  | .InvalidCharacter c pos line =>
      .LexError pos ("Invalid character '" ++ String.mk [c] ++ "' at line " ++
        toString pos ++ ", position " ++ toString line)
  | .InvalidNumber num pos line =>
      .LexError pos ("Invalid number '" ++ num ++ "' at line " ++
        toString pos ++ ", position " ++ toString line)
  | .InvalidDirective dir pos line =>
      .LexError pos ("Invalid directive '" ++ dir ++ "' at line " ++
        toString pos ++ ", position " ++ toString line)
  | .UnexpectedEof => .LexError last_line "Unexpected end of file"

/-- Rust `v as u16` for `v : i32`. -/
def i32_as_u16 (v : Int) : Nat := (v.emod 65536).toNat

/-- Rust `v as u8` for `v : i32`. -/
def i32_as_u8 (v : Int) : Nat := (v.emod 256).toNat

/-- Parser state besides the token stream (the `pending` lookahead buffer is
modelled by consing the token back onto the stream). -/
structure ParserState where
  pos : Nat
  symbols : SymbolTable
  last_line : Nat
  current_section : String
deriving DecidableEq, Repr

def next_token (st : ParserState) :
    List SpannedToken →
      Except ParseError (SpannedToken × ParserState × List SpannedToken)
  | [] => .error (.UnexpectedToken st.last_line "token" "end of file")
  | t :: rest => .ok (t, { st with last_line := t.span.line }, rest)

def expect_register (st : ParserState) (ts : List SpannedToken) :
    Except ParseError (Nat × ParserState × List SpannedToken) :=
  match next_token st ts with
  | .error e => .error e
  | .ok (tok, st, ts) =>
    match tok.token with
    | .Register reg => .ok (reg, st, ts)
    | .Immediate imm =>
        if !imm.signed ∧ 0 ≤ imm.value ∧ imm.value ≤ 15 then
          .ok (imm.value.toNat, st, ts)
        else
          .error (.UnexpectedToken tok.span.line "register"
            (token_description (.Immediate imm)))
    | other =>
        .error (.UnexpectedToken tok.span.line "register"
          (token_description other))

def expect_immediate_or_label (st : ParserState) (ts : List SpannedToken) :
    Except ParseError (Operand × ParserState × List SpannedToken) :=
  match next_token st ts with
  | .error e => .error e
  | .ok (tok, st, ts) =>
    match tok.token with
    | .Immediate imm => .ok (.Immediate (i32_as_u16 imm.value), st, ts)
    | .LabelRef name => .ok (.Label name, st, ts)
    | other =>
        .error (.UnexpectedToken tok.span.line "immediate or label"
          (token_description other))

def expect_comma (st : ParserState) (ts : List SpannedToken) :
    Except ParseError (ParserState × List SpannedToken) :=
  match next_token st ts with
  | .error e => .error e
  | .ok (tok, st, ts) =>
    match tok.token with
    | .Comma => .ok (st, ts)
    | other =>
        .error (.UnexpectedToken tok.span.line "','" (token_description other))

def expect_newline (st : ParserState) (ts : List SpannedToken) :
    Except ParseError (ParserState × List SpannedToken) :=
  match next_token st ts with
  | .error e => .error e
  | .ok (tok, st, ts) =>
    match tok.token with
    | .NewLine => .ok (st, ts)
    | .EoF => .ok (st, ts)
    | other =>
        .error (.UnexpectedToken tok.span.line "end of line"
          (token_description other))

def skip_to_line_end (st : ParserState) :
    List SpannedToken → Except ParseError (ParserState × List SpannedToken)
  | [] => .ok (st, [])
  | tok :: rest =>
      let st := { st with last_line := tok.span.line }
      match tok.token with
      | .NewLine => .ok (st, rest)
      | .EoF => .ok (st, rest)
      | _ => skip_to_line_end st rest

def collect_byte_list (st : ParserState) :
    List SpannedToken →
      Except ParseError (List Nat × ParserState × List SpannedToken)
  | [] => .error (.UnexpectedToken st.last_line "token" "end of file")
  | tok :: rest =>
    let st := { st with last_line := tok.span.line }
    match tok.token with
    | .Immediate imm =>
        if imm.value < -128 ∨ imm.value > 255 then
          .error (.ImmediateOutOfRange tok.span.line imm.value (-128) 255)
        else
          match rest with
          | [] => .error (.UnexpectedToken st.last_line "token" "end of file")
          | sep :: rest2 =>
            let st := { st with last_line := sep.span.line }
            match sep.token with
            | .Comma =>
                match collect_byte_list st rest2 with
                | .error e => .error e
                | .ok (bs, st', ts') => .ok (i32_as_u8 imm.value :: bs, st', ts')
            | .NewLine => .ok ([i32_as_u8 imm.value], st, rest2)
            | .EoF => .ok ([i32_as_u8 imm.value], st, rest2)
            | other =>
                .error (.UnexpectedToken sep.span.line "',' or end of line"
                  (token_description other))
    | .NewLine => .ok ([], st, rest)
    | .EoF => .ok ([], st, rest)
    | other =>
        .error (.UnexpectedToken tok.span.line "byte value"
          (token_description other))

def collect_word_list (st : ParserState) :
    List SpannedToken →
      Except ParseError (List Nat × ParserState × List SpannedToken)
  | [] => .error (.UnexpectedToken st.last_line "token" "end of file")
  | tok :: rest =>
    let st := { st with last_line := tok.span.line }
    match tok.token with
    | .Immediate imm =>
        if imm.value < -32768 ∨ imm.value > 65535 then
          .error (.ImmediateOutOfRange tok.span.line imm.value (-32768) 65535)
        else
          -- little-endian
          let word := i32_as_u16 imm.value
          let bytes := [word % 256, (word >>> 8) % 256]
          match rest with
          | [] => .error (.UnexpectedToken st.last_line "token" "end of file")
          | sep :: rest2 =>
            let st := { st with last_line := sep.span.line }
            match sep.token with
            | .Comma =>
                match collect_word_list st rest2 with
                | .error e => .error e
                | .ok (bs, st', ts') => .ok (bytes ++ bs, st', ts')
            | .NewLine => .ok (bytes, st, rest2)
            | .EoF => .ok (bytes, st, rest2)
            | other =>
                .error (.UnexpectedToken sep.span.line "',' or end of line"
                  (token_description other))
    | .NewLine => .ok ([], st, rest)
    | .EoF => .ok ([], st, rest)
    | other =>
        .error (.UnexpectedToken tok.span.line "word value"
          (token_description other))

/-- `.ascii` reads a comma-separated byte list, same as `.byte`. -/
def collect_ascii_string (st : ParserState) (ts : List SpannedToken) :
    Except ParseError (List Nat × ParserState × List SpannedToken) :=
  collect_byte_list st ts

def handle_directive (directive : Directive) (st : ParserState)
    (ts : List SpannedToken) :
    Except ParseError (Option ParsedItem × ParserState × List SpannedToken) :=
  match directive with
  | .Global =>
      match next_token st ts with
      | .error e => .error e
      | .ok (tok, st, ts) =>
        match tok.token with
        | .LabelRef name =>
            let st := { st with symbols := st.symbols.export name }
            match skip_to_line_end st ts with
            | .error e => .error e
            | .ok (st, ts) => .ok (none, st, ts)
        | other =>
            .error (.UnexpectedToken tok.span.line "label after .global"
              (token_description other))
  | .Import =>
      match next_token st ts with
      | .error e => .error e
      | .ok (tok, st, ts) =>
        match tok.token with
        | .LabelRef name =>
            let st := { st with symbols := st.symbols.import name }
            match skip_to_line_end st ts with
            | .error e => .error e
            | .ok (st, ts) => .ok (none, st, ts)
        | other =>
            .error (.UnexpectedToken tok.span.line "label after .import"
              (token_description other))
  | .Imm =>
      -- .imm without a preceding label is invalid
      .error (.UnexpectedToken st.last_line "label definition before .imm"
        ".imm directive")
  | .Text =>
      let st := { st with current_section := ".text", pos := 0 }
      match skip_to_line_end st ts with
      | .error e => .error e
      | .ok (st, ts) => .ok (some (.SectionChange ".text"), st, ts)
  | .Data =>
      let st := { st with current_section := ".data", pos := 0 }
      match skip_to_line_end st ts with
      | .error e => .error e
      | .ok (st, ts) => .ok (some (.SectionChange ".data"), st, ts)
  | .Bss =>
      let st := { st with current_section := ".bss", pos := 0 }
      match skip_to_line_end st ts with
      | .error e => .error e
      | .ok (st, ts) => .ok (some (.SectionChange ".bss"), st, ts)
  | .Section =>
      match next_token st ts with
      | .error e => .error e
      | .ok (tok, st, ts) =>
        match tok.token with
        | .LabelRef name =>
            -- `name.starts_with('.')`
            let section_name := match name.data with
              | '.' :: _ => name
              | _ => "." ++ name
            let st := { st with current_section := section_name, pos := 0 }
            match skip_to_line_end st ts with
            | .error e => .error e
            | .ok (st, ts) => .ok (some (.SectionChange section_name), st, ts)
        | other =>
            .error (.UnexpectedToken tok.span.line "section name after .section"
              (token_description other))
  | .Byte =>
      match collect_byte_list st ts with
      | .error e => .error e
      | .ok (data, st, ts) =>
          .ok (some (.Data data), { st with pos := st.pos + data.length }, ts)
  | .Word =>
      match collect_word_list st ts with
      | .error e => .error e
      | .ok (data, st, ts) =>
          .ok (some (.Data data), { st with pos := st.pos + data.length }, ts)
  | .Ascii =>
      match collect_ascii_string st ts with
      | .error e => .error e
      | .ok (data, st, ts) =>
          .ok (some (.Data data), { st with pos := st.pos + data.length }, ts)

/-- `Parser::process_instruction`. -/
def process_instruction (instruction : Mnemonic) (line : Nat)
    (st : ParserState) (ts : List SpannedToken) :
    Except ParseError (ParsedInstruction × ParserState × List SpannedToken) :=
  match instruction.get_type with
  | .A =>
      -- A-type: rd, rs
      match expect_register st ts with
      | .error e => .error e
      | .ok (rd, st, ts) =>
      match expect_comma st ts with
      | .error e => .error e
      | .ok (st, ts) =>
      match expect_register st ts with
      | .error e => .error e
      | .ok (rs, st, ts) =>
      match expect_newline st ts with
      | .error e => .error e
      | .ok (st, ts) =>
      match AluOp.from_instruction instruction with
      | none =>
          .error (.InvalidParameters line
            ("Instruction '" ++ instruction.mnemonic ++
              "' is not a valid ALU op"))
      | some op =>
          -- r0 is hardwired to zero; CMP and TST only set flags
          if rd = 0 ∧ ¬(op = .CMP ∨ op = .TST) then
            .error (.WriteToR0 line instruction.mnemonic)
          else
            .ok (.A op rd rs line none, st, ts)
  | .I =>
      -- I-type: rd, immediate or label
      match expect_register st ts with
      | .error e => .error e
      | .ok (rd, st, ts) =>
      match expect_comma st ts with
      | .error e => .error e
      | .ok (st, ts) =>
      match expect_immediate_or_label st ts with
      | .error e => .error e
      | .ok (imm, st, ts) =>
      match expect_newline st ts with
      | .error e => .error e
      | .ok (st, ts) =>
      match ImmOp.from_instruction instruction with
      | none =>
          .error (.InvalidParameters line
            ("Instruction '" ++ instruction.mnemonic ++
              "' is not a valid immediate op"))
      | some op =>
          if rd = 0 then
            .error (.WriteToR0 line instruction.mnemonic)
          else
            .ok (.I op rd imm line none, st, ts)
  | .M =>
      -- M-type: rd, [base + offset]
      match expect_register st ts with
      | .error e => .error e
      | .ok (rd, st, ts) =>
      match expect_comma st ts with
      | .error e => .error e
      | .ok (st, ts) =>
      match next_token st ts with
      | .error e => .error e
      | .ok (bracket_tok, st, ts) =>
      match bracket_tok.token with
      | .OpenBracket =>
        (match expect_register st ts with
        | .error e => .error e
        | .ok (base, st, ts) =>
        match next_token st ts with
        | .error e => .error e
        | .ok (op_token, st, ts) =>
        let opSign : Except ParseError String :=
          match op_token.token with
          | .Comma => .ok "+"
          | .LabelRef name =>
              if name = "+" then .ok "+"
              else if name = "-" then .ok "-"
              else
                .error (.UnexpectedToken op_token.span.line "',' or '+' or '-'"
                  (token_description (.LabelRef name)))
          | other =>
              .error (.UnexpectedToken op_token.span.line "',' or '+' or '-'"
                (token_description other))
        match opSign with
        | .error e => .error e
        | .ok op =>
        match next_token st ts with
        | .error e => .error e
        | .ok (offset_token, st, ts) =>
        let offsetRes : Except ParseError MOffset :=
          match offset_token.token with
          | .Register reg =>
              if op = "-" then
                .error (.InvalidParameters offset_token.span.line
                  "negative register offsets are not supported")
              else .ok (.SR reg)
          | .Immediate imm =>
              let imm_val := if op = "-" ∧ imm.value > 0 then -imm.value
                else imm.value
              if imm_val < -5 ∨ imm_val > 7 then
                .error (.ImmediateOutOfRange offset_token.span.line imm_val
                  (-5) 7)
              else .ok (.Offset8 (i32_as_u8 imm_val))
          | other =>
              .error (.UnexpectedToken offset_token.span.line
                "offset immediate or register" (token_description other))
        match offsetRes with
        | .error e => .error e
        | .ok offset =>
        match next_token st ts with
        | .error e => .error e
        | .ok (close_tok, st, ts) =>
        match close_tok.token with
        | .CloseBracket =>
          (match expect_newline st ts with
          | .error e => .error e
          | .ok (st, ts) =>
          match MemOp.from_instruction instruction with
          | none =>
              .error (.InvalidParameters line
                ("Instruction '" ++ instruction.mnemonic ++
                  "' is not a valid memory op"))
          | some op =>
              if rd = 0 ∧ op = .LD then
                .error (.WriteToR0 line instruction.mnemonic)
              else
                .ok (.M op rd base offset line none, st, ts))
        | other =>
            .error (.UnexpectedToken close_tok.span.line "']'"
              (token_description other)))
      | other =>
          .error (.UnexpectedToken bracket_tok.span.line "'['"
            (token_description other))
  | .B =>
      match BranchCond.from_instruction instruction with
      | none =>
          .error (.InvalidParameters line
            ("Instruction '" ++ instruction.mnemonic ++
              "' is not a valid branch op"))
      | some cond =>
      match next_token st ts with
      | .error e => .error e
      | .ok (next_tok, st, ts) =>
      match next_tok.token with
      | .Immediate imm =>
          -- signed (+/-) selects a relative branch
          if imm.signed then
            if imm.value < -128 ∨ imm.value > 127 then
              .error (.ImmediateOutOfRange next_tok.span.line imm.value
                (-128) 127)
            else
              match expect_newline st ts with
              | .error e => .error e
              | .ok (st, ts) =>
                  .ok (.BI false cond (.Immediate (i32_as_u16 imm.value))
                    line none, st, ts)
          else
            match expect_newline st ts with
            | .error e => .error e
            | .ok (st, ts) =>
                .ok (.BI true cond (.Immediate (i32_as_u16 imm.value))
                  line none, st, ts)
      | .LabelRef label_name =>
          -- branches to labels are always absolute
          (match expect_newline st ts with
          | .error e => .error e
          | .ok (st, ts) =>
              .ok (.BI true cond (.Label label_name) line none, st, ts))
      | .Register reg1 =>
          (match expect_comma st ts with
          | .error e => .error e
          | .ok (st, ts) =>
          match expect_register st ts with
          | .error e => .error e
          | .ok (reg2, st, ts) =>
          match expect_newline st ts with
          | .error e => .error e
          | .ok (st, ts) =>
              .ok (.BR true cond ⟨reg1, reg2⟩ line none, st, ts))
      | other =>
          .error (.UnexpectedToken next_tok.span.line
            "immediate, label, or register" (token_description other))
  | .S =>
      match next_token st ts with
      | .error e => .error e
      | .ok (next_tok, st, ts) =>
      match instruction with
      | .PUSH =>
          (match next_tok.token with
          | .Register r =>
              (match expect_newline st ts with
              | .error e => .error e
              | .ok (st, ts) => .ok (.S .PUSH r line none, st, ts))
          | other =>
              .error (.UnexpectedToken st.last_line "register"
                (token_description other)))
      | .POP =>
          (match next_tok.token with
          | .Register r =>
              if r = 0 then
                .error (.WriteToR0 line instruction.mnemonic)
              else
                match expect_newline st ts with
                | .error e => .error e
                | .ok (st, ts) => .ok (.S .POP r line none, st, ts)
          | other =>
              .error (.UnexpectedToken st.last_line "register"
                (token_description other)))
      | .SUBSP =>
          (match next_tok.token with
          | .Register reg =>
              (match expect_newline st ts with
              | .error e => .error e
              | .ok (st, ts) => .ok (.S .SUBSP_REG reg line none, st, ts))
          | .Immediate imm =>
              if imm.value < 0 ∨ imm.value > 255 then
                .error (.ImmediateOutOfRange st.last_line imm.value 0 255)
              else
                match expect_newline st ts with
                | .error e => .error e
                | .ok (st, ts) =>
                    .ok (.S .SUBSP_IMM (i32_as_u8 imm.value) line none, st, ts)
          | other =>
              .error (.UnexpectedToken st.last_line "register or immediate"
                (token_description other)))
      | .ADDSP =>
          (match next_tok.token with
          | .Register reg =>
              (match expect_newline st ts with
              | .error e => .error e
              | .ok (st, ts) => .ok (.S .ADDSP_REG reg line none, st, ts))
          | .Immediate imm =>
              if imm.value < 0 ∨ imm.value > 255 then
                .error (.ImmediateOutOfRange st.last_line imm.value 0 255)
              else
                match expect_newline st ts with
                | .error e => .error e
                | .ok (st, ts) =>
                    .ok (.S .ADDSP_IMM (i32_as_u8 imm.value) line none, st, ts)
          | other =>
              .error (.UnexpectedToken st.last_line "register or immediate"
                (token_description other)))
      | _ =>
          .error (.InvalidParameters line
            ("Instruction '" ++ instruction.mnemonic ++
              "' is not a valid stack op"))
  | .P =>
      -- P-type: register, offset (immediate or label)
      match expect_register st ts with
      | .error e => .error e
      | .ok (reg, st, ts) =>
      match expect_comma st ts with
      | .error e => .error e
      | .ok (st, ts) =>
      match expect_immediate_or_label st ts with
      | .error e => .error e
      | .ok (offset, st, ts) =>
      match expect_newline st ts with
      | .error e => .error e
      | .ok (st, ts) =>
      match PeekPokeOp.from_instruction instruction with
      | none =>
          .error (.InvalidParameters line
            ("Instruction '" ++ instruction.mnemonic ++
              "' is not a valid peek/poke op"))
      | some op =>
          if reg = 0 ∧ op = .PEEK then
            .error (.WriteToR0 line instruction.mnemonic)
          else
            .ok (.P op reg offset line none, st, ts)
  | .X =>
      match next_token st ts with
      | .error e => .error e
      | .ok (next_tok, st, ts) =>
      let operandRes :
          Except ParseError (XOperand × ParserState × List SpannedToken) :=
        match next_tok.token with
        | .NewLine => .ok (.None, st, ts)
        | .EoF => .ok (.None, st, ts)
        | .Immediate imm =>
            (match expect_newline st ts with
            | .error e => .error e
            | .ok (st, ts) => .ok (.Immediate (i32_as_u8 imm.value), st, ts))
        | .Register reg =>
            -- check if followed by comma for a register pair
            (match next_token st ts with
            | .error e => .error e
            | .ok (check_next, st, ts) =>
            match check_next.token with
            | .Comma =>
                (match expect_register st ts with
                | .error e => .error e
                | .ok (reg2, st, ts) =>
                match expect_newline st ts with
                | .error e => .error e
                | .ok (st, ts) => .ok (.Registers reg reg2, st, ts))
            | .NewLine => .ok (.Register reg, st, ts)
            | .EoF => .ok (.Register reg, st, ts)
            | other =>
                .error (.UnexpectedToken check_next.span.line
                  "',' or end of line" (token_description other)))
        | other =>
            .error (.UnexpectedToken next_tok.span.line
              "immediate, register, or end of line" (token_description other))
      match operandRes with
      | .error e => .error e
      | .ok (operand, st, ts) =>
      match XTypeOp.from_instruction instruction with
      | none =>
          .error (.InvalidParameters line
            ("Instruction '" ++ instruction.mnemonic ++
              "' is not a valid extended op"))
      | some op => .ok (.X op operand line none, st, ts)
  | .Virtual =>
      match instruction with
      | .NOP =>
          -- NOP = add r0, r0 (encodes as 0x0000)
          (match expect_newline st ts with
          | .error e => .error e
          | .ok (st, ts) => .ok (.A .ADD 0 0 line none, st, ts))
      | .INC =>
          -- INC rd = addi rd, 1
          (match expect_register st ts with
          | .error e => .error e
          | .ok (rd, st, ts) =>
          match expect_newline st ts with
          | .error e => .error e
          | .ok (st, ts) =>
              if rd = 0 then
                .error (.WriteToR0 line instruction.mnemonic)
              else
                .ok (.I .ADDI rd (.Immediate 1) line none, st, ts))
      | .DEC =>
          -- DEC rd = subi rd, 1
          (match expect_register st ts with
          | .error e => .error e
          | .ok (rd, st, ts) =>
          match expect_newline st ts with
          | .error e => .error e
          | .ok (st, ts) =>
              if rd = 0 then
                .error (.WriteToR0 line instruction.mnemonic)
              else
                .ok (.I .SUBI rd (.Immediate 1) line none, st, ts))
      | _ =>
          .error (.InvalidParameters line
            ("Unknown virtual instruction '" ++ instruction.mnemonic ++ "'"))

/-- The parser's iteration (`Parser::next`) driven to completion, as the
assembler's pass 1 does.  Fueled: each step consumes at least one token, so
`ts.length + 1` fuel always suffices; exhausted fuel is an error (it can
never fire at that fuel, and an error can only under-approximate success). -/
def parseAll : Nat → ParserState → List SpannedToken →
    Except ParseError (List ParsedItem × ParserState)
  | 0, st, _ => .error (.LexError st.last_line "parser fuel exhausted")
  | fuel + 1, st, ts =>
    match ts with
    | [] => .ok ([], st)
    | spanned :: rest =>
      let st := { st with last_line := spanned.span.line }
      match spanned.token with
      | .EoF => .ok ([], st)
      | .NewLine =>
          -- skip blank lines
          parseAll fuel st rest
      | .Directive name =>
          (match handle_directive name st rest with
          | .error e => .error e
          | .ok (none, st', ts') => parseAll fuel st' ts'
          | .ok (some item, st', ts') =>
              (match parseAll fuel st' ts' with
              | .error e => .error e
              | .ok (items, st'') => .ok (item :: items, st'')))
      | .LabelDef name =>
          -- peek at the next token to see if a directive follows
          (match rest with
          | [] =>
              -- label at end-of-file
              let st' := { st with
                symbols := st.symbols.insert name
                  (.Label st.pos st.current_section) }
              parseAll fuel st' []
          | next :: rest2 =>
            match next.token with
            | .Directive .Imm =>
                -- label: .imm <value>
                (match next_token st rest2 with
                | .error e => .error e
                | .ok (val_tok, st, ts2) =>
                  match val_tok.token with
                  | .Immediate imm =>
                      let st' := { st with
                        symbols := st.symbols.insert name
                          (.Constant (i32_as_u16 imm.value)) }
                      parseAll fuel st' ts2
                  | other =>
                      .error (.UnexpectedToken val_tok.span.line
                        "immediate value after .imm"
                        (token_description other)))
            | _ =>
                -- normal positional label; put the peeked token back
                let st' := { st with
                  symbols := st.symbols.insert name
                    (.Label st.pos st.current_section) }
                parseAll fuel st' (next :: rest2))
      | .Mnemonic mnemonic =>
          (match process_instruction mnemonic spanned.span.line st rest with
          | .error e => .error e
          | .ok (instr, st', ts') =>
              (match parseAll fuel { st' with pos := st'.pos + 2 } ts' with
              | .error e => .error e
              | .ok (items, st'') => .ok (.Instruction instr :: items, st'')))
      | other =>
          .error (.UnexpectedToken spanned.span.line
            "directive, label definition, or mnemonic"
            (token_description other))

/-- Tokenize then parse (the assembler's pass 1).  The parser consumes the
lexer lazily in the source; pre-tokenizing only changes which error surfaces
when a lexing error follows a parse error, and no successful parse differs. -/
def parseProgram (source : String) :
    Except ParseError (List ParsedItem × ParserState) :=
  match tokenize source with
  | .error e => .error (lex_error 1 e)
  | .ok ts => parseAll (ts.length + 1) ⟨0, SymbolTable.new, 1, ".text"⟩ ts

/-! ## Object-file data model (crates/atlas-files/src/formats/obj.rs) -/

inductive SymbolBinding
  | Local
  | Global
deriving DecidableEq, Repr

def SymbolBinding.val : SymbolBinding → Nat
  | .Local => 0
  | .Global => 1

namespace Obj

structure Section where
  name : String
  start : Nat
  data : List Nat
deriving DecidableEq, Repr

structure Symbol where
  name : String
  value : Nat
  section_ : Option String
  binding : SymbolBinding
deriving DecidableEq, Repr

structure Relocation where
  offset : Nat
  symbol : String
  addend : Int
  section_ : String
deriving DecidableEq, Repr

structure ObjectFile where
  sections : List Section
  symbols : List Symbol
  relocations : List Relocation
  version : Nat
deriving DecidableEq, Repr

end Obj

/-! ## Assembler back-end (crates/atlas-assembler/src/lib.rs)

`section_data` is a `BTreeMap<String, Vec<u8>>`; modelled as an association
list kept sorted by key, matching `BTreeMap` iteration order (Rust `String`
order is byte-lexicographic, which agrees with Lean's `String` order since
UTF-8 preserves codepoint order). -/

/-- Lexicographic string comparison by codepoint, equal to Rust's byte-wise
`String` order (UTF-8 preserves codepoint order); structural so that it
computes in the kernel. -/
def strLtChars : List Char → List Char → Bool
  | [], [] => false
  | [], _ :: _ => true
  | _ :: _, [] => false
  | a :: as, b :: bs =>
      if a.toNat < b.toNat then true
      else if b.toNat < a.toNat then false
      else strLtChars as bs

def strLt (a b : String) : Bool := strLtChars a.data b.data

def btreeGet {α : Type} (m : List (String × α)) (k : String) : Option α :=
  (m.find? (fun p => p.1 = k)).map Prod.snd

def btreeInsert {α : Type} : List (String × α) → String → α →
    List (String × α)
  | [], k, v => [(k, v)]
  | (k', v') :: rest, k, v =>
      if strLt k k' then (k, v) :: (k', v') :: rest
      else if k = k' then (k, v) :: rest
      else (k', v') :: btreeInsert rest k v

inductive AssemblerError
  | IoError (operation : String)
  | ParseError (e : Atlas.ParseError)
  | LexError (e : Atlas.LexError)
  | EncodingError (e : Atlas.EncodingError)
deriving DecidableEq, Repr

def ParsedInstruction.with_source_file :
    ParsedInstruction → Option String → ParsedInstruction
  | .A op dest source line _, sf => .A op dest source line sf
  | .I op dest immediate line _, sf => .I op dest immediate line sf
  | .M op dest base offset line _, sf => .M op dest base offset line sf
  | .BI absolute cond operand line _, sf => .BI absolute cond operand line sf
  | .BR absolute cond source line _, sf => .BR absolute cond source line sf
  | .S op operand line _, sf => .S op operand line sf
  | .P op register offset line _, sf => .P op register offset line sf
  | .X op operand line _, sf => .X op operand line sf

/-- `encode_or_placeholder` (lib.rs): substitute `Immediate(0)` for a label
operand so the encoder succeeds, returning the label for relocation. -/
def encode_or_placeholder (instr : ParsedInstruction) :
    Except EncodingError (Nat × Option String) :=
  match instr with
  | .I op dest (.Label label) line source_file =>
      match encode (.I op dest (.Immediate 0) line source_file) with
      | .ok w => .ok (w, some label)
      | .error e => .error e
  | .BI absolute cond (.Label label) line source_file =>
      match encode (.BI absolute cond (.Immediate 0) line source_file) with
      | .ok w => .ok (w, some label)
      | .error e => .error e
  | .P op register (.Label label) line source_file =>
      match encode (.P op register (.Immediate 0) line source_file) with
      | .ok w => .ok (w, some label)
      | .error e => .error e
  | other =>
      match encode other with
      | .ok w => .ok (w, none)
      | .error e => .error e

/-- `resolve_local_operands` (lib.rs). -/
def resolve_local_operands (instr : ParsedInstruction)
    (symbols : SymbolTable) : ParsedInstruction :=
  match instr with
  | .I op dest (.Label name) line source_file =>
      (match symbols.resolve name with
      | some sym =>
          let value := match sym with
            | .Constant v => v % 65536
            | .Label offset _ => offset % 65536
          .I op dest (.Immediate value) line source_file
      | none => .I op dest (.Label name) line source_file)
  | .BI absolute cond (.Label name) line source_file =>
      (match symbols.resolve name with
      | some sym =>
          let value := match sym with
            | .Constant v => v % 65536
            | .Label offset _ => offset % 65536
          .BI absolute cond (.Immediate value) line source_file
      | none => .BI absolute cond (.Label name) line source_file)
  | .P op register (.Label name) line source_file =>
      (match symbols.resolve name with
      | some sym =>
          let value := match sym with
            | .Constant v => v % 65536
            | .Label offset _ => offset % 65536
          .P op register (.Immediate value) line source_file
      | none => .P op register (.Label name) line source_file)
  | other => other

/-- Pass 2 of `assemble`: encode items into per-section byte vectors,
collecting unresolved references. -/
def assemblePass2 (src : String) (symbols_table : SymbolTable) :
    List ParsedItem → List (String × List Nat) → String →
    List UnresolvedReference →
    Except AssemblerError (List (String × List Nat) × List UnresolvedReference)
  | [], section_data, _, unresolved => .ok (section_data, unresolved)
  | item :: rest, section_data, current_section, unresolved =>
    match item with
    | .SectionChange name =>
        let section_data := match btreeGet section_data name with
          | some _ => section_data
          | none => btreeInsert section_data name []
        assemblePass2 src symbols_table rest section_data name unresolved
    | .Instruction instr =>
        let instr := instr.with_source_file (some src)
        let data := (btreeGet section_data current_section).getD []
        let byte_offset := data.length
        -- try to resolve local constants/labels inline first
        let instr := resolve_local_operands instr symbols_table
        (match encode_or_placeholder instr with
        | .error e => .error (.EncodingError e)
        | .ok (encoded, maybe_label) =>
            let unresolved := match maybe_label with
              | some label_name =>
                  unresolved ++
                    [⟨byte_offset, current_section, label_name, 0⟩]
              | none => unresolved
            let data := data ++ [(encoded >>> 8) % 256, encoded % 256]
            assemblePass2 src symbols_table rest
              (btreeInsert section_data current_section data)
              current_section unresolved)
    | .Data bytes =>
        let data := (btreeGet section_data current_section).getD []
        assemblePass2 src symbols_table rest
          (btreeInsert section_data current_section (data ++ bytes))
          current_section unresolved

/-- Symbol materialization and object construction (`assemble`, after
pass 2).  The source iterates a `HashMap`/`HashSet` here; the model uses
first-insertion order. -/
def assembleItems (src : String) (items : List ParsedItem)
    (symbols_table : SymbolTable) : Except AssemblerError Obj.ObjectFile :=
  match assemblePass2 src symbols_table items [] ".text" [] with
  | .error e => .error e
  | .ok (section_data, unresolved) =>
    let sections := section_data.map fun p =>
      (⟨p.1, 0, p.2⟩ : Obj.Section)
    -- defined symbols (labels & constants)
    let defined := symbols_table.symbols.map fun p =>
      match p.2 with
      | .Label offset sec =>
          (⟨p.1, offset, some sec,
            if symbols_table.is_exported p.1 then .Global else .Local⟩ :
            Obj.Symbol)
      | .Constant value =>
          ⟨p.1, value, some ".abs",
            if symbols_table.is_exported p.1 then .Global else .Local⟩
    -- imported (undefined) symbols: section = none
    let imported := (symbols_table.imports.filter fun n =>
      (symbols_table.resolve n).isNone).map fun n =>
        (⟨n, 0, none, .Global⟩ : Obj.Symbol)
    let symbols := defined ++ imported
    -- validate exports
    match symbols_table.exports.find? fun e =>
        (symbols_table.resolve e).isNone with
    | some export_name =>
        .error (.EncodingError ⟨0,
          "Exported symbol '" ++ export_name ++ "' is not defined"⟩)
    | none =>
      let relocations := unresolved.map fun u =>
        (⟨u.offset, u.symbol, u.addend, u.section_⟩ : Obj.Relocation)
      .ok ⟨sections, symbols, relocations, 1⟩

/-- `assemble` without the file I/O: parse the source text and build the
object file (`src` is the input path recorded in diagnostics). -/
def assembleSource (src : String) (source : String) :
    Except AssemblerError Obj.ObjectFile :=
  match parseProgram source with
  | .error e => .error (.ParseError e)
  | .ok (items, pst) => assembleItems src items pst.symbols

/-! ## Linker (crates/atlas-linker/src/lib.rs, after loading) -/

inductive LinkerErrorKind
  | Io
  | ObjectFile
  | UnresolvedLabel
  | DuplicateSymbol
  | Encoding
deriving DecidableEq, Repr

structure LinkerError where
  kind : LinkerErrorKind
  message : String
  line : Nat
  source_file : Option String
deriving DecidableEq, Repr

/-- Zero-padded 4-digit lowercase hex (Rust `{:04x}` for values < 2^16). -/
def natToHex4Lower (n : Nat) : String :=
  let s := hexCharsLower n []
  String.mk (List.replicate (4 - s.length) '0' ++ s)

/-- `LabelMap` is a `HashMap<String, LabelInfo>`; only `insert` (overwrite)
and `get` are used, so an association list is a faithful model. -/
def hashInsert (m : List (String × Nat)) (k : String) (v : Nat) :
    List (String × Nat) :=
  match m with
  | [] => [(k, v)]
  | (k', v') :: rest =>
      if k' = k then (k, v) :: rest else (k', v') :: hashInsert rest k v

def hashGet (m : List (String × Nat)) (k : String) : Option Nat :=
  (m.find? (fun p => p.1 = k)).map Prod.snd

def basesGet (bases : List ((Nat × String) × Nat)) (k : Nat × String) :
    Option Nat :=
  (bases.find? (fun p => p.1 = k)).map Prod.snd

def basesInsert (bases : List ((Nat × String) × Nat)) (k : Nat × String)
    (v : Nat) : List ((Nat × String) × Nat) :=
  match bases with
  | [] => [(k, v)]
  | (k', v') :: rest =>
      if k' = k then (k, v) :: rest else (k', v') :: basesInsert rest k v

/-- Step 2, one file's sections. -/
def mergeFileSections (file_idx : Nat) :
    List Obj.Section → List (String × List Nat) →
    List ((Nat × String) × Nat) →
    List (String × List Nat) × List ((Nat × String) × Nat)
  | [], merged_sections, section_bases => (merged_sections, section_bases)
  | sec :: rest, merged_sections, section_bases =>
      let merged := (btreeGet merged_sections sec.name).getD []
      let base := merged.length
      mergeFileSections file_idx rest
        (btreeInsert merged_sections sec.name (merged ++ sec.data))
        (basesInsert section_bases (file_idx, sec.name) base)

def mergeSectionsFrom (file_idx : Nat) :
    List (String × Obj.ObjectFile) → List (String × List Nat) →
    List ((Nat × String) × Nat) →
    List (String × List Nat) × List ((Nat × String) × Nat)
  | [], merged_sections, section_bases => (merged_sections, section_bases)
  | (_path, obj) :: rest, merged_sections, section_bases =>
      match mergeFileSections file_idx obj.sections merged_sections
        section_bases with
      | (merged_sections, section_bases) =>
          mergeSectionsFrom (file_idx + 1) rest merged_sections section_bases

/-- Step 2: merge same-named sections in input order, recording each file's
base offset within the merged section (`enumerate` is modelled by the
running `file_idx` counter). -/
def mergeSections (loaded : List (String × Obj.ObjectFile)) :
    List (String × List Nat) × List ((Nat × String) × Nat) :=
  mergeSectionsFrom 0 loaded [] []

/-- Step 3, one symbol: skip undefined, register `.abs` constants without a
duplicate check, otherwise fail `DuplicateSymbol` for an already-present
`Global` name and register the placed address. -/
def registerOneSymbol (path : String) (file_idx : Nat)
    (section_bases : List ((Nat × String) × Nat))
    (label_map : List (String × Nat)) (symbol : Obj.Symbol) :
    Except LinkerError (List (String × Nat)) :=
  match symbol.section_ with
  | none => .ok label_map
  | some section_name =>
    if section_name = ".abs" then
      .ok (hashInsert label_map symbol.name (symbol.value % 65536))
    else
      let base := (basesGet section_bases (file_idx, section_name)).getD 0
      let absolute_address := base + symbol.value
      match symbol.binding with
      | .Global =>
          (match hashGet label_map symbol.name with
          | some existing =>
              .error ⟨.DuplicateSymbol,
                "Duplicate global symbol '" ++ symbol.name ++
                  "' (first defined at 0x" ++ natToHex4Lower existing ++
                  ", also in '" ++ path ++ "')", 0, some path⟩
          | none =>
              .ok (hashInsert label_map symbol.name
                (absolute_address % 65536)))
      | .Local =>
          .ok (hashInsert label_map symbol.name (absolute_address % 65536))

def registerFileSymbols (path : String) (file_idx : Nat)
    (section_bases : List ((Nat × String) × Nat)) :
    List Obj.Symbol → List (String × Nat) →
    Except LinkerError (List (String × Nat))
  | [], label_map => .ok label_map
  | symbol :: rest, label_map =>
      match registerOneSymbol path file_idx section_bases label_map symbol with
      | .error e => .error e
      | .ok label_map => registerFileSymbols path file_idx section_bases rest
          label_map

def registerSymbolsFrom (section_bases : List ((Nat × String) × Nat)) :
    Nat → List (String × Obj.ObjectFile) → List (String × Nat) →
    Except LinkerError (List (String × Nat))
  | _, [], label_map => .ok label_map
  | file_idx, (path, obj) :: rest, label_map =>
      match registerFileSymbols path file_idx section_bases obj.symbols
        label_map with
      | .error e => .error e
      | .ok label_map =>
          registerSymbolsFrom section_bases (file_idx + 1) rest label_map

/-- Step 3: build the global symbol table. -/
def registerSymbols (loaded : List (String × Obj.ObjectFile))
    (section_bases : List ((Nat × String) × Nat)) :
    Except LinkerError (List (String × Nat)) :=
  registerSymbolsFrom section_bases 0 loaded []

/-- Step 4, one relocation: patch the low byte of the 16-bit word at the
relocation site in the merged section data. -/
def applyOneReloc (path : String) (file_idx : Nat)
    (section_bases : List ((Nat × String) × Nat))
    (label_map : List (String × Nat))
    (merged_sections : List (String × List Nat)) (reloc : Obj.Relocation) :
    Except LinkerError (List (String × List Nat)) :=
  let base := (basesGet section_bases (file_idx, reloc.section_)).getD 0
  let patch_offset := base + reloc.offset
  match hashGet label_map reloc.symbol with
  | none =>
      .error ⟨.UnresolvedLabel,
        "Unresolved symbol '" ++ reloc.symbol ++ "' referenced in '" ++
          path ++ "'", 0, some path⟩
  | some symbol_value =>
    let final_value := (((symbol_value : Int) + reloc.addend).emod 65536).toNat
    match btreeGet merged_sections reloc.section_ with
    | none =>
        .error ⟨.ObjectFile,
          "Section '" ++ reloc.section_ ++ "' not found for relocation",
          0, some path⟩
    | some section_data =>
      if patch_offset + 1 ≥ section_data.length then
        .error ⟨.ObjectFile,
          "Relocation offset 0x" ++ natToHexLower patch_offset ++
            " out of bounds for section '" ++ reloc.section_ ++ "' (size " ++
            toString section_data.length ++ ")", 0, some path⟩
      else
        let hi := section_data.getD patch_offset 0
        if final_value > 0xFF then
          .error ⟨.Encoding,
            "Resolved value 0x" ++ natToHex4Lower final_value ++
              " for symbol '" ++ reloc.symbol ++
              "' exceeds 8-bit immediate field", 0, some path⟩
        else
          let section_data :=
            (section_data.set patch_offset hi).set (patch_offset + 1)
              (final_value % 256)
          .ok (btreeInsert merged_sections reloc.section_ section_data)

def applyFileRelocs (path : String) (file_idx : Nat)
    (section_bases : List ((Nat × String) × Nat))
    (label_map : List (String × Nat)) :
    List Obj.Relocation → List (String × List Nat) →
    Except LinkerError (List (String × List Nat))
  | [], merged_sections => .ok merged_sections
  | reloc :: rest, merged_sections =>
      match applyOneReloc path file_idx section_bases label_map
        merged_sections reloc with
      | .error e => .error e
      | .ok merged_sections =>
          applyFileRelocs path file_idx section_bases label_map rest
            merged_sections

def applyRelocationsFrom (section_bases : List ((Nat × String) × Nat))
    (label_map : List (String × Nat)) :
    Nat → List (String × Obj.ObjectFile) → List (String × List Nat) →
    Except LinkerError (List (String × List Nat))
  | _, [], merged_sections => .ok merged_sections
  | file_idx, (path, obj) :: rest, merged_sections =>
      match applyFileRelocs path file_idx section_bases label_map
        obj.relocations merged_sections with
      | .error e => .error e
      | .ok merged_sections =>
          applyRelocationsFrom section_bases label_map (file_idx + 1) rest
            merged_sections

/-- Step 4: apply every relocation of every file in input order. -/
def applyRelocations (loaded : List (String × Obj.ObjectFile))
    (section_bases : List ((Nat × String) × Nat))
    (label_map : List (String × Nat))
    (merged_sections : List (String × List Nat)) :
    Except LinkerError (List (String × List Nat)) :=
  applyRelocationsFrom section_bases label_map 0 loaded merged_sections

/-- Step 5: `.text` first, then the remaining merged sections in map
iteration (sorted-name) order. -/
def emitOutput (merged_sections : List (String × List Nat)) : List Nat :=
  (match btreeGet merged_sections ".text" with
    | some text => text
    | none => []) ++
  (merged_sections.filter (fun p => ¬(p.1 = ".text"))).flatMap Prod.snd

/-- `link` after loading the object files (file I/O and output-format
selection are outside the model): merge, resolve, patch, emit. -/
def linkObjects (loaded : List (String × Obj.ObjectFile)) :
    Except LinkerError (List Nat) :=
  match mergeSections loaded with
  | (merged_sections, section_bases) =>
    match registerSymbols loaded section_bases with
    | .error e => .error e
    | .ok label_map =>
      match applyRelocations loaded section_bases label_map merged_sections
        with
      | .error e => .error e
      | .ok merged_sections => .ok (emitOutput merged_sections)

/-! ## Object-file codec (crates/atlas-files/src/formats/obj.rs)

`to_file`/`from_file` are modelled at the byte level: the written file is a
`List Nat` of bytes and the reader consumes a byte list, ignoring trailing
bytes exactly as the sequential `read_exact` calls do.  Rust std primitives
are modelled explicitly: `u32::to_le_bytes`/`from_le_bytes` as base-256
digits, `i32` via two's complement, and `String::as_bytes` /
`String::from_utf8` as an RFC 3629 UTF-8 encoder and validating decoder
(every Lean `Char` is a unicode scalar value, as is every Rust `char`). -/

def u32_to_le_bytes (n : Nat) : List Nat :=
  [n % 256, n / 256 % 256, n / 65536 % 256, n / 16777216 % 256]

def i32_to_le_bytes (i : Int) : List Nat :=
  u32_to_le_bytes (i.emod 4294967296).toNat

def read_u32 (bs : List Nat) : Except String (Nat × List Nat) :=
  match bs with
  | b0 :: b1 :: b2 :: b3 :: rest =>
      .ok (b0 + 256 * b1 + 65536 * b2 + 16777216 * b3, rest)
  | _ => .error "failed to fill whole buffer"

def read_i32 (bs : List Nat) : Except String (Int × List Nat) :=
  match read_u32 bs with
  | .error e => .error e
  | .ok (u, rest) =>
      .ok (if u < 2147483648 then (u : Int) else (u : Int) - 4294967296, rest)

def read_exact (n : Nat) (bs : List Nat) :
    Except String (List Nat × List Nat) :=
  if n ≤ bs.length then .ok (bs.take n, bs.drop n)
  else .error "failed to fill whole buffer"

/-- RFC 3629 UTF-8 encoding of one unicode scalar value
(`String::as_bytes`, per character). -/
def utf8EncodeChar (c : Char) : List Nat :=
  let v := c.toNat
  if v < 128 then [v]
  else if v < 2048 then [192 + v / 64, 128 + v % 64]
  else if v < 65536 then [224 + v / 4096, 128 + v / 64 % 64, 128 + v % 64]
  else [240 + v / 262144, 128 + v / 4096 % 64, 128 + v / 64 % 64,
    128 + v % 64]

def utf8Encode (s : String) : List Nat := s.data.flatMap utf8EncodeChar

/-- One scalar value of the validating UTF-8 decoder
(`String::from_utf8`): rejects continuation errors, overlong forms,
surrogates and out-of-range codepoints. -/
def utf8DecodeChar? (bs : List Nat) : Option (Char × List Nat) :=
  match bs with
  | [] => none
  | b0 :: rest =>
    if b0 < 128 then some (Char.ofNat b0, rest)
    else if 194 ≤ b0 ∧ b0 < 224 then
      match rest with
      | b1 :: rest2 =>
          if 128 ≤ b1 ∧ b1 < 192 then
            some (Char.ofNat ((b0 - 192) * 64 + (b1 - 128)), rest2)
          else none
      | _ => none
    else if 224 ≤ b0 ∧ b0 < 240 then
      match rest with
      | b1 :: b2 :: rest2 =>
          if (128 ≤ b1 ∧ b1 < 192) ∧ (128 ≤ b2 ∧ b2 < 192) then
            let v := (b0 - 224) * 4096 + (b1 - 128) * 64 + (b2 - 128)
            if 2048 ≤ v ∧ ¬(55296 ≤ v ∧ v < 57344) then
              some (Char.ofNat v, rest2)
            else none
          else none
      | _ => none
    else if 240 ≤ b0 ∧ b0 < 245 then
      match rest with
      | b1 :: b2 :: b3 :: rest2 =>
          if (128 ≤ b1 ∧ b1 < 192) ∧ (128 ≤ b2 ∧ b2 < 192) ∧
              (128 ≤ b3 ∧ b3 < 192) then
            let v := (b0 - 240) * 262144 + (b1 - 128) * 4096 +
              (b2 - 128) * 64 + (b3 - 128)
            if 65536 ≤ v ∧ v < 1114112 then
              some (Char.ofNat v, rest2)
            else none
          else none
      | _ => none
    else none

/-- Decoder loop; each step consumes at least one byte, so `bs.length`
fuel always suffices. -/
def utf8DecodeAux : Nat → List Nat → Option (List Char)
  | _, [] => some []
  | 0, _ :: _ => none
  | fuel + 1, b :: rest =>
      match utf8DecodeChar? (b :: rest) with
      | some (c, rest2) =>
          match utf8DecodeAux fuel rest2 with
          | some cs => some (c :: cs)
          | none => none
      | none => none

/-- Validating UTF-8 decoder (`String::from_utf8`). -/
def utf8Decode (bs : List Nat) : Option (List Char) :=
  utf8DecodeAux bs.length bs

/-- A length-prefixed string as written by `to_file`:
`name_len.to_le_bytes()` then `name.as_bytes()`. -/
def write_lp_str (s : String) : List Nat :=
  u32_to_le_bytes (utf8Encode s).length ++ utf8Encode s

/-- A length-prefixed string as read by `from_file`. -/
def read_lp_str (bs : List Nat) : Except String (String × List Nat) :=
  match read_u32 bs with
  | .error e => .error e
  | .ok (len, rest) =>
      match read_exact len rest with
      | .error e => .error e
      | .ok (name_bytes, rest) =>
          match utf8Decode name_bytes with
          | some cs => .ok (String.mk cs, rest)
          | none => .error "Invalid UTF-8"

namespace Obj

def write_section (s : Section) : List Nat :=
  write_lp_str s.name ++ u32_to_le_bytes s.start ++
    u32_to_le_bytes s.data.length ++ s.data

def read_section (bs : List Nat) : Except String (Section × List Nat) :=
  match read_lp_str bs with
  | .error e => .error e
  | .ok (name, bs) =>
      match read_u32 bs with
      | .error e => .error e
      | .ok (start, bs) =>
          match read_u32 bs with
          | .error e => .error e
          | .ok (size, bs) =>
              match read_exact size bs with
              | .error e => .error e
              | .ok (data, bs) => .ok (⟨name, start, data⟩, bs)

def read_sections : Nat → List Nat → Except String (List Section × List Nat)
  | 0, bs => .ok ([], bs)
  | n + 1, bs =>
      match read_section bs with
      | .error e => .error e
      | .ok (s, bs) =>
          match read_sections n bs with
          | .error e => .error e
          | .ok (ss, bs) => .ok (s :: ss, bs)

def write_symbol (s : Symbol) : List Nat :=
  write_lp_str s.name ++ u32_to_le_bytes s.value ++
    (match s.section_ with
      | some section_name => 1 :: write_lp_str section_name
      | none => [0]) ++
    [s.binding.val]

def read_symbol (bs : List Nat) : Except String (Symbol × List Nat) :=
  match read_lp_str bs with
  | .error e => .error e
  | .ok (name, bs) =>
      match read_u32 bs with
      | .error e => .error e
      | .ok (value, bs) =>
          match bs with
          | [] => .error "failed to fill whole buffer"
          | section_flag :: bs =>
              let read_sec : Except String (Option String × List Nat) :=
                if section_flag = 1 then
                  match read_lp_str bs with
                  | .error e => .error e
                  | .ok (sec, bs) => .ok (some sec, bs)
                else .ok (none, bs)
              match read_sec with
              | .error e => .error e
              | .ok (section_, bs) =>
                  match bs with
                  | [] => .error "failed to fill whole buffer"
                  | binding_byte :: bs =>
                      match binding_byte with
                      | 0 => .ok (⟨name, value, section_, .Local⟩, bs)
                      | 1 => .ok (⟨name, value, section_, .Global⟩, bs)
                      | _ => .error "Invalid symbol binding"

def read_symbols : Nat → List Nat → Except String (List Symbol × List Nat)
  | 0, bs => .ok ([], bs)
  | n + 1, bs =>
      match read_symbol bs with
      | .error e => .error e
      | .ok (s, bs) =>
          match read_symbols n bs with
          | .error e => .error e
          | .ok (ss, bs) => .ok (s :: ss, bs)

def write_reloc (r : Relocation) : List Nat :=
  u32_to_le_bytes r.offset ++ write_lp_str r.symbol ++
    i32_to_le_bytes r.addend ++ write_lp_str r.section_

def read_reloc (bs : List Nat) : Except String (Relocation × List Nat) :=
  match read_u32 bs with
  | .error e => .error e
  | .ok (offset, bs) =>
      match read_lp_str bs with
      | .error e => .error e
      | .ok (symbol, bs) =>
          match read_i32 bs with
          | .error e => .error e
          | .ok (addend, bs) =>
              match read_lp_str bs with
              | .error e => .error e
              | .ok (section_, bs) => .ok (⟨offset, symbol, addend, section_⟩, bs)

def read_relocs : Nat → List Nat →
    Except String (List Relocation × List Nat)
  | 0, bs => .ok ([], bs)
  | n + 1, bs =>
      match read_reloc bs with
      | .error e => .error e
      | .ok (r, bs) =>
          match read_relocs n bs with
          | .error e => .error e
          | .ok (rs, bs) => .ok (r :: rs, bs)

/-- `ObjectFile::to_file` at the byte level: magic `"ATOB"`, version,
the three counts, then sections, symbols and relocations. -/
def ObjectFile.to_file (o : ObjectFile) : List Nat :=
  [65, 84, 79, 66] ++ u32_to_le_bytes o.version ++
    u32_to_le_bytes o.sections.length ++
    u32_to_le_bytes o.symbols.length ++
    u32_to_le_bytes o.relocations.length ++
    o.sections.flatMap write_section ++
    o.symbols.flatMap write_symbol ++
    o.relocations.flatMap write_reloc

/-- `ObjectFile::from_file` at the byte level (trailing bytes are ignored,
as the reader only issues sequential `read_exact` calls). -/
def ObjectFile.from_file (bs : List Nat) : Except String ObjectFile :=
  match bs with
  | m0 :: m1 :: m2 :: m3 :: bs =>
      if m0 = 65 ∧ m1 = 84 ∧ m2 = 79 ∧ m3 = 66 then
        match read_u32 bs with
        | .error e => .error e
        | .ok (version, bs) =>
            match read_u32 bs with
            | .error e => .error e
            | .ok (section_count, bs) =>
                match read_u32 bs with
                | .error e => .error e
                | .ok (symbol_count, bs) =>
                    match read_u32 bs with
                    | .error e => .error e
                    | .ok (relocation_count, bs) =>
                        match read_sections section_count bs with
                        | .error e => .error e
                        | .ok (sections, bs) =>
                            match read_symbols symbol_count bs with
                            | .error e => .error e
                            | .ok (symbols, bs) =>
                                match read_relocs relocation_count bs with
                                | .error e => .error e
                                | .ok (relocations, _bs) =>
                                    .ok ⟨sections, symbols, relocations,
                                      version⟩
      else .error "Invalid magic number"
  | _ => .error "failed to fill whole buffer"

/-- The range constraints that the Rust field types (`u32`, `i32`, `u8`
data bytes) and `String` impose by construction, made explicit on the
`Nat`/`Int`-valued model. -/
def ObjectFile.wf (o : ObjectFile) : Bool :=
  o.version < 4294967296 &&
  o.sections.length < 4294967296 &&
  o.symbols.length < 4294967296 &&
  o.relocations.length < 4294967296 &&
  o.sections.all (fun s =>
    (utf8Encode s.name).length < 4294967296 &&
    s.start < 4294967296 &&
    s.data.length < 4294967296 &&
    s.data.all (fun b => b < 256)) &&
  o.symbols.all (fun s =>
    (utf8Encode s.name).length < 4294967296 &&
    s.value < 4294967296 &&
    (match s.section_ with
      | some t => (utf8Encode t).length < 4294967296
      | none => true)) &&
  o.relocations.all (fun r =>
    r.offset < 4294967296 &&
    (utf8Encode r.symbol).length < 4294967296 &&
    decide (-2147483648 ≤ r.addend) && decide (r.addend < 2147483648) &&
    (utf8Encode r.section_).length < 4294967296)

end Obj

/-! ## Intel HEX codec (crates/atlas-files/src/formats/hex.rs)

`to_ihex` produces `:LLAAAATT[DD…]CC` data records (16 bytes per line)
followed by the `:00000001FF` EOF record; `from_ihex` parses the text back,
resizing the output buffer per record.  Rust std string primitives are
modelled explicitly: `str::lines` (split on newline, drop a final empty
segment, strip one trailing carriage return), `str::trim` (ASCII
whitespace here; the generated records contain none), and
`u8`/`u16::from_str_radix(_, 16)` on the fixed-width slices (both hex
digit cases accepted). -/

def hexDigitUpper (d : Nat) : Char :=
  if d < 10 then Char.ofNat (48 + d) else Char.ofNat (55 + d)

/-- `{:02X}` for byte values. -/
def hex2U (n : Nat) : List Char :=
  [hexDigitUpper (n / 16), hexDigitUpper (n % 16)]

/-- `{:04X}` for 16-bit values. -/
def hex4U (n : Nat) : List Char :=
  [hexDigitUpper (n / 4096), hexDigitUpper (n / 256 % 16),
   hexDigitUpper (n / 16 % 16), hexDigitUpper (n % 16)]

/-- One `:LLAAAATT[DD…]CC` data record (without the newline); the checksum
is the two's complement of the wrapping byte sum. -/
def record_line (address : Nat) (chunk : List Nat) : List Char :=
  ':' :: (hex2U chunk.length ++ hex4U address ++ hex2U 0 ++
    chunk.flatMap hex2U ++
    hex2U ((256 - (chunk.length + address / 256 + address % 256 + 0 +
      chunk.sum) % 256) % 256))

/-- Lines each followed by the newline `writeln!` appends. -/
def joinLines (ls : List (List Char)) : List Char :=
  ls.flatMap (fun l => l ++ ['\n'])

/-- The record lines of `to_ihex`'s chunk loop (`data.chunks(16)` with the
running chunk index; each step consumes at least one byte, so
`data.length` fuel always suffices). -/
def to_ihex_go (base_address : Nat) : Nat → Nat → List Nat → List (List Char)
  | _, _, [] => []
  | 0, _, _ :: _ => []
  | fuel + 1, chunk_idx, b :: rest =>
      record_line ((base_address + (chunk_idx * 16) % 65536) % 65536)
        ((b :: rest).take 16) ::
        to_ihex_go base_address fuel (chunk_idx + 1) ((b :: rest).drop 16)

def to_ihex (data : List Nat) (base_address : Nat) : String :=
  String.mk (joinLines (to_ihex_go base_address data.length 0 data ++
    [[':', '0', '0', '0', '0', '0', '0', '0', '1', 'F', 'F']]))

/-- `str::lines`: split at newlines. -/
def splitNL : List Char → List (List Char)
  | [] => [[]]
  | c :: rest =>
      if c = '\n' then [] :: splitNL rest
      else
        match splitNL rest with
        | l :: ls => (c :: l) :: ls
        | [] => [[c]]

/-- `str::lines` strips one trailing `'\r'` per line. -/
def stripCR (l : List Char) : List Char :=
  match l.getLast? with
  | some '\r' => l.dropLast
  | _ => l

def rustLines (cs : List Char) : List (List Char) :=
  let parts := splitNL cs
  let parts :=
    match parts.getLast? with
    | some [] => parts.dropLast
    | _ => parts
  parts.map stripCR

def isTrimWs (c : Char) : Bool :=
  c = ' ' || c = '\t' || c = '\n' || c = '\r'

/-- `str::trim` (ASCII whitespace). -/
def trimChars (cs : List Char) : List Char :=
  ((cs.dropWhile isTrimWs).reverse.dropWhile isTrimWs).reverse

/-- One hexadecimal digit (`from_str_radix(_, 16)` accepts both cases). -/
def hexDigitVal? (c : Char) : Option Nat :=
  let v := c.toNat
  if 48 ≤ v ∧ v ≤ 57 then some (v - 48)
  else if 65 ≤ v ∧ v ≤ 70 then some (v - 55)
  else if 97 ≤ v ∧ v ≤ 102 then some (v - 87)
  else none

/-- `u8::from_str_radix(&s[i..i+2], 16)` on the two leading chars. -/
def parse2 (cs : List Char) : Option Nat :=
  match cs with
  | c1 :: c2 :: _ =>
      match hexDigitVal? c1, hexDigitVal? c2 with
      | some d1, some d2 => some (d1 * 16 + d2)
      | _, _ => none
  | _ => none

/-- `u16::from_str_radix(&s[i..i+4], 16)` on the four leading chars. -/
def parse4 (cs : List Char) : Option Nat :=
  match cs with
  | c1 :: c2 :: c3 :: c4 :: _ =>
      match hexDigitVal? c1, hexDigitVal? c2, hexDigitVal? c3,
          hexDigitVal? c4 with
      | some d1, some d2, some d3, some d4 =>
          some (d1 * 4096 + d2 * 256 + d3 * 16 + d4)
      | _, _, _, _ => none
  | _ => none

/-- The data-byte loop of a record: reads `count` byte pairs starting at
character offset 8 and stores them at `addr + i` (`result[addr + i] = b`);
an out-of-range slice models the Rust indexing panic. -/
def writeRecordData (hex_str : List Char) :
    Nat → Nat → Nat → List Nat → Except String (List Nat)
  | 0, _, _, result => .ok result
  | n + 1, addr, i, result =>
      if 8 + i * 2 + 2 ≤ hex_str.length then
        match parse2 (hex_str.drop (8 + i * 2)) with
        | some b =>
            writeRecordData hex_str n addr (i + 1) (result.set (addr + i) b)
        | none => .error "Invalid data byte"
      else .error "byte slice index out of range"

def from_ihex_go : List (List Char) → List Nat → Except String (List Nat)
  | [], result => .ok result
  | line :: rest, result =>
      match trimChars line with
      | [] => from_ihex_go rest result
      | c :: hex_str =>
          if c = ':' then
            if hex_str.length < 10 then .error "Line too short"
            else
              match parse2 hex_str with
              | none => .error "Invalid byte count"
              | some byte_count =>
                  match parse2 (hex_str.drop 6) with
                  | none => .error "Invalid record type"
                  | some record_type =>
                      match record_type with
                      | 0 =>
                          (match parse4 (hex_str.drop 2) with
                          | none => .error "Invalid address"
                          | some address =>
                              let needed := address + byte_count
                              let result :=
                                if result.length < needed then
                                  result ++
                                    List.replicate (needed - result.length) 0
                                else result
                              match writeRecordData hex_str byte_count
                                address 0 result with
                              | .error e => .error e
                              | .ok result => from_ihex_go rest result)
                      | 1 => .ok result
                      | _ => from_ihex_go rest result
          else .error "Line does not start with ':'"

def from_ihex (hex : String) : Except String (List Nat) :=
  from_ihex_go (rustLines hex.data) []

/-! ## Spec-side predicates used to state claims -/

/-- C3's invariant exactly as claimed: no `A` writes r0 except `CMP`/`TST`;
no `I`, `M`-`LD`, `P`-`PEEK`, or `POP` has destination r0. -/
def r0ClaimInvariant : ParsedInstruction → Prop
  | .A op dest _ _ _ => dest = 0 → (op = .CMP ∨ op = .TST)
  | .I _ dest _ _ _ => dest ≠ 0
  | .M op dest _ _ _ _ => op = .LD → dest ≠ 0
  | .P op register _ _ _ => op = .PEEK → register ≠ 0
  | .S op operand _ _ => op = .POP → operand ≠ 0
  | _ => True

/-- C3's invariant amended by the one case the code actually emits with
`dest = 0`: the `nop` expansion `A { op = ADD, dest = 0, source = 0 }`. -/
def r0AmendedInvariant : ParsedInstruction → Prop
  | .A op dest source _ _ =>
      dest = 0 → (op = .CMP ∨ op = .TST ∨ (op = .ADD ∧ source = 0))
  | .I _ dest _ _ _ => dest ≠ 0
  | .M op dest _ _ _ _ => op = .LD → dest ≠ 0
  | .P op register _ _ _ => op = .PEEK → register ≠ 0
  | .S op operand _ _ => op = .POP → operand ≠ 0
  | _ => True

instance (x : ParsedInstruction) : Decidable (r0ClaimInvariant x) := by
  unfold r0ClaimInvariant
  cases x <;> infer_instance

instance (x : ParsedInstruction) : Decidable (r0AmendedInvariant x) := by
  unfold r0AmendedInvariant
  cases x <;> infer_instance

/-- C5's premise: the object defines `name` with `Global` binding and a
present section other than `.abs`. -/
def definesGlobal (obj : Obj.ObjectFile) (name : String) : Prop :=
  ∃ sym ∈ obj.symbols, sym.name = name ∧ sym.binding = .Global ∧
    ∃ s, sym.section_ = some s ∧ s ≠ ".abs"

/-- The relocation patch site of `link` step 4:
`(section_bases.get(&(file_idx, section_name)).unwrap_or(0) + reloc.offset)`. -/
def relocPatchSite (file_idx : Nat) (bases : List ((Nat × String) × Nat))
    (reloc : Obj.Relocation) : Nat :=
  (basesGet bases (file_idx, reloc.section_)).getD 0 + reloc.offset

/-- The resolved value of `link` step 4:
`(symbol_value as i32 + reloc.addend) as u16`. -/
def relocFinalValue (symbol_value : Nat) (reloc : Obj.Relocation) : Nat :=
  (((symbol_value : Int) + reloc.addend).emod 65536).toNat

/-- Modelled from the spec (for C6): "Section output order in the object
file follows the order in which sections first appeared in source" — the
order of first appearance of `SectionChange` items. -/
def sectionAppearanceOrder (items : List ParsedItem) : List String :=
  items.foldl
    (fun acc item =>
      match item with
      | .SectionChange n => if n ∈ acc then acc else acc ++ [n]
      | _ => acc)
    []

section RoundTripKeys

/-- Disjoint or is addition: `a <<< k ||| b = 2^k * a + b` for `b < 2^k`. -/
theorem lorShiftEq (k b a : Nat) (h : b < 2 ^ k) :
    a <<< k ||| b = 2 ^ k * a + b := by
  rw [Nat.shiftLeft_eq, Nat.mul_comm a (2 ^ k), ← Nat.mul_add_lt_is_or h]

theorem lor4 (a b : Nat) (h : b < 16) : a <<< 4 ||| b = 16 * a + b := by
  rw [lorShiftEq 4 b a (lt_of_lt_of_eq h (by norm_num))]
  norm_num

theorem lor8 (a b : Nat) (h : b < 256) : a <<< 8 ||| b = 256 * a + b := by
  rw [lorShiftEq 8 b a (lt_of_lt_of_eq h (by norm_num))]
  norm_num

theorem lor11 (a b : Nat) (h : b < 2048) : a <<< 11 ||| b = 2048 * a + b := by
  rw [lorShiftEq 11 b a (lt_of_lt_of_eq h (by norm_num))]
  norm_num

theorem lor12 (a b : Nat) (h : b < 4096) : a <<< 12 ||| b = 4096 * a + b := by
  rw [lorShiftEq 12 b a (lt_of_lt_of_eq h (by norm_num))]
  norm_num

theorem and15 (w : Nat) : w &&& 15 = w % 16 := by
  have h := Nat.and_pow_two_sub_one_eq_mod w 4
  norm_num at h
  exact h

theorem and255 (w : Nat) : w &&& 255 = w % 256 := by
  have h := Nat.and_pow_two_sub_one_eq_mod w 8
  norm_num at h
  exact h

theorem shrAnd15 (w n m : Nat) (hm : 2 ^ n = m) : (w >>> n) &&& 15 = w / m % 16 := by
  rw [Nat.shiftRight_eq_div_pow, and15, hm]

theorem shrAnd7 (w n m : Nat) (hm : 2 ^ n = m) : (w >>> n) &&& 7 = w / m % 8 := by
  rw [Nat.shiftRight_eq_div_pow, hm]
  have h := Nat.and_pow_two_sub_one_eq_mod (w / m) 3
  norm_num at h
  exact h

theorem shrAnd1 (w n m : Nat) (hm : 2 ^ n = m) : (w >>> n) &&& 1 = w / m % 2 := by
  rw [Nat.shiftRight_eq_div_pow, hm, Nat.and_one_is_mod]

theorem roundTrip_key_A : ∀ (op : AluOp), ∀ d < 16, ∀ s < 16,
    encodeThenDecode (.A op d s 0 none) = .ok (.A op d s 0 none) := by
  intro op d hd s hs
  have hv : op.val < 16 := by cases op <;> decide
  have hword : d <<< 8 ||| s <<< 4 ||| op.val = 256 * d + 16 * s + op.val := by
    rw [Nat.lor_assoc, lor4 s op.val hv, lor8 d (16 * s + op.val) (by omega)]
    omega
  have h0 : ((256 * d + 16 * s + op.val) >>> 12) &&& 15 = 0 := by
    rw [shrAnd15 _ 12 4096 (by norm_num)]; omega
  have h1 : ((256 * d + 16 * s + op.val) >>> 8) &&& 15 = d := by
    rw [shrAnd15 _ 8 256 (by norm_num)]; omega
  have h2 : ((256 * d + 16 * s + op.val) >>> 4) &&& 15 = s := by
    rw [shrAnd15 _ 4 16 (by norm_num)]; omega
  have h3 : (256 * d + 16 * s + op.val) &&& 15 = op.val := by
    rw [and15]; omega
  simp only [encodeThenDecode, encode, hword, decode, h0, h1, h2, h3, if_pos]
  cases op <;> rfl

theorem roundTrip_key_I : ∀ (op : ImmOp), ∀ d < 16, ∀ v < 256,
    encodeThenDecode (.I op d (.Immediate v) 0 none) =
      .ok (.I op d (.Immediate v) 0 none) := by
  intro op d hd v hv
  have hop : op.val < 5 := by cases op <;> decide
  have hword : (1 + op.val) <<< 12 ||| d <<< 8 ||| v =
      4096 * (1 + op.val) + 256 * d + v := by
    rw [Nat.lor_assoc, lor8 d v hv, lor12 (1 + op.val) (256 * d + v) (by omega)]
    ring
  have h0 : ((4096 * (1 + op.val) + 256 * d + v) >>> 12) &&& 15 = 1 + op.val := by
    rw [shrAnd15 _ 12 4096 (by norm_num)]; omega
  have h1 : ((4096 * (1 + op.val) + 256 * d + v) >>> 8) &&& 15 = d := by
    rw [shrAnd15 _ 8 256 (by norm_num)]; omega
  have h2 : (4096 * (1 + op.val) + 256 * d + v) &&& 255 = v := by
    rw [and255]; omega
  simp only [encodeThenDecode, encode, if_neg (by omega : ¬v > 0xFF), hword,
    decode, h0, h1, h2]
  cases op <;> rfl

theorem roundTrip_key_M : ∀ (op : MemOp), ∀ d < 16, ∀ b < 16, ∀ r < 16,
    encodeThenDecode (.M op d b (.Offset8 r) 0 none) =
      .ok (.M op d b (.Offset8 r) 0 none) := by
  intro op d hd b hb r hr
  have hop : op.val < 2 := by cases op <;> decide
  have hr4 : r &&& 15 = r := by rw [and15]; omega
  have hword : (6 + op.val) <<< 12 ||| d <<< 8 ||| b <<< 4 ||| r =
      4096 * (6 + op.val) + 256 * d + 16 * b + r := by
    rw [Nat.lor_assoc, Nat.lor_assoc, lor4 b r hr,
      lor8 d (16 * b + r) (by omega),
      lor12 (6 + op.val) (256 * d + (16 * b + r)) (by omega)]
    ring
  have h0 : ((4096 * (6 + op.val) + 256 * d + 16 * b + r) >>> 12) &&& 15 =
      6 + op.val := by
    rw [shrAnd15 _ 12 4096 (by norm_num)]; omega
  have h1 : ((4096 * (6 + op.val) + 256 * d + 16 * b + r) >>> 8) &&& 15 = d := by
    rw [shrAnd15 _ 8 256 (by norm_num)]; omega
  have h2 : ((4096 * (6 + op.val) + 256 * d + 16 * b + r) >>> 4) &&& 15 = b := by
    rw [shrAnd15 _ 4 16 (by norm_num)]; omega
  have h3 : (4096 * (6 + op.val) + 256 * d + 16 * b + r) &&& 15 = r := by
    rw [and15]; omega
  simp only [encodeThenDecode, encode, hr4, hword, decode, h0, h1, h2, h3]
  cases op <;> rfl

theorem decode_BI_word : ∀ (c : BranchCond), ∀ ab < 2, ∀ v < 256,
    decode (4096 * 8 + 2048 * ab + 256 * c.val + v) =
      .ok (.BI (ab != 0) c (.Immediate v) 0 none) := by
  intro c ab hab v hv
  have hc : c.val < 8 := by cases c <;> decide
  have e0 : ((4096 * 8 + 2048 * ab + 256 * c.val + v) >>> 12) &&& 15 = 8 := by
    rw [shrAnd15 _ 12 4096 (by norm_num)]; omega
  have e1 : ((4096 * 8 + 2048 * ab + 256 * c.val + v) >>> 11) &&& 1 = ab := by
    rw [shrAnd1 _ 11 2048 (by norm_num)]; omega
  have e2 : ((4096 * 8 + 2048 * ab + 256 * c.val + v) >>> 8) &&& 7 = c.val := by
    rw [shrAnd7 _ 8 256 (by norm_num)]; omega
  have e3 : (4096 * 8 + 2048 * ab + 256 * c.val + v) &&& 255 = v := by
    rw [and255]; omega
  simp only [decode, e0, e1, e2, e3]
  cases c <;> rfl

theorem roundTrip_key_BI : ∀ (a : Bool) (c : BranchCond), ∀ v < 256,
    encodeThenDecode (.BI a c (.Immediate v) 0 none) =
      .ok (.BI a c (.Immediate v) 0 none) := by
  intro a c v hv
  have hc : c.val < 8 := by cases c <;> decide
  have hword : ∀ ab < 2, (8 : Nat) <<< 12 ||| ab <<< 11 ||| c.val <<< 8 ||| v =
      4096 * 8 + 2048 * ab + 256 * c.val + v := by
    intro ab hab
    rw [Nat.lor_assoc, Nat.lor_assoc, lor8 c.val v hv,
      lor11 ab (256 * c.val + v) (by omega),
      lor12 8 (2048 * ab + (256 * c.val + v)) (by omega)]
    ring
  cases a
  · simpa only [encodeThenDecode, encode, if_neg (by omega : ¬v > 0xFF),
      Bool.false_eq_true, if_false, hword 0 (by omega)]
      using decode_BI_word c 0 (by omega) v hv
  · simpa only [encodeThenDecode, encode, if_neg (by omega : ¬v > 0xFF),
      if_true, hword 1 (by omega)]
      using decode_BI_word c 1 (by omega) v hv

theorem decode_BR_word : ∀ (c : BranchCond), ∀ ab < 2, ∀ h < 16, ∀ l < 16,
    decode (4096 * 9 + 2048 * ab + 256 * c.val + 16 * l + h) =
      .ok (.BR (ab != 0) c ⟨h, l⟩ 0 none) := by
  intro c ab hab h hh l hl
  have hc : c.val < 8 := by cases c <;> decide
  have e0 : ((4096 * 9 + 2048 * ab + 256 * c.val + 16 * l + h) >>> 12) &&& 15 =
      9 := by rw [shrAnd15 _ 12 4096 (by norm_num)]; omega
  have e1 : ((4096 * 9 + 2048 * ab + 256 * c.val + 16 * l + h) >>> 11) &&& 1 =
      ab := by rw [shrAnd1 _ 11 2048 (by norm_num)]; omega
  have e2 : ((4096 * 9 + 2048 * ab + 256 * c.val + 16 * l + h) >>> 8) &&& 7 =
      c.val := by rw [shrAnd7 _ 8 256 (by norm_num)]; omega
  have e3 : ((4096 * 9 + 2048 * ab + 256 * c.val + 16 * l + h) >>> 4) &&& 15 =
      l := by rw [shrAnd15 _ 4 16 (by norm_num)]; omega
  have e4 : (4096 * 9 + 2048 * ab + 256 * c.val + 16 * l + h) &&& 15 = h := by
    rw [and15]; omega
  simp only [decode, e0, e1, e2, e3, e4]
  cases c <;> rfl

theorem roundTrip_key_BR : ∀ (a : Bool) (c : BranchCond), ∀ h < 16, ∀ l < 16,
    encodeThenDecode (.BR a c ⟨h, l⟩ 0 none) = .ok (.BR a c ⟨h, l⟩ 0 none) := by
  intro a c h hh l hl
  have hc : c.val < 8 := by cases c <;> decide
  have hword : ∀ ab < 2, (9 : Nat) <<< 12 ||| ab <<< 11 ||| c.val <<< 8 |||
      l <<< 4 ||| h = 4096 * 9 + 2048 * ab + 256 * c.val + 16 * l + h := by
    intro ab hab
    rw [Nat.lor_assoc, Nat.lor_assoc, Nat.lor_assoc, lor4 l h hh,
      lor8 c.val (16 * l + h) (by omega),
      lor11 ab (256 * c.val + (16 * l + h)) (by omega),
      lor12 9 (2048 * ab + (256 * c.val + (16 * l + h))) (by omega)]
    ring
  cases a
  · simpa only [encodeThenDecode, encode, Bool.false_eq_true, if_false,
      hword 0 (by omega)]
      using decode_BR_word c 0 (by omega) h hh l hl
  · simpa only [encodeThenDecode, encode, if_true, hword 1 (by omega)]
      using decode_BR_word c 1 (by omega) h hh l hl

theorem roundTrip_key_S : ∀ (op : StackOp), ∀ o < 256,
    encodeThenDecode (.S op o 0 none) = .ok (.S op o 0 none) := by
  intro op o ho
  have hop : op.val < 6 := by cases op <;> decide
  have hword : (10 : Nat) <<< 12 ||| op.val <<< 8 ||| o =
      4096 * 10 + 256 * op.val + o := by
    rw [Nat.lor_assoc, lor8 op.val o ho,
      lor12 10 (256 * op.val + o) (by omega)]
    omega
  have h0 : ((4096 * 10 + 256 * op.val + o) >>> 12) &&& 15 = 10 := by
    rw [shrAnd15 _ 12 4096 (by norm_num)]; omega
  have h1 : ((4096 * 10 + 256 * op.val + o) >>> 8) &&& 15 = op.val := by
    rw [shrAnd15 _ 8 256 (by norm_num)]; omega
  have h2 : (4096 * 10 + 256 * op.val + o) &&& 255 = o := by
    rw [and255]; omega
  simp only [encodeThenDecode, encode, hword, decode, h0, h1, h2]
  cases op <;> rfl

theorem roundTrip_key_P : ∀ (op : PeekPokeOp), ∀ r < 16, ∀ v < 256,
    encodeThenDecode (.P op r (.Immediate v) 0 none) =
      .ok (.P op r (.Immediate v) 0 none) := by
  intro op r hr v hv
  have hword : ∀ t : Nat, t <<< 12 ||| r <<< 8 ||| v =
      4096 * t + 256 * r + v := by
    intro t
    rw [Nat.lor_assoc, lor8 r v hv, lor12 t (256 * r + v) (by omega)]
    omega
  cases op
  · have e0 : ((4096 * 12 + 256 * r + v) >>> 12) &&& 15 = 12 := by
      rw [shrAnd15 _ 12 4096 (by norm_num)]; omega
    have e1 : ((4096 * 12 + 256 * r + v) >>> 8) &&& 15 = r := by
      rw [shrAnd15 _ 8 256 (by norm_num)]; omega
    have e2 : (4096 * 12 + 256 * r + v) &&& 255 = v := by
      rw [and255]; omega
    simp only [encodeThenDecode, encode, if_neg (by omega : ¬v > 0xFF),
      hword 12, decode, e0, e1, e2]
    rfl
  · have e0 : ((4096 * 11 + 256 * r + v) >>> 12) &&& 15 = 11 := by
      rw [shrAnd15 _ 12 4096 (by norm_num)]; omega
    have e1 : ((4096 * 11 + 256 * r + v) >>> 8) &&& 15 = r := by
      rw [shrAnd15 _ 8 256 (by norm_num)]; omega
    have e2 : (4096 * 11 + 256 * r + v) &&& 255 = v := by
      rw [and255]; omega
    simp only [encodeThenDecode, encode, if_neg (by omega : ¬v > 0xFF),
      hword 11, decode, e0, e1, e2]
    rfl

theorem decode_X_word : ∀ (op : XTypeOp), ∀ bits < 256,
    decode (4096 * 13 + 256 * op.val + bits) =
      .ok (.X op
        (if op = .SYSC then .Immediate bits
         else if bits = 0 then .None
         else .Registers ((bits >>> 4) &&& 15) (bits &&& 15)) 0 none) := by
  intro op bits hbits
  have hop : op.val < 7 := by cases op <;> decide
  have h0 : ((4096 * 13 + 256 * op.val + bits) >>> 12) &&& 15 = 13 := by
    rw [shrAnd15 _ 12 4096 (by norm_num)]; omega
  have h1 : ((4096 * 13 + 256 * op.val + bits) >>> 8) &&& 15 = op.val := by
    rw [shrAnd15 _ 8 256 (by norm_num)]; omega
  have h2 : (4096 * 13 + 256 * op.val + bits) &&& 255 = bits := by
    rw [and255]; omega
  simp only [decode, h0, h1, h2]
  cases op <;> simp [XTypeOp.val]

theorem xword_eq (t : Nat) (bits : Nat) (ht : t < 7) (hb : bits < 256) :
    (13 : Nat) <<< 12 ||| t <<< 8 ||| bits = 4096 * 13 + 256 * t + bits := by
  rw [Nat.lor_assoc, lor8 t bits hb, lor12 13 (256 * t + bits) (by omega)]
  omega

theorem roundTrip_key_X_sysc (v : Nat) (hv : v < 256) :
    encodeThenDecode (.X .SYSC (.Immediate v) 0 none) =
      .ok (.X .SYSC (.Immediate v) 0 none) := by
  have hd := decode_X_word .SYSC v hv
  rw [if_pos rfl] at hd
  simpa only [encodeThenDecode, encode,
    xword_eq XTypeOp.SYSC.val v (by decide) hv] using hd

theorem roundTrip_key_X_none (op : XTypeOp) (hne : op ≠ .SYSC) :
    encodeThenDecode (.X op .None 0 none) = .ok (.X op .None 0 none) := by
  have hop : op.val < 7 := by cases op <;> decide
  have hd := decode_X_word op 0 (by omega)
  rw [if_neg hne, if_pos rfl] at hd
  simpa only [encodeThenDecode, encode, xword_eq op.val 0 hop (by omega)]
    using hd

theorem roundTrip_key_X_regs (op : XTypeOp) (hne : op ≠ .SYSC) (a b : Nat)
    (ha : a < 16) (hb : b < 16) (hz : ¬(a = 0 ∧ b = 0)) :
    encodeThenDecode (.X op (.Registers a b) 0 none) =
      .ok (.X op (.Registers a b) 0 none) := by
  have hop : op.val < 7 := by cases op <;> decide
  have hbits : a <<< 4 ||| b = 16 * a + b := lor4 a b hb
  have hnz : ¬(16 * a + b = 0) := by omega
  have hhi : ((16 * a + b) >>> 4) &&& 15 = a := by
    rw [shrAnd15 _ 4 16 (by norm_num)]; omega
  have hlo : (16 * a + b) &&& 15 = b := by rw [and15]; omega
  have hd := decode_X_word op (16 * a + b) (by omega)
  rw [if_neg hne, if_neg hnz, hhi, hlo] at hd
  simpa only [encodeThenDecode, encode, hbits,
    xword_eq op.val (16 * a + b) hop (by omega)] using hd

end RoundTripKeys

/-- C1 counterexample.  The claim's quantification domain explicitly includes
M-type instructions with `SR` register offsets and X-type instructions with
`Register` operands, but the decoder never produces `MOffset.SR` or
`XOperand.Register`: both round trips fail at these concrete instances. -/
theorem C1_roundtrip_counterexample :
    encodeThenDecode (.M .LD 1 2 (.SR 3) 0 none) ≠
      .ok (stripMeta (.M .LD 1 2 (.SR 3) 0 none)) ∧
    encodeThenDecode (.X .HALT (.Register 3) 0 none) ≠
      .ok (stripMeta (.X .HALT (.Register 3) 0 none)) := by
  decide

/-- C1 (amended): `decode (encode x)` recovers `x` up to erasure of `line`
and `source_file` for every instruction in the decoder's canonical image:
register fields below 16, resolved immediates below 256, M offsets given as a
raw 4-bit `Offset8` (not `SR`), and X operands of the canonical shape (`SYSC`
with an immediate; other X ops with `None` or a non-zero register pair).
M-type `SR` offsets and X-type `Register` operands — which the original claim
included — are excluded, as the decoder cannot produce them. -/
theorem C1_roundtrip_amended : ∀ x : ParsedInstruction,
    roundTripSafe x = true → encodeThenDecode x = .ok (stripMeta x) := by
  intro x hsafe
  cases x with
  | A op d s l f =>
      simp only [roundTripSafe, Bool.and_eq_true, decide_eq_true_eq] at hsafe
      exact roundTrip_key_A op d hsafe.1 s hsafe.2
  | I op d imm l f =>
      cases imm with
      | Label n => simp [roundTripSafe] at hsafe
      | Immediate v =>
          simp only [roundTripSafe, Bool.and_eq_true, decide_eq_true_eq]
            at hsafe
          have heq : encodeThenDecode (.I op d (.Immediate v) l f) =
              encodeThenDecode (.I op d (.Immediate v) 0 none) := by
            simp only [encodeThenDecode, encode,
              if_neg (show ¬v > 0xFF by omega)]
          rw [heq]
          exact roundTrip_key_I op d hsafe.1 v hsafe.2
  | M op d b offset l f =>
      cases offset with
      | SR r => simp [roundTripSafe] at hsafe
      | Offset8 r =>
          simp only [roundTripSafe, Bool.and_eq_true, decide_eq_true_eq]
            at hsafe
          exact roundTrip_key_M op d hsafe.1.1 b hsafe.1.2 r hsafe.2
  | BI a c operand l f =>
      cases operand with
      | Label n => simp [roundTripSafe] at hsafe
      | Immediate v =>
          simp only [roundTripSafe, decide_eq_true_eq] at hsafe
          have heq : encodeThenDecode (.BI a c (.Immediate v) l f) =
              encodeThenDecode (.BI a c (.Immediate v) 0 none) := by
            simp only [encodeThenDecode, encode,
              if_neg (show ¬v > 0xFF by omega)]
          rw [heq]
          exact roundTrip_key_BI a c v hsafe
  | BR a c src l f =>
      obtain ⟨h, lo⟩ := src
      simp only [roundTripSafe, Bool.and_eq_true, decide_eq_true_eq] at hsafe
      exact roundTrip_key_BR a c h hsafe.1 lo hsafe.2
  | S op o l f =>
      simp only [roundTripSafe, decide_eq_true_eq] at hsafe
      exact roundTrip_key_S op o hsafe
  | P op r offset l f =>
      cases offset with
      | Label n => simp [roundTripSafe] at hsafe
      | Immediate v =>
          simp only [roundTripSafe, Bool.and_eq_true, decide_eq_true_eq]
            at hsafe
          have heq : encodeThenDecode (.P op r (.Immediate v) l f) =
              encodeThenDecode (.P op r (.Immediate v) 0 none) := by
            simp only [encodeThenDecode, encode,
              if_neg (show ¬v > 0xFF by omega)]
          rw [heq]
          exact roundTrip_key_P op r hsafe.1 v hsafe.2
  | X op operand l f =>
      cases operand with
      | None =>
          cases op
          case SYSC => simp [roundTripSafe] at hsafe
          all_goals exact roundTrip_key_X_none _ (by decide)
      | Immediate v =>
          cases op
          case SYSC =>
              simp only [roundTripSafe, decide_eq_true_eq] at hsafe
              exact roundTrip_key_X_sysc v hsafe
          all_goals simp [roundTripSafe] at hsafe
      | Register r =>
          cases op <;> simp [roundTripSafe] at hsafe
      | Registers a b =>
          cases op
          case SYSC => simp [roundTripSafe] at hsafe
          all_goals (
            simp only [roundTripSafe, Bool.and_eq_true, decide_eq_true_eq,
              Bool.not_eq_eq_eq_not, Bool.not_true, Bool.and_eq_false_imp,
              beq_eq_false_iff_ne, ne_eq, beq_iff_eq] at hsafe
            refine roundTrip_key_X_regs _ (by decide) a b hsafe.1.1 hsafe.1.2
              ?_
            intro hab
            exact absurd (hsafe.2 hab.1) (by simpa using hab.2))

/-- C1 witness: the amended round-trip law applied at `ldi r1, 0x55`
(carrying diagnostic metadata, which decoding erases). -/
theorem C1_roundtrip_witness :
    roundTripSafe (.I .LDI 1 (.Immediate 0x55) 7 (some "prog.s")) = true ∧
    encodeThenDecode (.I .LDI 1 (.Immediate 0x55) 7 (some "prog.s")) =
      .ok (.I .LDI 1 (.Immediate 0x55) 0 none) :=
  ⟨by decide, C1_roundtrip_amended _ (by decide)⟩

/-- C2: the parser accepts `beq -1` (signed offset in −128..127) and builds
`BI { absolute = false }` whose operand is the sign-extended 16-bit value
0xFFFF — and the encoder then rejects it (`addr > 0xFF`), so no negative
relative branch can be encoded; `assemble` fails instead of emitting a word
with low byte 0xFF.  The parser's −128..127 validation and the spec's
"raw two's-complement signed offset" show the encoder check is the slip. -/
theorem C2_branch_negative_offset :
    (parseProgram "beq -1\n").map Prod.fst =
      .ok [.Instruction (.BI false .EQ (.Immediate 0xFFFF) 1 none)] ∧
    encode (.BI false .EQ (.Immediate 0xFFFF) 1 none) =
      .error ⟨1, "Branch address 0xffff exceeds 8-bit range"⟩ ∧
    assembleSource "prog.s" "beq -1\n" =
      .error (.EncodingError ⟨1, "Branch address 0xffff exceeds 8-bit range"⟩) ∧
    (parseProgram "beq +5\n").map Prod.fst =
      .ok [.Instruction (.BI false .EQ (.Immediate 5) 1 none)] ∧
    encode (.BI false .EQ (.Immediate 5) 1 none) = .ok 0x8105 := by
  refine ⟨?_, by decide, ?_, ?_, by decide⟩ <;> decide

/-- C3 counterexample: `nop` parses successfully into
`A { op = ADD, dest = 0, source = 0 }`, which violates the claimed
invariant (ADD is neither CMP nor TST). -/
theorem C3_r0_counterexample :
    (parseProgram "nop\n").map Prod.fst =
      .ok [.Instruction (.A .ADD 0 0 1 none)] ∧
    ¬r0ClaimInvariant (.A .ADD 0 0 1 none) := by
  constructor
  · decide
  · decide

/-- C4 counterexample: assembling the two-line source of scenario S3 does
not produce the claimed `.text` bytes `0x11 0x01 0x81 0x00` — a resolved
`beq label` keeps `absolute = true`, setting bit 11 (0x89, not 0x81). -/
theorem C4_s3_counterexample :
    (assembleSource "prog.s" "start: ldi r1, 1\nbeq start").map
      (fun o => o.sections.map (fun s => (s.name, s.data))) ≠
    .ok [(".text", [0x11, 0x01, 0x81, 0x00])] := by
  decide

/-- C4 (amended): scenario S3 produces the symbol `start ↦ offset 0` in
`.text`, no relocations, and `.text` bytes `0x11 0x01 0x89 0x00` (the
branch word carries the absolute bit: `0x8900`, not the spec's `0x8100`,
which contradicts the spec's own bit-11 layout). -/
theorem C4_s3_amended :
    assembleSource "prog.s" "start: ldi r1, 1\nbeq start" =
      .ok ⟨[⟨".text", 0, [0x11, 0x01, 0x89, 0x00]⟩],
        [⟨"start", 0, some ".text", .Local⟩], [], 1⟩ ∧
    (parseProgram "start: ldi r1, 1\nbeq start").map
      (fun r => r.2.symbols.symbols) =
      .ok [("start", .Label 0 ".text")] := by
  constructor
  · decide
  · decide

/-- C10 counterexample: `pop` is a register-operand position, but it is
matched directly against the `Register` token, so the bare immediate `5` is
rejected with `UnexpectedToken` instead of being read as `r5`. -/
theorem C10_register_counterexample :
    parseProgram "pop 5\n" =
      .error (.UnexpectedToken 1 "register" "immediate 5") ∧
    (parseProgram "pop r5\n").map Prod.fst =
      .ok [.Instruction (.S .POP 5 1 none)] := by
  constructor
  · decide
  · decide

/-- C10 (amended): operand positions read via `expect_register` (A-type
operands, I-type destination, M-type destination and base, the
`poke`/`peek` register, the second register of a pair, `inc`/`dec`) treat a
bare unsigned immediate in 0..15 as that register and reject a signed or
out-of-range immediate with `UnexpectedToken`.  A bare immediate is never
read as a register in the positions matched directly against the `Register`
token: `push`/`pop` reject it, while `addsp`/`subsp`, the `[rb, off]`
offset, and the first operand of a branch or X instruction read it as an
immediate operand instead.  In particular `add 5, r1` parses exactly as
`add r5, r1` and `peek 5, 1` exactly as `peek r5, 1`, while `subsp 5` is
the immediate form. -/
theorem C10_register_amended :
    (∀ st tok ts reg, tok.token = Token.Register reg →
      expect_register st (tok :: ts) =
        .ok (reg, { st with last_line := tok.span.line }, ts)) ∧
    (∀ st tok ts imm, tok.token = Token.Immediate imm →
      imm.signed = false → 0 ≤ imm.value → imm.value ≤ 15 →
      expect_register st (tok :: ts) =
        .ok (imm.value.toNat, { st with last_line := tok.span.line }, ts)) ∧
    (∀ st tok ts imm, tok.token = Token.Immediate imm →
      (imm.signed = true ∨ imm.value < 0 ∨ imm.value > 15) →
      expect_register st (tok :: ts) =
        .error (.UnexpectedToken tok.span.line "register"
          (token_description (.Immediate imm)))) ∧
    parseProgram "add 5, r1\n" = parseProgram "add r5, r1\n" ∧
    parseProgram "peek 5, 1\n" = parseProgram "peek r5, 1\n" ∧
    (parseProgram "subsp 5\n").map Prod.fst =
      .ok [.Instruction (.S .SUBSP_IMM 5 1 none)] := by
  refine ⟨?_, ?_, ?_, by decide, by decide, by decide⟩
  · intro st tok ts reg h
    simp [expect_register, next_token, h]
  · intro st tok ts imm h hs h0 h15
    simp only [expect_register, next_token, h]
    rw [if_pos]
    simp [hs, h0, h15]
  · intro st tok ts imm h hbad
    simp only [expect_register, next_token, h]
    rw [if_neg]
    intro ⟨hs, h0, h15⟩
    rcases hbad with hb | hb | hb
    · rw [hb] at hs; simp at hs
    · omega
    · omega

/-- C10 witness: the amended characterization applied to the concrete token
`5` (unsigned), read as register 5. -/
theorem C10_register_witness :
    expect_register ⟨0, SymbolTable.new, 1, ".text"⟩
        [⟨.Immediate ⟨5, false⟩, ⟨4, 5, 1⟩⟩] =
      .ok (5, ⟨0, SymbolTable.new, 1, ".text"⟩, []) :=
  C10_register_amended.2.1 ⟨0, SymbolTable.new, 1, ".text"⟩
    ⟨.Immediate ⟨5, false⟩, ⟨4, 5, 1⟩⟩ [] ⟨5, false⟩ rfl rfl (by decide)
    (by decide)

set_option maxHeartbeats 1000000 in
theorem process_instruction_r0 : ∀ m line st ts x st' ts',
    process_instruction m line st ts = .ok (x, st', ts') →
    r0AmendedInvariant x := by
  intro m line st ts x st' ts' h
  cases m <;>
    (unfold process_instruction at h
     try simp only [Mnemonic.get_type] at h
     repeat' split at h
     all_goals
       (first
         | exact Except.noConfusion h
         | (simp only [Except.ok.injEq, Prod.mk.injEq] at h
            all_goals
              (obtain ⟨h1, h2⟩ := h
               subst h1
               first
                 | exact trivial
                 | tauto))))

set_option maxHeartbeats 1000000 in
theorem handle_directive_no_instruction : ∀ d st ts item st' ts',
    handle_directive d st ts = .ok (some item, st', ts') →
    ∀ x, item ≠ .Instruction x := by
  intro d st ts item st' ts' h x
  cases d <;>
    (unfold handle_directive at h
     repeat' (first | split at h | simp only [] at h)
     all_goals
       (first
         | exact Except.noConfusion h
         | (simp only [Except.ok.injEq, Prod.mk.injEq, Option.some.injEq] at h
            all_goals
              (obtain ⟨h1, h2⟩ := h
               first
                 | exact Option.noConfusion h1
                 | (subst h1
                    exact fun hc => ParsedItem.noConfusion hc)))))

/-- C3 (amended): every instruction item in a successful parse satisfies
the r0 invariant with the `nop` expansion exempted. -/
theorem C3_r0_amended : ∀ fuel st ts items st',
    parseAll fuel st ts = .ok (items, st') →
    ∀ x, ParsedItem.Instruction x ∈ items → r0AmendedInvariant x := by
  intro fuel
  induction fuel with
  | zero =>
      intro st ts items st' h
      exact absurd h (by simp [parseAll])
  | succ fuel ih =>
      intro st ts items st' h x hx
      unfold parseAll at h
      repeat' (first | split at h | simp only [] at h)
      all_goals
        first
          | exact Except.noConfusion h
          | exact ih _ _ _ _ h x hx
          | (simp only [Except.ok.injEq, Prod.mk.injEq] at h
             obtain ⟨h1, h2⟩ := h
             subst h1
             exact absurd hx (List.not_mem_nil _))
          | (simp only [Except.ok.injEq, Prod.mk.injEq] at h
             obtain ⟨h1, h2⟩ := h
             subst h1
             rcases List.mem_cons.mp hx with hhead | htail
             · first
                 | (rename handle_directive _ _ _ = _ => heq
                    exact absurd hhead.symm
                      (handle_directive_no_instruction _ _ _ _ _ _ heq x))
                 | (cases hhead
                    rename process_instruction _ _ _ _ = _ => heq
                    exact process_instruction_r0 _ _ _ _ _ _ _ heq)
             · (rename parseAll _ _ _ = _ => hrec
                exact ih _ _ _ _ hrec x htail))

/-- C3 witness: the amended invariant applied to the parse of a program
containing `nop` and an ordinary instruction. -/
theorem C3_r0_witness :
    (∃ items st',
      parseAll 5
        ⟨0, SymbolTable.new, 1, ".text"⟩
        [⟨.Mnemonic .NOP, ⟨0, 3, 1⟩⟩, ⟨.NewLine, ⟨3, 4, 1⟩⟩,
         ⟨.EoF, ⟨4, 4, 2⟩⟩] = .ok (items, st') ∧
      ∀ x, ParsedItem.Instruction x ∈ items → r0AmendedInvariant x) := by
  refine ⟨[.Instruction (.A .ADD 0 0 1 none)],
    ⟨2, SymbolTable.new, 2, ".text"⟩, by decide, ?_⟩
  exact C3_r0_amended 5 ⟨0, SymbolTable.new, 1, ".text"⟩
    [⟨.Mnemonic .NOP, ⟨0, 3, 1⟩⟩, ⟨.NewLine, ⟨3, 4, 1⟩⟩, ⟨.EoF, ⟨4, 4, 2⟩⟩]
    [.Instruction (.A .ADD 0 0 1 none)] ⟨2, SymbolTable.new, 2, ".text"⟩
    (by decide)

/-! Helper lemmas about the linker symbol-registration pass, used for the
duplicate-global analysis. -/

theorem hashGet_cons : ∀ k' v' rest n,
    hashGet ((k', v') :: rest) n = if k' = n then some v' else hashGet rest n := by
  intro k' v' rest n
  by_cases h : k' = n
  · simp [hashGet, List.find?_cons_of_pos, h]
  · simp [hashGet, List.find?_cons_of_neg, h]

theorem hashGet_insert_self : ∀ m k v, hashGet (hashInsert m k v) k = some v := by
  intro m k v
  induction m with
  | nil => simp [hashInsert, hashGet_cons]
  | cons p rest ih =>
      obtain ⟨k', v'⟩ := p
      by_cases hk : k' = k
      · subst hk
        simp [hashInsert, hashGet_cons]
      · simp [hashInsert, hk, hashGet_cons, ih]

theorem hashGet_insert_isSome : ∀ m k v n, (hashGet m n).isSome →
    (hashGet (hashInsert m k v) n).isSome := by
  intro m k v n h
  induction m with
  | nil => simp [hashGet] at h
  | cons p rest ih =>
      obtain ⟨k', v'⟩ := p
      simp only [hashInsert]
      by_cases hk : k' = k
      · rw [if_pos hk]
        subst hk
        rw [hashGet_cons] at h
        rw [hashGet_cons]
        by_cases hn : k' = n
        · rw [if_pos hn]
          rfl
        · rw [if_neg hn] at h ⊢
          exact h
      · rw [if_neg hk]
        rw [hashGet_cons] at h
        rw [hashGet_cons]
        by_cases hn : k' = n
        · rw [if_pos hn] at h ⊢
          exact h
        · rw [if_neg hn] at h ⊢
          exact ih h

theorem registerOneSymbol_ok_preserve : ∀ path idx bases lm sym lm' n,
    registerOneSymbol path idx bases lm sym = .ok lm' →
    (hashGet lm n).isSome → (hashGet lm' n).isSome := by
  intro path idx bases lm sym lm' n h hn
  unfold registerOneSymbol at h
  repeat' (first | split at h | simp only [] at h)
  all_goals
    first
      | exact Except.noConfusion h
      | contradiction
      | (simp only [Except.ok.injEq] at h
         subst h
         first
           | exact hn
           | exact hashGet_insert_isSome _ _ _ _ hn)

theorem registerOneSymbol_ok_registers : ∀ path idx bases lm sym s lm',
    sym.section_ = some s →
    registerOneSymbol path idx bases lm sym = .ok lm' →
    (hashGet lm' sym.name).isSome := by
  intro path idx bases lm sym s lm' hs h
  unfold registerOneSymbol at h
  rw [hs] at h
  simp only [] at h
  by_cases habs : s = ".abs"
  · rw [if_pos habs] at h
    simp only [Except.ok.injEq] at h
    subst h
    rw [hashGet_insert_self]
    rfl
  · rw [if_neg habs] at h
    cases hbind : sym.binding with
    | Global =>
        rw [hbind] at h
        simp only [] at h
        cases hget : hashGet lm sym.name with
        | some existing =>
            rw [hget] at h
            simp only [] at h
            exact Except.noConfusion h
        | none =>
            rw [hget] at h
            simp only [Except.ok.injEq] at h
            subst h
            rw [hashGet_insert_self]
            rfl
    | Local =>
        rw [hbind] at h
        simp only [Except.ok.injEq] at h
        subst h
        rw [hashGet_insert_self]
        rfl

theorem registerOneSymbol_dup_err : ∀ path idx bases lm sym s,
    sym.section_ = some s → s ≠ ".abs" → sym.binding = .Global →
    (hashGet lm sym.name).isSome →
    ∀ lm', registerOneSymbol path idx bases lm sym ≠ .ok lm' := by
  intro path idx bases lm sym s hs habs hg hin lm' h
  unfold registerOneSymbol at h
  rw [hs] at h
  simp only [] at h
  rw [if_neg habs, hg] at h
  simp only [] at h
  obtain ⟨v, hv⟩ := Option.isSome_iff_exists.mp hin
  rw [hv] at h
  simp only [] at h
  exact Except.noConfusion h

theorem registerFileSymbols_preserve : ∀ path idx bases syms lm lm' n,
    registerFileSymbols path idx bases syms lm = .ok lm' →
    (hashGet lm n).isSome → (hashGet lm' n).isSome := by
  intro path idx bases syms
  induction syms with
  | nil =>
      intro lm lm' n h hn
      simp only [registerFileSymbols, Except.ok.injEq] at h
      exact h ▸ hn
  | cons a rest ih =>
      intro lm lm' n h hn
      unfold registerFileSymbols at h
      split at h
      · exact Except.noConfusion h
      · rename_i lm1 heq
        exact ih _ _ _ h
          (registerOneSymbol_ok_preserve _ _ _ _ _ _ _ heq hn)

theorem registerFileSymbols_registers : ∀ path idx bases syms sym s lm lm',
    sym ∈ syms → sym.section_ = some s →
    registerFileSymbols path idx bases syms lm = .ok lm' →
    (hashGet lm' sym.name).isSome := by
  intro path idx bases syms
  induction syms with
  | nil =>
      intro sym s lm lm' hmem
      exact absurd hmem (List.not_mem_nil _)
  | cons a rest ih =>
      intro sym s lm lm' hmem hs h
      unfold registerFileSymbols at h
      split at h
      · exact Except.noConfusion h
      · rename_i lm1 heq
        rcases List.mem_cons.mp hmem with rfl | htail
        · exact registerFileSymbols_preserve _ _ _ _ _ _ _ h
            (registerOneSymbol_ok_registers _ _ _ _ _ _ _ hs heq)
        · exact ih _ _ _ _ htail hs h

theorem registerFileSymbols_dup : ∀ path idx bases syms sym s lm,
    sym ∈ syms → sym.section_ = some s → s ≠ ".abs" →
    sym.binding = .Global → (hashGet lm sym.name).isSome →
    ∀ lm', registerFileSymbols path idx bases syms lm ≠ .ok lm' := by
  intro path idx bases syms
  induction syms with
  | nil =>
      intro sym s lm hmem
      exact absurd hmem (List.not_mem_nil _)
  | cons a rest ih =>
      intro sym s lm hmem hs habs hg hin lm' h
      unfold registerFileSymbols at h
      split at h
      · exact Except.noConfusion h
      · rename_i lm1 heq
        rcases List.mem_cons.mp hmem with rfl | htail
        · exact registerOneSymbol_dup_err _ _ _ _ _ _ hs habs hg hin _ heq
        · exact ih _ _ _ htail hs habs hg
            (registerOneSymbol_ok_preserve _ _ _ _ _ _ _ heq hin) _ h

theorem registerSymbolsFrom_preserve : ∀ bases loaded k lm lm' n,
    registerSymbolsFrom bases k loaded lm = .ok lm' →
    (hashGet lm n).isSome → (hashGet lm' n).isSome := by
  intro bases loaded
  induction loaded with
  | nil =>
      intro k lm lm' n h hn
      simp only [registerSymbolsFrom, Except.ok.injEq] at h
      exact h ▸ hn
  | cons p rest ih =>
      intro k lm lm' n h hn
      obtain ⟨path, obj⟩ := p
      unfold registerSymbolsFrom at h
      split at h
      · exact Except.noConfusion h
      · rename_i lm1 heq
        exact ih _ _ _ _ h
          (registerFileSymbols_preserve _ _ _ _ _ _ _ heq hn)

theorem registerSymbolsFrom_append_ok : ∀ bases xs ys k lm lm',
    registerSymbolsFrom bases k (xs ++ ys) lm = .ok lm' →
    ∃ lm1, registerSymbolsFrom bases k xs lm = .ok lm1 ∧
      registerSymbolsFrom bases (k + xs.length) ys lm1 = .ok lm' := by
  intro bases xs
  induction xs with
  | nil =>
      intro ys k lm lm' h
      exact ⟨lm, rfl, by simpa using h⟩
  | cons p rest ih =>
      intro ys k lm lm' h
      obtain ⟨path, obj⟩ := p
      rw [List.cons_append] at h
      unfold registerSymbolsFrom at h
      split at h
      · exact Except.noConfusion h
      · rename_i lm1 heq
        obtain ⟨lm2, h1, h2⟩ := ih _ _ _ _ h
        refine ⟨lm2, ?_, ?_⟩
        · unfold registerSymbolsFrom
          rw [heq]
          exact h1
        · simp only [List.length_cons]
          have harith : k + (rest.length + 1) = k + 1 + rest.length := by omega
          rw [harith]
          exact h2

theorem registerOneSymbol_err_kind : ∀ path idx bases lm sym e,
    registerOneSymbol path idx bases lm sym = .error e →
    e.kind = .DuplicateSymbol := by
  intro path idx bases lm sym e h
  unfold registerOneSymbol at h
  repeat' (first | split at h | simp only [] at h)
  all_goals
    first
      | exact Except.noConfusion h
      | contradiction
      | (simp only [Except.error.injEq] at h
         subst h
         rfl)

theorem registerFileSymbols_err_kind : ∀ path idx bases syms lm e,
    registerFileSymbols path idx bases syms lm = .error e →
    e.kind = .DuplicateSymbol := by
  intro path idx bases syms
  induction syms with
  | nil =>
      intro lm e h
      exact absurd h (by simp [registerFileSymbols])
  | cons a rest ih =>
      intro lm e h
      unfold registerFileSymbols at h
      split at h
      · rename_i e0 heq
        simp only [Except.error.injEq] at h
        exact h ▸ registerOneSymbol_err_kind _ _ _ _ _ _ heq
      · exact ih _ _ h

theorem registerSymbolsFrom_err_kind : ∀ bases loaded k lm e,
    registerSymbolsFrom bases k loaded lm = .error e →
    e.kind = .DuplicateSymbol := by
  intro bases loaded
  induction loaded with
  | nil =>
      intro k lm e h
      exact absurd h (by simp [registerSymbolsFrom])
  | cons p rest ih =>
      intro k lm e h
      obtain ⟨path, obj⟩ := p
      unfold registerSymbolsFrom at h
      split at h
      · rename_i e0 heq
        simp only [Except.error.injEq] at h
        exact h ▸ registerFileSymbols_err_kind _ _ _ _ _ _ heq
      · exact ih _ _ _ h

/-- C5 (amended): two input objects that define a same-named symbol, the
second with `Global` binding in a present section other than `.abs` (the
first in any present section, `.abs` included), make the linker fail with a
`DuplicateSymbol` error. -/
theorem C5_dup_global_amended :
    ∀ pre mid post pa pb oa ob syma symb sa sb,
    syma ∈ oa.symbols → syma.section_ = some sa →
    symb ∈ ob.symbols → symb.section_ = some sb → sb ≠ ".abs" →
    symb.binding = .Global → symb.name = syma.name →
    ∃ e, linkObjects (pre ++ ((pa, oa) :: (mid ++ ((pb, ob) :: post)))) =
        .error e ∧ e.kind = .DuplicateSymbol := by
  intro pre mid post pa pb oa ob syma symb sa sb ha hsa hb hsb habs hg hn
  rcases hms : mergeSections (pre ++ ((pa, oa) :: (mid ++ ((pb, ob) :: post))))
    with ⟨merged, bases⟩
  cases hreg : registerSymbols (pre ++ ((pa, oa) :: (mid ++ ((pb, ob) :: post))))
      bases with
  | error e =>
      refine ⟨e, ?_, ?_⟩
      · unfold linkObjects
        rw [hms]
        simp only []
        rw [hreg]
      · exact registerSymbolsFrom_err_kind _ _ _ _ _ hreg
  | ok lm =>
      exfalso
      unfold registerSymbols at hreg
      obtain ⟨lm1, h1, h2⟩ := registerSymbolsFrom_append_ok _ _ _ _ _ _ hreg
      unfold registerSymbolsFrom at h2
      split at h2
      · exact Except.noConfusion h2
      · rename_i lm2 heqA
        obtain ⟨lm3, h3, h4⟩ := registerSymbolsFrom_append_ok _ _ _ _ _ _ h2
        have hsomeA : (hashGet lm2 syma.name).isSome :=
          registerFileSymbols_registers _ _ _ _ _ _ _ _ ha hsa heqA
        have hsomeB : (hashGet lm3 syma.name).isSome :=
          registerSymbolsFrom_preserve _ _ _ _ _ _ h3 hsomeA
        unfold registerSymbolsFrom at h4
        split at h4
        · exact Except.noConfusion h4
        · rename_i lm4 heqB
          exact registerFileSymbols_dup _ _ _ _ _ _ _ hb hsb habs hg
            (hn ▸ hsomeB) _ heqB

/-- C5 witness: linking two objects that both define `main` as a `Global`
symbol in `.text` fails with `DuplicateSymbol`. -/
theorem C5_dup_global_witness :
    ∃ e, linkObjects
        [("a.o", ⟨[⟨".text", 0, [0, 0]⟩],
           [⟨"main", 0, some ".text", .Global⟩], [], 1⟩),
         ("b.o", ⟨[⟨".text", 0, [0, 0]⟩],
           [⟨"main", 0, some ".text", .Global⟩], [], 1⟩)] =
      .error e ∧ e.kind = .DuplicateSymbol :=
  C5_dup_global_amended [] [] []
    "a.o" "b.o"
    ⟨[⟨".text", 0, [0, 0]⟩], [⟨"main", 0, some ".text", .Global⟩], [], 1⟩
    ⟨[⟨".text", 0, [0, 0]⟩], [⟨"main", 0, some ".text", .Global⟩], [], 1⟩
    ⟨"main", 0, some ".text", .Global⟩
    ⟨"main", 0, some ".text", .Global⟩
    ".text" ".text"
    (by decide) rfl (by decide) rfl (by decide) rfl rfl

/-- C5 counterexample: two objects that each define the same `Global`
symbol in the absolute-constant section `.abs` (exactly what
`.global c` + `c: .imm v` assembles to) link without any
`DuplicateSymbol` error — the `.abs` path registers the constant before the
duplicate check and `continue`s. -/
theorem C5_dup_abs_counterexample :
    assembleSource "a.s" ".global c\nc: .imm 5\n" =
      .ok ⟨[], [⟨"c", 5, some ".abs", .Global⟩], [], 1⟩ ∧
    assembleSource "b.s" ".global c\nc: .imm 7\n" =
      .ok ⟨[], [⟨"c", 7, some ".abs", .Global⟩], [], 1⟩ ∧
    linkObjects
      [("a.o", ⟨[], [⟨"c", 5, some ".abs", .Global⟩], [], 1⟩),
       ("b.o", ⟨[], [⟨"c", 7, some ".abs", .Global⟩], [], 1⟩)] =
      .ok [] := by
  refine ⟨?_, ?_, ?_⟩ <;> decide

/-! Helper lemmas about `strLt` and the sorted association list modelling
`BTreeMap`, used for the section-ordering analysis. -/

theorem strLtChars_trichotomy : ∀ as bs : List Char,
    strLtChars as bs = true ∨ as = bs ∨ strLtChars bs as = true := by
  intro as
  induction as with
  | nil =>
      intro bs
      cases bs with
      | nil => exact Or.inr (Or.inl rfl)
      | cons b bs => exact Or.inl rfl
  | cons a as ih =>
      intro bs
      cases bs with
      | nil => exact Or.inr (Or.inr rfl)
      | cons b bs =>
          rcases Nat.lt_trichotomy a.toNat b.toNat with hlt | heq | hgt
          · exact Or.inl (by simp [strLtChars, hlt])
          · have hab : a = b := by
              apply Char.ext
              apply UInt32.ext
              exact heq
            subst hab
            rcases ih bs with h | h | h
            · exact Or.inl (by simp [strLtChars, h])
            · exact Or.inr (Or.inl (by rw [h]))
            · exact Or.inr (Or.inr (by simp [strLtChars, h]))
          · refine Or.inr (Or.inr ?_)
            simp [strLtChars, hgt, Nat.lt_asymm hgt]

theorem strLt_trichotomy : ∀ a b : String,
    strLt a b = true ∨ a = b ∨ strLt b a = true := by
  intro a b
  rcases strLtChars_trichotomy a.data b.data with h | h | h
  · exact Or.inl h
  · refine Or.inr (Or.inl ?_)
    cases a with
    | mk da =>
        cases b with
        | mk db =>
            simp only at h
            rw [h]
  · exact Or.inr (Or.inr h)

theorem btreeInsert_key_head {α : Type} : ∀ (m : List (String × α)) k v,
    ((btreeInsert m k v).map Prod.fst).head? = some k ∨
    ((btreeInsert m k v).map Prod.fst).head? = (m.map Prod.fst).head? := by
  intro m k v
  cases m with
  | nil => exact Or.inl rfl
  | cons p rest =>
      obtain ⟨k', v'⟩ := p
      simp only [btreeInsert]
      by_cases h1 : strLt k k' = true
      · rw [if_pos h1]
        exact Or.inl rfl
      · rw [if_neg h1]
        by_cases h2 : k = k'
        · rw [if_pos h2]
          exact Or.inl rfl
        · rw [if_neg h2]
          exact Or.inr rfl

theorem chain'_btreeInsert {α : Type} : ∀ (m : List (String × α)) k v,
    List.Chain' (fun a b => strLt a b = true) (m.map Prod.fst) →
    List.Chain' (fun a b => strLt a b = true)
      ((btreeInsert m k v).map Prod.fst) := by
  intro m k v
  induction m with
  | nil =>
      intro _
      simp [btreeInsert]
  | cons p rest ih =>
      intro hch
      obtain ⟨k', v'⟩ := p
      simp only [List.map_cons] at hch
      simp only [btreeInsert]
      by_cases h1 : strLt k k' = true
      · rw [if_pos h1]
        simp only [List.map_cons]
        refine List.chain'_cons'.mpr ⟨?_, hch⟩
        intro y hy
        simp only [List.head?_cons, Option.mem_def, Option.some.injEq] at hy
        subst hy
        exact h1
      · rw [if_neg h1]
        by_cases h2 : k = k'
        · rw [if_pos h2]
          subst h2
          simpa using hch
        · rw [if_neg h2]
          simp only [List.map_cons]
          have hparts := List.chain'_cons'.mp hch
          refine List.chain'_cons'.mpr ⟨?_, ih hparts.2⟩
          intro y hy
          rcases btreeInsert_key_head rest k v with hh | hh
          · rw [hh] at hy
            simp only [Option.mem_def, Option.some.injEq] at hy
            subst hy
            rcases strLt_trichotomy k k' with h | h | h
            · exact absurd h h1
            · exact absurd h h2
            · exact h
          · rw [hh] at hy
            exact hparts.1 y hy

theorem assemblePass2_sorted : ∀ src tbl items sd cs ur sd' ur',
    assemblePass2 src tbl items sd cs ur = .ok (sd', ur') →
    List.Chain' (fun a b => strLt a b = true) (sd.map Prod.fst) →
    List.Chain' (fun a b => strLt a b = true) (sd'.map Prod.fst) := by
  intro src tbl items
  induction items with
  | nil =>
      intro sd cs ur sd' ur' h hch
      unfold assemblePass2 at h
      simp only [Except.ok.injEq, Prod.mk.injEq] at h
      obtain ⟨h1, _⟩ := h
      subst h1
      exact hch
  | cons item rest ih =>
      intro sd cs ur sd' ur' h hch
      unfold assemblePass2 at h
      repeat' (first | split at h | simp only [] at h)
      all_goals
        first
          | exact Except.noConfusion h
          | exact ih _ _ _ _ _ h hch
          | exact ih _ _ _ _ _ h (chain'_btreeInsert _ _ _ hch)

/-- C6 (amended): in the object built by `assemble`, sections appear in
strictly increasing byte-lexicographic name order (the `BTreeMap` iteration
order) — not in source first-appearance order as claimed. -/
theorem C6_section_sort_amended : ∀ src source obj,
    assembleSource src source = .ok obj →
    List.Chain' (fun a b => strLt a b = true)
      (obj.sections.map (fun s => s.name)) := by
  intro src source obj h
  unfold assembleSource at h
  split at h
  · exact Except.noConfusion h
  · rename_i items pst
    unfold assembleItems at h
    repeat' (first | split at h | simp only [] at h)
    all_goals
      first
        | exact Except.noConfusion h
        | (rename assemblePass2 _ _ _ _ _ _ = _ => heq2
           simp only [Except.ok.injEq] at h
           subst h
           have hch := assemblePass2_sorted _ _ _ _ _ _ _ _ heq2
             (by simp)
           simpa [List.map_map, Function.comp] using hch)

/-- C6 witness: the amended sortedness applied to the two-section program of
the counterexample. -/
theorem C6_section_sort_witness :
    List.Chain' (fun a b => strLt a b = true)
      ((⟨[⟨".data", 0, []⟩, ⟨".z", 0, []⟩], [], [], 1⟩ :
        Obj.ObjectFile).sections.map (fun s => s.name)) :=
  C6_section_sort_amended "a.s" ".section z\n.data\n"
    ⟨[⟨".data", 0, []⟩, ⟨".z", 0, []⟩], [], [], 1⟩ (by decide)

/-- C6 counterexample: in the object written by `assemble`, sections are
emitted in `BTreeMap` (sorted-name) order, not first-appearance order: a
source that opens section `.z` before `.data` yields `[.data, .z]`. -/
theorem C6_section_order_counterexample :
    (assembleSource "a.s" ".section z\n.data\n").map
        (fun o => o.sections.map Obj.Section.name) =
      .ok [".data", ".z"] ∧
    (parseProgram ".section z\n.data\n").map
        (fun r => sectionAppearanceOrder r.1) =
      .ok [".z", ".data"] ∧
    [".data", ".z"] ≠ [".z", ".data"] := by
  refine ⟨?_, ?_, by decide⟩ <;> decide

/-! Helper lemmas for the relocation frame property (C7). -/

theorem btreeGet_insert_self {α : Type} : ∀ (m : List (String × α)) k v,
    btreeGet (btreeInsert m k v) k = some v := by
  intro m k v
  induction m with
  | nil => simp [btreeInsert, btreeGet]
  | cons p rest ih =>
      obtain ⟨k', v'⟩ := p
      simp only [btreeInsert]
      by_cases h1 : strLt k k' = true
      · rw [if_pos h1]
        simp [btreeGet]
      · rw [if_neg h1]
        by_cases h2 : k = k'
        · rw [if_pos h2]
          simp [btreeGet]
        · rw [if_neg h2]
          have hne : ¬(k' = k) := fun hc => h2 hc.symm
          simp only [btreeGet, List.find?_cons, decide_eq_true_eq] at ih ⊢
          simpa [hne] using ih

theorem btreeGet_insert_ne {α : Type} : ∀ (m : List (String × α)) k v n,
    n ≠ k → btreeGet (btreeInsert m k v) n = btreeGet m n := by
  intro m k v n hn
  have hkn : ¬(k = n) := fun hc => hn hc.symm
  induction m with
  | nil => simp [btreeInsert, btreeGet, hkn]
  | cons p rest ih =>
      obtain ⟨k', v'⟩ := p
      simp only [btreeInsert]
      by_cases h1 : strLt k k' = true
      · rw [if_pos h1]
        simp [btreeGet, List.find?_cons, hkn]
      · rw [if_neg h1]
        by_cases h2 : k = k'
        · rw [if_pos h2]
          subst h2
          simp [btreeGet, List.find?_cons, hkn]
        · rw [if_neg h2]
          by_cases h3 : k' = n
          · simp [btreeGet, List.find?_cons, h3]
          · simp only [btreeGet, List.find?_cons, decide_eq_true_eq, h3,
              if_false] at ih ⊢
            simpa [h3] using ih

theorem list_set_getD_self : ∀ (l : List Nat) i, i < l.length →
    l.set i (l.getD i 0) = l := by
  intro l
  induction l with
  | nil => intro i h; simp at h
  | cons a rest ih =>
      intro i h
      cases i with
      | zero => simp [List.getD]
      | succ j =>
          simp only [List.length_cons, Nat.succ_lt_succ_iff] at h
          simp only [List.set_cons_succ, List.getD_cons_succ]
          rw [ih j h]

theorem list_set_getD_ne : ∀ (l : List Nat) i j v, i ≠ j →
    (l.set i v).getD j 0 = l.getD j 0 := by
  intro l
  induction l with
  | nil => intro i j v _; simp
  | cons a rest ih =>
      intro i j v hij
      cases i with
      | zero =>
          cases j with
          | zero => exact absurd rfl hij
          | succ j' => simp [List.getD]
      | succ i' =>
          cases j with
          | zero => simp [List.getD]
          | succ j' =>
              simp only [List.set_cons_succ, List.getD_cons_succ]
              exact ih i' j' v (fun hc => hij (by rw [hc]))

/-- C7: the relocation patch frame property.  A successfully applied
relocation resolves its symbol, finds its merged section, checks bounds and
the 8-bit range, and changes exactly the byte at `patch_offset + 1` of that
section to the resolved value's low byte, leaving the byte at
`patch_offset` and every other section untouched; and when the resolved
value exceeds 0xFF (symbol resolved, section present, site in bounds) the
relocation fails with an `Encoding` error. -/
theorem C7_reloc_frame :
    (∀ path idx bases lm merged reloc merged',
      applyOneReloc path idx bases lm merged reloc = .ok merged' →
      ∃ sv sd,
        hashGet lm reloc.symbol = some sv ∧
        btreeGet merged reloc.section_ = some sd ∧
        relocPatchSite idx bases reloc + 1 < sd.length ∧
        relocFinalValue sv reloc ≤ 255 ∧
        btreeGet merged' reloc.section_ =
          some (sd.set (relocPatchSite idx bases reloc + 1)
            (relocFinalValue sv reloc % 256)) ∧
        (∀ j, j ≠ relocPatchSite idx bases reloc + 1 →
          (sd.set (relocPatchSite idx bases reloc + 1)
            (relocFinalValue sv reloc % 256)).getD j 0 = sd.getD j 0) ∧
        (∀ name, name ≠ reloc.section_ →
          btreeGet merged' name = btreeGet merged name)) ∧
    (∀ path idx bases lm merged reloc sv sd,
      hashGet lm reloc.symbol = some sv →
      btreeGet merged reloc.section_ = some sd →
      relocPatchSite idx bases reloc + 1 < sd.length →
      relocFinalValue sv reloc > 255 →
      ∃ msg, applyOneReloc path idx bases lm merged reloc =
        .error ⟨.Encoding, msg, 0, some path⟩) := by
  constructor
  · intro path idx bases lm merged reloc merged' h
    unfold applyOneReloc at h
    repeat' (first | split at h | simp only [] at h)
    all_goals
      first
        | exact Except.noConfusion h
        | (rename hashGet _ _ = some _ => hsym
           rename btreeGet _ _ = some _ => hsec
           rename ¬(_ + 1 ≥ _) => hbound
           rename ¬(_ > 255) => hrange
           simp only [Except.ok.injEq] at h
           subst h
           refine ⟨_, _, hsym, hsec,
             by simp only [relocPatchSite]; omega,
             by simp only [relocFinalValue]; omega, ?_, ?_, ?_⟩
           · rw [btreeGet_insert_self]
             simp only [relocPatchSite, relocFinalValue]
             rw [list_set_getD_self _ _ (by omega)]
           · intro j hj
             exact list_set_getD_ne _ _ _ _ (fun hc => hj hc.symm)
           · intro name hname
             exact btreeGet_insert_ne _ _ _ _ hname)
  · intro path idx bases lm merged reloc sv sd hsym hsec hbound hrange
    simp only [applyOneReloc, hsym, hsec]
    rw [if_neg (by simp only [relocPatchSite] at hbound; omega)]
    rw [if_pos (by simp only [relocFinalValue] at hrange; omega)]
    exact ⟨_, rfl⟩

/-- C7 witness: the frame property and the range error applied to concrete
one-relocation inputs. -/
theorem C7_reloc_frame_witness :
    (∃ sv sd,
      hashGet [("x", 5)] (Obj.Relocation.mk 0 "x" 0 ".text").symbol =
        some sv ∧
      btreeGet [(".text", [17, 1])]
        (Obj.Relocation.mk 0 "x" 0 ".text").section_ = some sd ∧
      relocPatchSite 0 [] (Obj.Relocation.mk 0 "x" 0 ".text") + 1 <
        sd.length ∧
      relocFinalValue sv (Obj.Relocation.mk 0 "x" 0 ".text") ≤ 255 ∧
      btreeGet [(".text", [17, 5])]
        (Obj.Relocation.mk 0 "x" 0 ".text").section_ =
        some (sd.set
          (relocPatchSite 0 [] (Obj.Relocation.mk 0 "x" 0 ".text") + 1)
          (relocFinalValue sv (Obj.Relocation.mk 0 "x" 0 ".text") % 256)) ∧
      (∀ j, j ≠ relocPatchSite 0 [] (Obj.Relocation.mk 0 "x" 0 ".text") + 1 →
        (sd.set
          (relocPatchSite 0 [] (Obj.Relocation.mk 0 "x" 0 ".text") + 1)
          (relocFinalValue sv (Obj.Relocation.mk 0 "x" 0 ".text") % 256)).getD
            j 0 = sd.getD j 0) ∧
      (∀ name, name ≠ (Obj.Relocation.mk 0 "x" 0 ".text").section_ →
        btreeGet [(".text", [17, 5])] name =
          btreeGet [(".text", [17, 1])] name)) ∧
    (∃ msg, applyOneReloc "p.o" 0 [] [("x", 256)] [(".text", [0, 0])]
        (Obj.Relocation.mk 0 "x" 0 ".text") =
      .error ⟨.Encoding, msg, 0, some "p.o"⟩) :=
  ⟨C7_reloc_frame.1 "p.o" 0 [] [("x", 5)] [(".text", [17, 1])]
      (Obj.Relocation.mk 0 "x" 0 ".text") [(".text", [17, 5])] (by decide),
   C7_reloc_frame.2 "p.o" 0 [] [("x", 256)] [(".text", [0, 0])]
      (Obj.Relocation.mk 0 "x" 0 ".text") 256 [0, 0] (by decide) (by decide)
      (by decide) (by decide)⟩


/-! Helper lemmas for the object-file codec round-trip (C8). -/

theorem utf8DecodeChar?_encode : ∀ (c : Char) (bs : List Nat),
    utf8DecodeChar? (utf8EncodeChar c ++ bs) = some (c, bs) := by
  intro c bs
  have hv : c.toNat < 55296 ∨ (57343 < c.toNat ∧ c.toNat < 1114112) := c.valid
  unfold utf8EncodeChar
  by_cases h1 : c.toNat < 128
  · rw [if_pos h1]
    simp only [List.cons_append, List.nil_append, utf8DecodeChar?,
      if_pos h1, Char.ofNat_toNat]
  · rw [if_neg h1]
    by_cases h2 : c.toNat < 2048
    · rw [if_pos h2]
      have hx0 : ¬(192 + c.toNat / 64 < 128) := by omega
      have hx1 : 194 ≤ 192 + c.toNat / 64 ∧ 192 + c.toNat / 64 < 224 := by
        omega
      have hx2 : 128 ≤ 128 + c.toNat % 64 ∧ 128 + c.toNat % 64 < 192 := by
        omega
      have hrec : (192 + c.toNat / 64 - 192) * 64 +
          (128 + c.toNat % 64 - 128) = c.toNat := by omega
      simp only [List.cons_append, List.nil_append, utf8DecodeChar?,
        if_neg hx0, if_pos hx1, if_pos hx2, hrec, Char.ofNat_toNat]
    · rw [if_neg h2]
      by_cases h3 : c.toNat < 65536
      · rw [if_pos h3]
        have hx0 : ¬(224 + c.toNat / 4096 < 128) := by omega
        have hx1 : ¬(194 ≤ 224 + c.toNat / 4096 ∧
            224 + c.toNat / 4096 < 224) := by omega
        have hx2 : 224 ≤ 224 + c.toNat / 4096 ∧
            224 + c.toNat / 4096 < 240 := by omega
        have hx3 : (128 ≤ 128 + c.toNat / 64 % 64 ∧
            128 + c.toNat / 64 % 64 < 192) ∧
            (128 ≤ 128 + c.toNat % 64 ∧ 128 + c.toNat % 64 < 192) := by omega
        have hrec : (224 + c.toNat / 4096 - 224) * 4096 +
            (128 + c.toNat / 64 % 64 - 128) * 64 +
            (128 + c.toNat % 64 - 128) = c.toNat := by omega
        have hcond : 2048 ≤ c.toNat ∧
            ¬(55296 ≤ c.toNat ∧ c.toNat < 57344) := by
          rcases hv with h | h <;> omega
        simp only [List.cons_append, List.nil_append, utf8DecodeChar?,
          if_neg hx0, if_neg hx1, if_pos hx2, if_pos hx3, hrec,
          if_pos hcond, Char.ofNat_toNat]
      · rw [if_neg h3]
        have hup : c.toNat < 1114112 := by rcases hv with h | h <;> omega
        have hx0 : ¬(240 + c.toNat / 262144 < 128) := by omega
        have hx1 : ¬(194 ≤ 240 + c.toNat / 262144 ∧
            240 + c.toNat / 262144 < 224) := by omega
        have hx2 : ¬(224 ≤ 240 + c.toNat / 262144 ∧
            240 + c.toNat / 262144 < 240) := by omega
        have hx3 : 240 ≤ 240 + c.toNat / 262144 ∧
            240 + c.toNat / 262144 < 245 := by omega
        have hx4 : (128 ≤ 128 + c.toNat / 4096 % 64 ∧
            128 + c.toNat / 4096 % 64 < 192) ∧
            (128 ≤ 128 + c.toNat / 64 % 64 ∧
              128 + c.toNat / 64 % 64 < 192) ∧
            (128 ≤ 128 + c.toNat % 64 ∧ 128 + c.toNat % 64 < 192) := by omega
        have hrec : (240 + c.toNat / 262144 - 240) * 262144 +
            (128 + c.toNat / 4096 % 64 - 128) * 4096 +
            (128 + c.toNat / 64 % 64 - 128) * 64 +
            (128 + c.toNat % 64 - 128) = c.toNat := by omega
        have hcond : 65536 ≤ c.toNat ∧ c.toNat < 1114112 := by omega
        simp only [List.cons_append, List.nil_append, utf8DecodeChar?,
          if_neg hx0, if_neg hx1, if_neg hx2, if_pos hx3, if_pos hx4,
          hrec, if_pos hcond, Char.ofNat_toNat]

theorem utf8EncodeChar_cons : ∀ c : Char, ∃ b t, utf8EncodeChar c = b :: t := by
  intro c
  unfold utf8EncodeChar
  simp only []
  repeat' split
  all_goals exact ⟨_, _, rfl⟩

theorem utf8DecodeAux_encode : ∀ (cs : List Char) (fuel : Nat),
    (cs.flatMap utf8EncodeChar).length ≤ fuel →
    utf8DecodeAux fuel (cs.flatMap utf8EncodeChar) = some cs := by
  intro cs
  induction cs with
  | nil =>
      intro fuel _
      cases fuel <;> rfl
  | cons c rest ih =>
      intro fuel hlen
      rw [List.flatMap_cons] at hlen ⊢
      obtain ⟨b, t, henc⟩ := utf8EncodeChar_cons c
      cases fuel with
      | zero =>
          exfalso
          rw [henc] at hlen
          simp at hlen
      | succ f =>
          rw [henc, List.cons_append]
          simp only [utf8DecodeAux]
          rw [← List.cons_append, ← henc, utf8DecodeChar?_encode]
          simp only []
          rw [ih f (by rw [henc] at hlen; simp [List.length_append] at hlen ⊢; omega)]

theorem utf8Encode_decode : ∀ cs : List Char,
    utf8Decode (cs.flatMap utf8EncodeChar) = some cs := fun cs =>
  utf8DecodeAux_encode cs _ (Nat.le_refl _)

theorem read_u32_to_le : ∀ n rest, n < 4294967296 →
    read_u32 (u32_to_le_bytes n ++ rest) = .ok (n, rest) := by
  intro n rest h
  simp only [u32_to_le_bytes, List.cons_append, List.nil_append, read_u32]
  have hd : n % 256 + 256 * (n / 256 % 256) + 65536 * (n / 65536 % 256) +
      16777216 * (n / 16777216 % 256) = n := by omega
  rw [hd]

theorem read_i32_to_le : ∀ i rest, -2147483648 ≤ i → i < 2147483648 →
    read_i32 (i32_to_le_bytes i ++ rest) = .ok (i, rest) := by
  intro i rest h1 h2
  have he1 : 0 ≤ i.emod 4294967296 := Int.emod_nonneg i (by decide)
  have he2 : i.emod 4294967296 < 4294967296 :=
    Int.emod_lt_of_pos i (by decide)
  have he3 : i.emod 4294967296 = i - 4294967296 * (i.ediv 4294967296) :=
    Int.emod_def i 4294967296
  simp only [i32_to_le_bytes, read_i32]
  rw [read_u32_to_le _ _ (by omega)]
  simp only []
  have hd : (if (i.emod 4294967296).toNat < 2147483648 then
      ((i.emod 4294967296).toNat : Int)
      else ((i.emod 4294967296).toNat : Int) - 4294967296) = i := by
    split <;> omega
  rw [hd]

theorem read_exact_append : ∀ (l rest : List Nat),
    read_exact l.length (l ++ rest) = .ok (l, rest) := by
  intro l rest
  simp only [read_exact]
  rw [if_pos (by simp)]
  rw [List.take_left, List.drop_left]

theorem read_lp_str_write : ∀ (s : String) rest,
    (utf8Encode s).length < 4294967296 →
    read_lp_str (write_lp_str s ++ rest) = .ok (s, rest) := by
  intro s rest h
  obtain ⟨cs⟩ := s
  simp only [write_lp_str, List.append_assoc, read_lp_str]
  rw [read_u32_to_le _ _ h]
  simp only []
  rw [read_exact_append]
  simp only []
  have hdec : utf8Decode (utf8Encode (String.mk cs)) = some cs :=
    utf8Encode_decode cs
  rw [hdec]

theorem read_section_write : ∀ (s : Obj.Section) rest,
    (utf8Encode s.name).length < 4294967296 → s.start < 4294967296 →
    s.data.length < 4294967296 →
    Obj.read_section (Obj.write_section s ++ rest) = .ok (s, rest) := by
  intro s rest h1 h2 h3
  obtain ⟨name, start, data⟩ := s
  simp only [Obj.write_section, Obj.read_section, List.append_assoc]
  rw [read_lp_str_write _ _ h1]
  simp only []
  rw [read_u32_to_le _ _ h2]
  simp only []
  rw [read_u32_to_le _ _ h3]
  simp only []
  rw [read_exact_append]

theorem read_sections_write : ∀ (ss : List Obj.Section) rest,
    (∀ s ∈ ss, (utf8Encode s.name).length < 4294967296 ∧
      s.start < 4294967296 ∧ s.data.length < 4294967296) →
    Obj.read_sections ss.length (ss.flatMap Obj.write_section ++ rest) =
      .ok (ss, rest) := by
  intro ss
  induction ss with
  | nil => intro rest _; rfl
  | cons s ss ih =>
      intro rest hwf
      obtain ⟨h1, h2, h3⟩ := hwf s (by simp)
      simp only [List.flatMap_cons, List.length_cons, List.append_assoc,
        Obj.read_sections]
      rw [read_section_write _ _ h1 h2 h3]
      simp only []
      rw [ih _ (fun x hx => hwf x (by simp [hx]))]

theorem read_symbol_write : ∀ (s : Obj.Symbol) rest,
    (utf8Encode s.name).length < 4294967296 → s.value < 4294967296 →
    (match s.section_ with
      | some t => decide ((utf8Encode t).length < 4294967296)
      | none => true) = true →
    Obj.read_symbol (Obj.write_symbol s ++ rest) = .ok (s, rest) := by
  intro s rest h1 h2 h3
  obtain ⟨name, value, sec, binding⟩ := s
  simp only [Obj.write_symbol, Obj.read_symbol, List.append_assoc]
  rw [read_lp_str_write _ _ h1]
  simp only []
  rw [read_u32_to_le _ _ h2]
  simp only []
  cases sec with
  | none =>
      simp only [List.cons_append, List.nil_append]
      rw [if_neg (by decide)]
      simp only []
      cases binding <;> rfl
  | some t =>
      simp only [decide_eq_true_eq] at h3
      simp only [List.cons_append, List.append_assoc]
      rw [if_pos (by trivial)]
      rw [read_lp_str_write _ _ h3]
      simp only []
      cases binding <;> rfl

theorem read_symbols_write : ∀ (ss : List Obj.Symbol) rest,
    (∀ s ∈ ss, (utf8Encode s.name).length < 4294967296 ∧
      s.value < 4294967296 ∧
      (match s.section_ with
        | some t => decide ((utf8Encode t).length < 4294967296)
        | none => true) = true) →
    Obj.read_symbols ss.length (ss.flatMap Obj.write_symbol ++ rest) =
      .ok (ss, rest) := by
  intro ss
  induction ss with
  | nil => intro rest _; rfl
  | cons s ss ih =>
      intro rest hwf
      obtain ⟨h1, h2, h3⟩ := hwf s (by simp)
      simp only [List.flatMap_cons, List.length_cons, List.append_assoc,
        Obj.read_symbols]
      rw [read_symbol_write _ _ h1 h2 h3]
      simp only []
      rw [ih _ (fun x hx => hwf x (by simp [hx]))]

theorem read_reloc_write : ∀ (r : Obj.Relocation) rest,
    r.offset < 4294967296 → (utf8Encode r.symbol).length < 4294967296 →
    -2147483648 ≤ r.addend → r.addend < 2147483648 →
    (utf8Encode r.section_).length < 4294967296 →
    Obj.read_reloc (Obj.write_reloc r ++ rest) = .ok (r, rest) := by
  intro r rest h1 h2 h3 h4 h5
  obtain ⟨offset, symbol, addend, sec⟩ := r
  simp only [Obj.write_reloc, Obj.read_reloc, List.append_assoc]
  rw [read_u32_to_le _ _ h1]
  simp only []
  rw [read_lp_str_write _ _ h2]
  simp only []
  rw [read_i32_to_le _ _ h3 h4]
  simp only []
  rw [read_lp_str_write _ _ h5]

theorem read_relocs_write : ∀ (rs : List Obj.Relocation) rest,
    (∀ r ∈ rs, r.offset < 4294967296 ∧
      (utf8Encode r.symbol).length < 4294967296 ∧
      -2147483648 ≤ r.addend ∧ r.addend < 2147483648 ∧
      (utf8Encode r.section_).length < 4294967296) →
    Obj.read_relocs rs.length (rs.flatMap Obj.write_reloc ++ rest) =
      .ok (rs, rest) := by
  intro rs
  induction rs with
  | nil => intro rest _; rfl
  | cons r rs ih =>
      intro rest hwf
      obtain ⟨h1, h2, h3, h4, h5⟩ := hwf r (by simp)
      simp only [List.flatMap_cons, List.length_cons, List.append_assoc,
        Obj.read_relocs]
      rw [read_reloc_write _ _ h1 h2 h3 h4 h5]
      simp only []
      rw [ih _ (fun x hx => hwf x (by simp [hx]))]

/-- C8: object-file codec round-trip.  Reading back the bytes written by
`to_file` recovers the object exactly, for every object whose fields
satisfy the range constraints that the Rust `u32`/`i32`/byte types and
`String` (valid-UTF-8 names) impose by construction. -/
theorem C8_obj_roundtrip : ∀ o : Obj.ObjectFile, o.wf = true →
    Obj.ObjectFile.from_file (Obj.ObjectFile.to_file o) = .ok o := by
  intro o hwf
  obtain ⟨sections, symbols, relocations, version⟩ := o
  simp only [Obj.ObjectFile.wf, Bool.and_eq_true, List.all_eq_true,
    decide_eq_true_eq] at hwf
  obtain ⟨⟨⟨⟨⟨⟨hver, hnsec⟩, hnsym⟩, hnrel⟩, hsec⟩, hsym⟩, hrel⟩ := hwf
  simp only [Obj.ObjectFile.to_file, Obj.ObjectFile.from_file,
    List.cons_append, List.nil_append, List.append_assoc]
  rw [if_pos (by exact ⟨trivial, trivial, trivial, trivial⟩)]
  rw [read_u32_to_le _ _ hver]
  simp only []
  rw [read_u32_to_le _ _ hnsec]
  simp only []
  rw [read_u32_to_le _ _ hnsym]
  simp only []
  rw [read_u32_to_le _ _ hnrel]
  simp only []
  rw [read_sections_write _ _ (fun s hs => by
    obtain ⟨⟨⟨a, b⟩, c⟩, _⟩ := hsec s hs
    exact ⟨a, b, c⟩)]
  simp only []
  rw [read_symbols_write _ _ (fun s hs => by
    obtain ⟨⟨a, b⟩, c⟩ := hsym s hs
    exact ⟨a, b, c⟩)]
  simp only []
  rw [show relocations.flatMap Obj.write_reloc =
      relocations.flatMap Obj.write_reloc ++ [] from
    (List.append_nil _).symm]
  rw [read_relocs_write _ _ (fun r hr => by
    obtain ⟨⟨⟨⟨a, b⟩, c⟩, d⟩, e⟩ := hrel r hr
    exact ⟨a, b, c, d, e⟩)]

/-- C8 witness: the round-trip applied to a concrete object with a
section, a defined and an imported symbol, and a relocation with a
negative addend. -/
theorem C8_obj_roundtrip_witness :
    Obj.ObjectFile.from_file (Obj.ObjectFile.to_file
      ⟨[⟨".text", 0, [17, 1, 137, 0]⟩],
       [⟨"start", 0, some ".text", .Local⟩, ⟨"ext", 0, none, .Global⟩],
       [⟨2, "ext", -1, ".text"⟩], 1⟩) =
      .ok ⟨[⟨".text", 0, [17, 1, 137, 0]⟩],
       [⟨"start", 0, some ".text", .Local⟩, ⟨"ext", 0, none, .Global⟩],
       [⟨2, "ext", -1, ".text"⟩], 1⟩ :=
  C8_obj_roundtrip
    ⟨[⟨".text", 0, [17, 1, 137, 0]⟩],
     [⟨"start", 0, some ".text", .Local⟩, ⟨"ext", 0, none, .Global⟩],
     [⟨2, "ext", -1, ".text"⟩], 1⟩ (by decide)

/-! Helper lemmas for the Intel HEX round-trip (C9). -/

theorem char_toNat_ofNat_lt : ∀ n, n < 55296 → (Char.ofNat n).toNat = n := by
  intro n h
  unfold Char.ofNat
  rw [dif_pos (Or.inl h)]
  rfl

theorem char_ofNat_toNat_cases : ∀ n : Nat,
    (Char.ofNat n).toNat = n ∨ (Char.ofNat n).toNat = 0 := by
  intro n
  unfold Char.ofNat
  split
  · left
    rfl
  · right
    rfl

theorem hexDigitUpper_toNat_cases : ∀ d : Nat,
    (hexDigitUpper d).toNat = 0 ∨ 48 ≤ (hexDigitUpper d).toNat := by
  intro d
  unfold hexDigitUpper
  split
  · rcases char_ofNat_toNat_cases (48 + d) with h | h <;> omega
  · rcases char_ofNat_toNat_cases (55 + d) with h | h <;> omega

theorem hexDigitUpper_not_ws : ∀ d : Nat,
    isTrimWs (hexDigitUpper d) = false := by
  intro d
  have hc := hexDigitUpper_toNat_cases d
  simp only [isTrimWs, Bool.or_eq_false_iff, decide_eq_false_iff_not]
  refine ⟨⟨⟨?_, ?_⟩, ?_⟩, ?_⟩
  · intro he
    have h2 := congrArg Char.toNat he
    rw [show (' ' : Char).toNat = 32 from rfl] at h2
    omega
  · intro he
    have h2 := congrArg Char.toNat he
    rw [show ('\t' : Char).toNat = 9 from rfl] at h2
    omega
  · intro he
    have h2 := congrArg Char.toNat he
    rw [show ('\n' : Char).toNat = 10 from rfl] at h2
    omega
  · intro he
    have h2 := congrArg Char.toNat he
    rw [show ('\r' : Char).toNat = 13 from rfl] at h2
    omega

theorem hexDigitUpper_ne_nl : ∀ d : Nat, hexDigitUpper d ≠ '\n' := by
  intro d he
  have hc := hexDigitUpper_toNat_cases d
  have h2 := congrArg Char.toNat he
  rw [show ('\n' : Char).toNat = 10 from rfl] at h2
  omega

theorem hexDigitUpper_ne_cr : ∀ d : Nat, hexDigitUpper d ≠ '\r' := by
  intro d he
  have hc := hexDigitUpper_toNat_cases d
  have h2 := congrArg Char.toNat he
  rw [show ('\r' : Char).toNat = 13 from rfl] at h2
  omega

theorem hexDigitVal?_upper : ∀ d, d < 16 →
    hexDigitVal? (hexDigitUpper d) = some d := by
  intro d hd
  unfold hexDigitVal? hexDigitUpper
  by_cases h : d < 10
  · rw [if_pos h]
    have ht : (Char.ofNat (48 + d)).toNat = 48 + d :=
      char_toNat_ofNat_lt _ (by omega)
    simp only [ht]
    rw [if_pos (by omega)]
    rw [show 48 + d - 48 = d from by omega]
  · rw [if_neg h]
    have ht : (Char.ofNat (55 + d)).toNat = 55 + d :=
      char_toNat_ofNat_lt _ (by omega)
    simp only [ht]
    rw [if_neg (by omega), if_pos (by omega)]
    rw [show 55 + d - 55 = d from by omega]

theorem parse2_hex2U : ∀ b rest, b < 256 →
    parse2 (hex2U b ++ rest) = some b := by
  intro b rest hb
  simp only [hex2U, List.cons_append, List.nil_append, parse2]
  rw [hexDigitVal?_upper _ (by omega), hexDigitVal?_upper _ (by omega)]
  simp only []
  rw [show b / 16 * 16 + b % 16 = b from by omega]

theorem parse4_hex4U : ∀ a rest, a < 65536 →
    parse4 (hex4U a ++ rest) = some a := by
  intro a rest ha
  simp only [hex4U, List.cons_append, List.nil_append, parse4]
  rw [hexDigitVal?_upper _ (by omega), hexDigitVal?_upper _ (by omega),
    hexDigitVal?_upper _ (by omega), hexDigitVal?_upper _ (by omega)]
  simp only []
  rw [show a / 4096 * 4096 + a / 256 % 16 * 256 + a / 16 % 16 * 16 + a % 16
    = a from by omega]

theorem flatMap_hex2U_length : ∀ ch : List Nat,
    (ch.flatMap hex2U).length = 2 * ch.length := by
  intro ch
  induction ch with
  | nil => rfl
  | cons b rest ih =>
      simp only [List.flatMap_cons, List.length_append, ih, hex2U,
        List.length_cons, List.length_nil]
      omega

theorem mem_hex2U : ∀ (c : Char) n, c ∈ hex2U n →
    ∃ d, c = hexDigitUpper d := by
  intro c n h
  simp only [hex2U, List.mem_cons, List.not_mem_nil, or_false] at h
  rcases h with h | h <;> exact ⟨_, h⟩

theorem mem_hex4U : ∀ (c : Char) n, c ∈ hex4U n →
    ∃ d, c = hexDigitUpper d := by
  intro c n h
  simp only [hex4U, List.mem_cons, List.not_mem_nil, or_false] at h
  rcases h with h | h | h | h <;> exact ⟨_, h⟩

theorem record_line_mem : ∀ a ch c, c ∈ record_line a ch →
    c = ':' ∨ ∃ d, c = hexDigitUpper d := by
  intro a ch c hc
  simp only [record_line, List.mem_cons, List.mem_append] at hc
  rcases hc with h | ((((h | h) | h) | h) | h)
  · exact Or.inl h
  · exact Or.inr (mem_hex2U _ _ h)
  · exact Or.inr (mem_hex4U _ _ h)
  · exact Or.inr (mem_hex2U _ _ h)
  · simp only [List.mem_flatMap] at h
    obtain ⟨x, _, hx⟩ := h
    exact Or.inr (mem_hex2U _ _ hx)
  · exact Or.inr (mem_hex2U _ _ h)

theorem record_line_no_nl : ∀ a ch, '\n' ∉ record_line a ch := by
  intro a ch hmem
  rcases record_line_mem a ch _ hmem with h | ⟨d, h⟩
  · exact absurd h.symm (by decide)
  · exact hexDigitUpper_ne_nl d h.symm

theorem getLast?_cons_append_hex2U : ∀ (x : Char) (X : List Char) w,
    (x :: (X ++ hex2U w)).getLast? = some (hexDigitUpper (w % 16)) := by
  intro x X w
  rw [show x :: (X ++ hex2U w) =
      (x :: (X ++ [hexDigitUpper (w / 16)])) ++ [hexDigitUpper (w % 16)]
    from by simp [hex2U, List.append_assoc]]
  exact List.getLast?_concat _

theorem record_line_getLast? : ∀ a ch, (record_line a ch).getLast? =
    some (hexDigitUpper ((256 - (ch.length + a / 256 + a % 256 + 0 +
      ch.sum) % 256) % 256 % 16)) := by
  intro a ch
  unfold record_line
  exact getLast?_cons_append_hex2U _ _ _

theorem trimChars_id : ∀ l : List Char,
    (∀ c ∈ l.head?, isTrimWs c = false) →
    (∀ c ∈ l.getLast?, isTrimWs c = false) → trimChars l = l := by
  intro l hhead hlast
  cases l with
  | nil => rfl
  | cons c xs =>
      unfold trimChars
      rw [List.dropWhile_cons_of_neg (by
        simp only [Bool.not_eq_true]
        exact hhead c rfl)]
      rcases hrev : (c :: xs).reverse with _ | ⟨d, rs⟩
      · exact absurd hrev (by simp)
      · have hd : (c :: xs).getLast? = some d := by
          rw [List.getLast?_eq_head?_reverse, hrev]
          rfl
        rw [List.dropWhile_cons_of_neg (by
          simp only [Bool.not_eq_true]
          exact hlast d hd)]
        rw [← hrev, List.reverse_reverse]

theorem record_line_trim : ∀ a ch,
    trimChars (record_line a ch) = record_line a ch := by
  intro a ch
  refine trimChars_id _ ?_ ?_
  · intro c hc
    simp only [record_line, List.head?_cons, Option.mem_def,
      Option.some.injEq] at hc
    subst hc
    decide
  · intro c hc
    rw [record_line_getLast?] at hc
    simp only [Option.mem_def, Option.some.injEq] at hc
    subst hc
    exact hexDigitUpper_not_ws _

theorem record_line_not_cr : ∀ a ch,
    (record_line a ch).getLast? ≠ some '\r' := by
  intro a ch he
  rw [record_line_getLast?] at he
  simp only [Option.some.injEq] at he
  exact hexDigitUpper_ne_cr _ he

theorem splitNL_append : ∀ xs ys : List Char, '\n' ∉ xs →
    splitNL (xs ++ '\n' :: ys) = xs :: splitNL ys := by
  intro xs
  induction xs with
  | nil =>
      intro ys _
      simp [splitNL]
  | cons c xs ih =>
      intro ys hn
      have hc : ¬(c = '\n') := fun hc => hn (by simp [hc])
      have hxs : '\n' ∉ xs := fun hm => hn (by simp [hm])
      rw [List.cons_append]
      simp only [splitNL, if_neg hc]
      rw [ih ys hxs]

theorem splitNL_joinLines : ∀ ls : List (List Char),
    (∀ l ∈ ls, '\n' ∉ l) →
    splitNL (joinLines ls) = ls ++ [[]] := by
  intro ls
  induction ls with
  | nil => intro _; rfl
  | cons l ls ih =>
      intro hnl
      simp only [joinLines, List.flatMap_cons, List.append_assoc,
        List.singleton_append]
      rw [splitNL_append _ _ (hnl l (by simp))]
      simp only [joinLines] at ih
      rw [ih (fun x hx => hnl x (by simp [hx]))]
      rfl

theorem stripCR_id : ∀ l : List Char, l.getLast? ≠ some '\r' →
    stripCR l = l := by
  intro l hl
  unfold stripCR
  split
  · rename_i heq
    exact absurd heq hl
  · rfl

theorem rustLines_joinLines : ∀ ls : List (List Char),
    (∀ l ∈ ls, '\n' ∉ l) → (∀ l ∈ ls, l.getLast? ≠ some '\r') →
    rustLines (joinLines ls) = ls := by
  intro ls hnl hcr
  unfold rustLines
  rw [splitNL_joinLines ls hnl]
  simp only []
  rw [show (ls ++ [[]] : List (List Char)).getLast? = some [] from
    List.getLast?_concat _]
  simp only []
  rw [List.dropLast_concat]
  exact (List.map_congr_left (fun l hl => stripCR_id l (hcr l hl))).trans
    (List.map_id ls)

theorem drop2_hex2U : ∀ (u : Nat) (X : List Char),
    List.drop 2 (hex2U u ++ X) = X := fun _ _ => rfl

theorem drop6_hex : ∀ (u v : Nat) (X : List Char),
    List.drop 6 (hex2U u ++ (hex4U v ++ X)) = X := fun _ _ _ => rfl

theorem drop8_hex : ∀ (u v w : Nat) (X : List Char),
    List.drop 8 (hex2U u ++ (hex4U v ++ (hex2U w ++ X))) = X :=
  fun _ _ _ _ => rfl

theorem writeRecordData_ok : ∀ (suffix : List Nat) (i : Nat)
    (A B C : List Nat) (addr : Nat) (hex_str tail_chars : List Char),
    A.length = addr + i → B.length = suffix.length →
    (∀ b ∈ suffix, b < 256) →
    hex_str.drop (8 + i * 2) = suffix.flatMap hex2U ++ tail_chars →
    8 + i * 2 + 2 * suffix.length ≤ hex_str.length →
    writeRecordData hex_str suffix.length addr i (A ++ B ++ C) =
      .ok (A ++ suffix ++ C) := by
  intro suffix
  induction suffix with
  | nil =>
      intro i A B C addr hs tail_chars hA hB _ _ _
      have hBn : B = [] := List.eq_nil_of_length_eq_zero hB
      subst hBn
      rfl
  | cons b suffix ih =>
      intro i A B C addr hs tail_chars hA hB hlt hdrop hbound
      cases B with
      | nil => exact absurd hB (by simp)
      | cons b0 B' =>
          simp only [List.length_cons] at hB hbound
          rw [List.flatMap_cons, List.append_assoc] at hdrop
          show writeRecordData hs (suffix.length + 1) addr i _ = _
          simp only [writeRecordData]
          rw [if_pos (by omega)]
          rw [hdrop]
          rw [parse2_hex2U _ _ (hlt b (by simp))]
          simp only []
          have hset : (A ++ (b0 :: B') ++ C).set (addr + i) b =
              (A ++ [b]) ++ B' ++ C := by
            rw [← hA]
            rw [List.set_append_left _ _ (by simp)]
            rw [List.set_append_right _ _ (Nat.le_refl _)]
            simp
          rw [hset]
          rw [show A ++ (b :: suffix) ++ C = (A ++ [b]) ++ suffix ++ C from
            by simp]
          refine ih (i + 1) (A ++ [b]) B' C addr hs tail_chars
            (by simp; omega) (by omega) (fun x hx => hlt x (by simp [hx]))
            ?_ (by omega)
          rw [show 8 + (i + 1) * 2 = (8 + i * 2) + 2 from by omega]
          rw [← List.drop_drop, hdrop]
          exact drop2_hex2U _ _

theorem from_ihex_go_eof : ∀ res,
    from_ihex_go [[':', '0', '0', '0', '0', '0', '0', '0', '1', 'F', 'F']]
      res = .ok res := fun _ => rfl

theorem to_go_nil : ∀ base f i, to_ihex_go base f i [] = [] := by
  intro base f i
  cases f <;> rfl

theorem from_ihex_record_step : ∀ (ch : List Nat) rest res,
    0 < ch.length → ch.length < 256 → (∀ b ∈ ch, b < 256) →
    res.length + ch.length ≤ 65536 →
    from_ihex_go (record_line res.length ch :: rest) res =
      from_ihex_go rest (res ++ ch) := by
  intro ch rest res hpos hlt hb hbound
  have haddr : res.length < 65536 := by omega
  simp only [from_ihex_go]
  rw [record_line_trim]
  simp only [record_line, List.append_assoc]
  rw [if_pos trivial]
  rw [if_neg (by
    simp only [List.length_append, flatMap_hex2U_length, hex2U, hex4U,
      List.length_cons, List.length_nil]
    omega)]
  rw [parse2_hex2U _ _ hlt]
  simp only []
  rw [drop6_hex]
  rw [parse2_hex2U _ _ (by omega)]
  simp only []
  rw [drop2_hex2U]
  rw [parse4_hex4U _ _ haddr]
  simp only []
  rw [if_pos (by omega)]
  rw [show res.length + ch.length - res.length = ch.length from by omega]
  rw [show res ++ List.replicate ch.length 0 =
    res ++ List.replicate ch.length 0 ++ [] from (List.append_nil _).symm]
  rw [writeRecordData_ok ch 0 res (List.replicate ch.length 0) [] res.length
    _ _ (by omega) (by simp) hb
    (by
      rw [show 8 + 0 * 2 = 8 from rfl]
      exact drop8_hex _ _ _ _)
    (by
      simp only [List.length_append, flatMap_hex2U_length, hex2U, hex4U,
        List.length_cons, List.length_nil]
      omega)]
  rw [List.append_nil]

theorem to_go_lines : ∀ base fuel idx data l,
    l ∈ to_ihex_go base fuel idx data → ∃ a ch, l = record_line a ch := by
  intro base fuel
  induction fuel with
  | zero =>
      intro idx data l hl
      cases data with
      | nil => exact absurd hl (by simp [to_ihex_go])
      | cons b r => exact absurd hl (by simp [to_ihex_go])
  | succ f ih =>
      intro idx data l hl
      cases data with
      | nil => exact absurd hl (by simp [to_ihex_go])
      | cons b r =>
          simp only [to_ihex_go, List.mem_cons] at hl
          rcases hl with rfl | hl
          · exact ⟨_, _, rfl⟩
          · exact ih _ _ _ hl

theorem from_ihex_to_ihex_go : ∀ fuel idx (pre data : List Nat),
    data.length ≤ fuel → (∀ b ∈ data, b < 256) →
    pre.length = idx * 16 → pre.length + data.length ≤ 65536 →
    from_ihex_go (to_ihex_go 0 fuel idx data ++
      [[':', '0', '0', '0', '0', '0', '0', '0', '1', 'F', 'F']]) pre =
      .ok (pre ++ data) := by
  intro fuel
  induction fuel with
  | zero =>
      intro idx pre data hf hb hpre hbound
      have hdn : data = [] :=
        List.eq_nil_of_length_eq_zero (Nat.le_zero.mp hf)
      subst hdn
      rw [to_go_nil, List.nil_append, from_ihex_go_eof, List.append_nil]
  | succ f ih =>
      intro idx pre data hf hb hpre hbound
      cases data with
      | nil =>
          rw [to_go_nil, List.nil_append, from_ihex_go_eof, List.append_nil]
      | cons b r =>
          simp only [List.length_cons] at hf hbound
          simp only [to_ihex_go]
          rw [show ((0 + (idx * 16) % 65536) % 65536) = pre.length from by
            omega]
          rw [List.cons_append]
          rw [from_ihex_record_step _ _ _ (by simp) (by
            simp only [List.length_take, List.length_cons]
            omega) (fun x hx => hb x (List.mem_of_mem_take hx)) (by
            simp only [List.length_take, List.length_cons]
            omega)]
          by_cases hle : (b :: r).length ≤ 16
          · rw [List.drop_eq_nil_of_le hle, to_go_nil, List.nil_append,
              from_ihex_go_eof, List.take_of_length_le hle]
          · simp only [List.length_cons] at hle
            have h16 : ((b :: r).take 16).length = 16 := by
              simp only [List.length_take, List.length_cons]
              omega
            rw [ih (idx + 1) (pre ++ (b :: r).take 16) ((b :: r).drop 16)
              (by simp only [List.length_drop, List.length_cons]; omega)
              (fun x hx => hb x (List.mem_of_mem_drop hx))
              (by simp only [List.length_append, h16]; omega)
              (by
                simp only [List.length_append, h16, List.length_drop,
                  List.length_cons]
                omega)]
            rw [List.append_assoc, List.take_append_drop]

/-- C9: Intel HEX round-trip.  For every byte sequence of length at most
65536, parsing the text of `to_ihex data 0` with `from_ihex` returns the
original bytes. -/
theorem C9_hex_roundtrip : ∀ data : List Nat, data.length ≤ 65536 →
    (∀ b ∈ data, b < 256) → from_ihex (to_ihex data 0) = .ok data := by
  intro data hlen hb
  show from_ihex_go (rustLines (joinLines (to_ihex_go 0 data.length 0 data ++
    [[':', '0', '0', '0', '0', '0', '0', '0', '1', 'F', 'F']]))) [] = .ok data
  rw [rustLines_joinLines _ ?hnl ?hcr]
  case hnl =>
    intro l hl
    rcases List.mem_append.mp hl with hl | hl
    · obtain ⟨a, ch, rfl⟩ := to_go_lines _ _ _ _ _ hl
      exact record_line_no_nl a ch
    · simp only [List.mem_singleton] at hl
      subst hl
      decide
  case hcr =>
    intro l hl
    rcases List.mem_append.mp hl with hl | hl
    · obtain ⟨a, ch, rfl⟩ := to_go_lines _ _ _ _ _ hl
      exact record_line_not_cr a ch
    · simp only [List.mem_singleton] at hl
      subst hl
      decide
  have := from_ihex_to_ihex_go data.length 0 [] data (Nat.le_refl _) hb rfl
    (by simpa using hlen)
  simpa using this

/-- C9 witness: the round-trip applied to the four bytes of the S3
scenario's text section. -/
theorem C9_hex_roundtrip_witness :
    from_ihex (to_ihex [17, 1, 137, 0] 0) = .ok [17, 1, 137, 0] :=
  C9_hex_roundtrip [17, 1, 137, 0] (by decide) (by decide)

end Atlas
